import Mathlib

/-!
# gdt-core: results, contexts and the scenario execution engine

A shallow embedding of the Go packages `result`, `context`, `types`, `debug`
and `scenario` of gdt-core.

* Go `error` values are `Option GoError` (`none` is `nil`).
* Go maps keyed by strings are partial functions `String → Option V`; a nil
  map is the `none` of an enclosing `Option`.
* A panic is the `Except.error` of the function that panics.
* Side effects of `Scenario.Run` (fixture start and stop, sub-test scopes,
  debug output, sleeps, the calls of each unit's `Run`, fatal reports and
  context cancellations) are recorded, in order, as a list of `Event`s.
-/

namespace GdtCore

/-! ## Go values -/

/-- A Go map keyed by strings, as a partial function. -/
abbrev GoMap (V : Type) := String → Option V

/-- The empty map literal. -/
def GoMap.empty {V : Type} : GoMap V := fun _ => none

/-- The assignment `m[key] = val`. -/
def GoMap.set {V : Type} (m : GoMap V) (key : String) (val : V) : GoMap V :=
  fun k => if k = key then some val else m k

/-- The statement `delete(m, key)`. -/
def GoMap.delete {V : Type} (m : GoMap V) (key : String) : GoMap V :=
  fun k => if k = key then none else m k

/-- The function `lo.Assign` of the samber/lo library: the maps are merged
from left to right into a fresh map, so a later map wins on an equal key. -/
def Assign {V : Type} : List (GoMap V) → GoMap V
  | [] => GoMap.empty
  | m :: rest => fun k =>
      match Assign rest k with
      | some v => some v
      | none => m k

/-- A value of type `interface{}` stored in run data. -/
inductive Any where
  | str (s : String)
  | int (i : Int)
  | bool (b : Bool)
  deriving DecidableEq, Repr

/-! ## Errors -/

/-- A non-nil Go error: one made by `errors.New`, or one made by
`fmt.Errorf` with a `%w` verb around an inner error. Two errors are the same
value when they are built the same way. -/
inductive GoError where
  | new (msg : String)
  | wrap (inner : GoError) (detail : String)
  deriving DecidableEq, Repr

/-- The method `Error()`. -/
def GoError.Error : GoError → String
  | .new msg => msg
  | .wrap inner detail => inner.Error ++ ": " ++ detail

/-- The chain walk of `errors.Is` for a non-nil error and a non-nil target. -/
def GoError.Is : GoError → GoError → Bool
  | .new msg, target => decide (GoError.new msg = target)
  | .wrap inner detail, target =>
      if GoError.wrap inner detail = target then true else inner.Is target

/-- The function `errors.Is` of the Go standard library: with a nil on
either side it compares the two values, otherwise it walks the chain. -/
def errorsIs (err target : Option GoError) : Bool :=
  match err, target with
  | none, none => true
  | none, some _ => false
  | some _, none => false
  | some e, some t => e.Is t

/-- Modelled from the spec: the sentinel `gdterrors.RuntimeError` that
`result.go` imports, the root of the recognized runtime-error family. -/
def RuntimeError : GoError := .new "runtime error"

/-- Modelled from the spec: the sentinel `gdterrors.ErrRuntime` of the
package `errors`, the classification "runtime". -/
def ErrRuntime : GoError := .new "runtime error"

/-- Modelled from the spec: the sentinel `gdterrors.ErrRequiredFixture`, the
classification "required fixture missing", itself a runtime error. -/
def ErrRequiredFixture : GoError := .wrap ErrRuntime "required fixture missing"

/-- Modelled from the spec: `gdterrors.RequiredFixtureMissing(name)`, the
runtime error for a required fixture that is missing, carrying its name. -/
def RequiredFixtureMissing (name : String) : GoError :=
  .wrap ErrRequiredFixture name

/-- Modelled from the spec: the sentinel of the "timeout exceeded" error. -/
def ErrTimeoutExceeded : GoError := .new "timeout exceeded"

/-- Modelled from the spec: `gdterrors.TimeoutExceeded(duration)`, the
"timeout exceeded" error built from a unit's `after` string. -/
def TimeoutExceeded (duration : String) : GoError :=
  .wrap ErrTimeoutExceeded duration

/-- Modelled from the spec: the aggregator `gdterrors.RuntimeErrors`, an
ordered list of the runtime errors collected during one run. -/
structure RuntimeErrors where
  errs : List GoError
  deriving DecidableEq, Repr

/-- Modelled from the spec: `gdterrors.NewRuntimeErrors()`, an aggregator
with no error in it. -/
def NewRuntimeErrors : RuntimeErrors := { errs := [] }

/-- Modelled from the spec: `AppendIf(err)` does nothing when `err` is nil
and appends it otherwise. -/
def RuntimeErrors.AppendIf (e : RuntimeErrors) (err : Option GoError) : RuntimeErrors :=
  match err with
  | none => e
  | some x => { errs := e.errs ++ [x] }

/-- Modelled from the spec: `Empty()` reports whether zero errors were
aggregated. -/
def RuntimeErrors.Empty (e : RuntimeErrors) : Bool := e.errs.isEmpty

/-- Modelled from the spec: `Has(kind)` reports whether any aggregated error
matches the classification `kind`. -/
def RuntimeErrors.Has (e : RuntimeErrors) (kind : GoError) : Bool :=
  e.errs.any (fun x => x.Is kind)

/-! ## Package result -/

/-- The struct `Result`. -/
structure Result where
  err : Option GoError
  failures : List GoError
  data : Option (GoMap Any)
  vars : Option (GoMap Any)

/-- The method `HasRuntimeError`. -/
def Result.HasRuntimeError (r : Result) : Bool := r.err.isSome

/-- The method `RuntimeError`. -/
def Result.RuntimeError (r : Result) : Option GoError := r.err

/-- The method `HasData`. -/
def Result.HasData (r : Result) : Bool := r.data.isSome

/-- The method `HasVars`. -/
def Result.HasVars (r : Result) : Bool := r.vars.isSome

/-- The method `Data`; a nil map reads as the empty map. -/
def Result.Data (r : Result) : GoMap Any :=
  match r.data with
  | none => GoMap.empty
  | some m => m

/-- The method `Vars`; a nil map reads as the empty map. -/
def Result.Vars (r : Result) : GoMap Any :=
  match r.vars with
  | none => GoMap.empty
  | some m => m

/-- The method `Failed`. -/
def Result.Failed (r : Result) : Bool := decide (r.failures.length > 0)

/-- The method `Failures`. -/
def Result.Failures (r : Result) : List GoError := r.failures

/-- Modelled from the spec: the method `Unwrap` that `Scenario.Run` calls on
a `Result`, which yields its classified runtime error, if any. -/
def Result.Unwrap (r : Result) : Option GoError := r.err

/-- The method `SetData`. -/
def Result.SetData (r : Result) (key : String) (val : Any) : Result :=
  let data := match r.data with
    | none => GoMap.empty
    | some m => m
  { r with data := some (data.set key val) }

/-- The method `SetVars`. -/
def Result.SetVars (r : Result) (key : String) (val : Any) : Result :=
  let vars := match r.vars with
    | none => GoMap.empty
    | some m => m
  { r with vars := some (vars.set key val) }

/-- The method `SetFailures`. -/
def Result.SetFailures (r : Result) (failures : List GoError) : Result :=
  { r with failures := failures }

/-- The type `ResultModifier`. -/
abbrev ResultModifier := Result → Result

/-- The text that `fmt.Sprintf` prints for an error under the verb `%s`. -/
def errorText : Option GoError → String
  | none => "%!s(<nil>)"
  | some e => e.Error

/-- The function `WithRuntimeError`: it panics, before any modifier exists,
unless `err` is a `gdterrors.RuntimeError`. -/
def WithRuntimeError (err : Option GoError) : Except String ResultModifier :=
  if !errorsIs err (some RuntimeError) then
    .error ("expected " ++ errorText err ++ " to be a gdterrors.RuntimeError")
  else
    .ok (fun r => { r with err := err })

/-- The function `WithData`. -/
def WithData (key : String) (val : Any) : ResultModifier :=
  fun r => r.SetData key val

/-- The function `WithVar`. -/
def WithVar (key : String) (val : Any) : ResultModifier :=
  fun r => r.SetVars key val

/-- The function `WithFailures`. -/
def WithFailures (failures : List GoError) : ResultModifier :=
  fun r => r.SetFailures failures

/-- The function `New` of package result. -/
def Result.New (mods : List ResultModifier) : Result :=
  mods.foldl (fun r mod => mod r) { err := none, failures := [], data := none, vars := none }

/-! ## Package types -/

/-- A `time.Duration`, in nanoseconds. -/
abbrev Duration := Int

/-- The struct `Timeout`. -/
structure Timeout where
  After : String
  Expected : Bool
  deriving DecidableEq, Repr

/-- The method `Timeout.Duration`: the error of `time.ParseDuration` is
dropped, which leaves the zero duration. -/
def Timeout.Duration (parseDuration : String → Option Duration) (t : Timeout) : Duration :=
  match parseDuration t.After with
  | some dur => dur
  | none => 0

/-- Modelled from the spec: the struct `Wait` of package types, the delays
before and after one unit, as duration strings. -/
structure Wait where
  Before : String
  After : String
  deriving DecidableEq, Repr

/-- Modelled from the spec: the method `Wait.BeforeDuration`, the duration
that the string `Before` denotes. -/
def Wait.BeforeDuration (parseDuration : String → Option Duration) (w : Wait) : Duration :=
  match parseDuration w.Before with
  | some dur => dur
  | none => 0

/-- Modelled from the spec: the method `Wait.AfterDuration`, the duration
that the string `After` denotes. -/
def Wait.AfterDuration (parseDuration : String → Option Duration) (w : Wait) : Duration :=
  match parseDuration w.After with
  | some dur => dur
  | none => 0

/-- Modelled from the spec: the struct `Spec` of package types, the base
fields shared by every test unit. -/
structure Spec where
  Index : Nat
  Name : String
  Description : String
  Wait : Option Wait
  Timeout : Option Timeout
  deriving DecidableEq, Repr

/-- A fixture, known by an identity; its `Start` and `Stop` only have
effects, which `Scenario.Run` records as events. -/
structure Fixture where
  id : String
  deriving DecidableEq, Repr

/-- A plugin as contexts and registries see it: the name that `Info()`
reports, and an identity that tells apart two plugins of the same name. -/
structure Plugin where
  Name : String
  id : Nat
  deriving DecidableEq, Repr

/-- An `io.Writer` used as debug sink, known by an identity. -/
structure Writer where
  id : Nat
  deriving DecidableEq, Repr

/-! ## Package context -/

/-- The type `ContextKey`. -/
abbrev ContextKey := String

/-- The key of the debug writer. -/
def debugKey : ContextKey := "gdt.debug"

/-- The key of the plugin list. -/
def pluginsKey : ContextKey := "gdt.plugins"

/-- The key of the fixture table. -/
def fixturesKey : ContextKey := "gdt.fixtures"

/-- The key of the prior-run data. -/
def priorRunKey : ContextKey := "gdt.run.prior"

/-- A value stored in a context under one of the keys of the package. -/
inductive CtxValue where
  | debug (w : Writer)
  | plugins (ps : List Plugin)
  | fixtures (m : GoMap Fixture)
  | priorRun (m : GoMap Any)

/-- A `context.Context`: the root `context.TODO()`, a layer made by
`context.WithValue`, or a layer made by `context.WithTimeout`. -/
inductive Context where
  | todo
  | withValue (parent : Context) (key : ContextKey) (val : CtxValue)
  | withTimeout (parent : Context) (timeout : Duration)

/-- The method `Value` of a context: the value of the nearest layer that
holds the key. -/
def Context.Value : Context → ContextKey → Option CtxValue
  | .todo, _ => none
  | .withValue parent key val, k => if key = k then some val else parent.Value k
  | .withTimeout parent _, k => parent.Value k

/-- The timeouts of the `context.WithTimeout` layers of a context, the
innermost first; each of them can cancel the context. -/
def Context.timeouts : Context → List Duration
  | .todo => []
  | .withValue parent _ _ => parent.timeouts
  | .withTimeout parent timeout => timeout :: parent.timeouts

/-- Modelled from the spec: the accessor `Debug`, the debug writer of the
context, absent when none was set. -/
def Debug (ctx : Context) : Option Writer :=
  match ctx.Value debugKey with
  | some (.debug w) => some w
  | _ => none

/-- Modelled from the spec: the accessor `Fixtures`, the fixture table of
the context, empty when none was set. -/
def Fixtures (ctx : Context) : GoMap Fixture :=
  match ctx.Value fixturesKey with
  | some (.fixtures m) => m
  | _ => GoMap.empty

/-- Modelled from the spec: the accessor `PriorRun`, the prior-run data of
the context, empty when none was stored. -/
def PriorRun (ctx : Context) : GoMap Any :=
  match ctx.Value priorRunKey with
  | some (.priorRun m) => m
  | _ => GoMap.empty

/-- The function `StorePriorRun`. -/
def StorePriorRun (ctx : Context) (data : GoMap Any) : Context :=
  let existing := PriorRun ctx
  let merged := Assign [existing, data]
  .withValue ctx priorRunKey (.priorRun merged)

/-! ## Package debug -/

/-- The function `strings.HasPrefix` on character lists. -/
def hasPrefix : List Char → List Char → Bool
  | _, [] => true
  | [], _ :: _ => false
  | c :: cs, p :: ps => c = p && hasPrefix cs ps

/-- The function `fmt.Sprintf` for formats whose only verb is `%s`. -/
def sprintfChars : List Char → List String → List Char
  | [], _ => []
  | '%' :: 's' :: rest, arg :: args => arg.data ++ sprintfChars rest args
  | c :: rest, args => c :: sprintfChars rest args

/-- The message that `debug.Printf` writes. -/
def printfMessage (format : String) (args : List String) : String :=
  let format := if !hasPrefix format.data "(gdt) ".data then "(gdt) " ++ format else format
  String.mk (sprintfChars format.data args)

/-- The message that `debug.Println` writes. -/
def printlnMessage (format : String) (args : List String) : String :=
  let format := if !hasPrefix format.data.reverse "\n".data then format ++ "\n" else format
  printfMessage format args

/-! ## Package scenario -/

/-- The value that a unit's `Run` returns as its `error`: nil, a `*Result`,
or an error of any other type. -/
inductive RunReturn where
  | nil
  | result (res : Result)
  | err (e : GoError)

/-- A test unit: its base fields, read by `Base()`, and its `Run` method, a
function of the context that it is handed. -/
structure TestUnit where
  Base : Spec
  Run : Context → RunReturn

/-- The struct `Scenario`; `ctx` is nil until `WithContext` sets it. -/
structure Scenario where
  ctx : Option Context
  Path : String
  Name : String
  Description : String
  Defaults : GoMap Any
  Require : List String
  Tests : List TestUnit

/-- The function `path.Base` of the Go standard library. -/
def pathBase (path : String) : String :=
  if path = "" then "."
  else
    let stripped := (path.data.reverse.dropWhile (fun c => c = '/')).reverse
    let last := (stripped.reverse.takeWhile (fun c => c ≠ '/')).reverse
    if last = [] then "/" else String.mk last

/-- The method `Title`. -/
def Scenario.Title (s : Scenario) : String :=
  if s.Name ≠ "" then s.Name else pathBase s.Path

/-- What `Scenario.Run` takes from outside the repository's source tree:
`strings.ToLower` and `time.ParseDuration` of the Go standard library, and
`gdtcontext.TimedOut`, which tells from a context and the error that a unit
returned whether the deadline was exceeded. -/
structure Env where
  ToLower : String → String
  ParseDuration : String → Option Duration
  TimedOut : Context → RunReturn → Bool

/-- One observable effect of `Scenario.Run`. -/
inductive Event where
  | fixtureStart (fix : Fixture)
  | fixtureStop (fix : Fixture)
  | subtest (name : String)
  | debugWrite (w : Option Writer) (msg : String)
  | sleep (d : Duration)
  | unitRun (spec : TestUnit) (ctx : Context)
  | fatal (err : GoError)
  | cancel (ctx : Context)

/-- The error that `Scenario.Run` returns when it is not nil: the error of
a missing fixture, or the aggregator itself. -/
inductive RunError where
  | single (err : GoError)
  | aggregate (errs : RuntimeErrors)
  deriving DecidableEq, Repr

/-- Modelled from the spec: `errors.Is` on the error that `Scenario.Run`
returns; the aggregate wraps every error it collected. -/
def RunError.Is : RunError → GoError → Bool
  | .single err, target => err.Is target
  | .aggregate errs, target => errs.Has target

/-- The loop over `s.Require`: the fixtures found and started, in the order
of their start, and the first name whose lookup failed, if any. -/
def requireFixtures (env : Env) (fixtures : GoMap Fixture) :
    List String → List Fixture × Option String
  | [] => ([], none)
  | fname :: rest =>
      let lookup := env.ToLower fname
      match fixtures lookup with
      | none => ([], some fname)
      | some fix =>
          let r := requireFixtures env fixtures rest
          (fix :: r.1, r.2)

/-- The variables that the loop over `s.Tests` carries from one unit to the
next: the context `ctx`, the aggregator `errs`, and the cancel functions
deferred in the sub-test function, the latest first (each named by the
context that it cancels). -/
structure LoopState where
  ctx : Context
  errs : RuntimeErrors
  defers : List Context

/-- What one or more iterations of the loop leave behind: the variables,
the events in order, and whether `t.Fatal` ended the sub-test function. -/
structure LoopResult where
  state : LoopState
  events : List Event
  exited : Bool

/-- The events of the delay before a unit. -/
def waitBefore (env : Env) (ctx : Context) (wait : Option Wait) : List Event :=
  match wait with
  | none => []
  | some w =>
      if w.Before ≠ "" then
        [.debugWrite (Debug ctx) (printlnMessage "wait: %s before" [w.Before]),
         .sleep (w.BeforeDuration env.ParseDuration)]
      else []

/-- The events of the delay after a unit. -/
def waitAfter (env : Env) (ctx : Context) (wait : Option Wait) : List Event :=
  match wait with
  | none => []
  | some w =>
      if w.After ≠ "" then
        [.debugWrite (Debug ctx) (printlnMessage "wait: %s after" [w.After]),
         .sleep (w.AfterDuration env.ParseDuration)]
      else []

/-- The derivation of the context with a deadline: the variable `ctx` of
the enclosing function is assigned, and the cancel function is deferred. -/
def deriveTimeout (env : Env) (st : LoopState) (timeout : Option Timeout) : LoopState :=
  match timeout with
  | none => st
  | some t =>
      let child := Context.withTimeout st.ctx (t.Duration env.ParseDuration)
      { st with ctx := child, defers := child :: st.defers }

/-- The handling of the error left after the timeout check: the data of a
`Result` goes into the context and its runtime error into the aggregator;
any other error goes into the aggregator. -/
def recordReturn (st : LoopState) (err : RunReturn) : LoopState :=
  match err with
  | .result res =>
      let ctx := if res.HasData then StorePriorRun st.ctx res.Data else st.ctx
      { st with ctx := ctx, errs := st.errs.AppendIf res.Unwrap }
  | .err e => { st with errs := st.errs.AppendIf (some e) }
  | .nil => { st with errs := st.errs.AppendIf none }

/-- One iteration of the loop over `s.Tests`. -/
def runSpec (env : Env) (st : LoopState) (spec : TestUnit) : LoopResult :=
  let sb := spec.Base
  let wait := sb.Wait
  let before := waitBefore env st.ctx wait
  let timeout := sb.Timeout
  let st := deriveTimeout env st timeout
  let err := spec.Run st.ctx
  let ran := before ++ [Event.unitRun spec st.ctx]
  if env.TimedOut st.ctx err then
    match timeout with
    | some t =>
        if !t.Expected then
          { state := st, events := ran ++ [.fatal (TimeoutExceeded t.After)], exited := true }
        else
          let st := recordReturn st .nil
          { state := st, events := ran ++ waitAfter env st.ctx wait, exited := false }
    | none =>
        let st := recordReturn st .nil
        { state := st, events := ran ++ waitAfter env st.ctx wait, exited := false }
  else
    let st := recordReturn st err
    { state := st, events := ran ++ waitAfter env st.ctx wait, exited := false }

/-- The loop over `s.Tests`, which ends early when `t.Fatal` is called. -/
def runSpecs (env : Env) (st : LoopState) : List TestUnit → LoopResult
  | [] => { state := st, events := [], exited := false }
  | spec :: rest =>
      let r := runSpec env st spec
      if r.exited then r
      else
        let r2 := runSpecs env r.state rest
        { state := r2.state, events := r.events ++ r2.events, exited := r2.exited }

/-- What a call of `Scenario.Run` yields: the error returned and the
events, in order. -/
structure RunOutcome where
  ret : Option RunError
  events : List Event

/-- The method `Scenario.Run`. The deferred calls run when their function
ends, the latest first: the cancel functions when the sub-test function
ends (also when `t.Fatal` ends it), the `Stop` of each started fixture when
`Run` itself returns. -/
def Scenario.Run (env : Env) (s : Scenario) (ctx : Context) : RunOutcome :=
  let fx := if s.Require.length > 0 then requireFixtures env (Fixtures ctx) s.Require
            else ([], none)
  let starts := fx.1.map Event.fixtureStart
  let stops := fx.1.reverse.map Event.fixtureStop
  match fx.2 with
  | some fname =>
      { ret := some (.single (RequiredFixtureMissing fname)), events := starts ++ stops }
  | none =>
      let errs := NewRuntimeErrors
      let r := runSpecs env { ctx := ctx, errs := errs, defers := [] } s.Tests
      let cancels := r.state.defers.map Event.cancel
      { ret := if r.state.errs.Empty then none else some (.aggregate r.state.errs),
        events := starts ++ [Event.subtest s.Title] ++ r.events ++ cancels ++ stops }

/-- The units whose `Run` was called, each with the context it was handed,
in the order of the calls. -/
def invocations : List Event → List (TestUnit × Context)
  | [] => []
  | .unitRun spec ctx :: rest => (spec, ctx) :: invocations rest
  | _ :: rest => invocations rest

/-! ## Ways of building and changing a Result -/

/-- A call of one of the four functions that build a `ResultModifier`. -/
inductive ModifierCall where
  | withRuntimeError (err : Option GoError)
  | withData (key : String) (val : Any)
  | withVar (key : String) (val : Any)
  | withFailures (failures : List GoError)

/-- The modifier that the call returns, or the panic that it raises. -/
def ModifierCall.eval : ModifierCall → Except String ResultModifier
  | .withRuntimeError err => WithRuntimeError err
  | .withData key val => .ok (WithData key val)
  | .withVar key val => .ok (WithVar key val)
  | .withFailures failures => .ok (WithFailures failures)

/-- The argument list of `New`: the calls are evaluated from left to right
and the first panic ends the evaluation. -/
def evalModifiers : List ModifierCall → Except String (List ResultModifier)
  | [] => .ok []
  | c :: rest =>
      match c.eval with
      | .error msg => .error msg
      | .ok mod =>
          match evalModifiers rest with
          | .error msg => .error msg
          | .ok mods => .ok (mod :: mods)

/-- A call of one of the three setters of a `Result`. -/
inductive SetterCall where
  | setData (key : String) (val : Any)
  | setVars (key : String) (val : Any)
  | setFailures (failures : List GoError)

/-- The Result after the call. -/
def SetterCall.apply : SetterCall → Result → Result
  | .setData key val, r => r.SetData key val
  | .setVars key val, r => r.SetVars key val
  | .setFailures failures, r => r.SetFailures failures

/-- The Result after a sequence of setter calls, in order. -/
def applySetters (r : Result) (calls : List SetterCall) : Result :=
  calls.foldl (fun acc c => c.apply acc) r

/-- The invariant of a `Result`: its error is nil or a runtime error. -/
def Result.errIsRuntime (r : Result) : Prop :=
  r.err = none ∨ errorsIs r.err (some GdtCore.RuntimeError) = true

/-! ## Notions used to state what the loop does -/

/-- The context that the loop hands to a unit's `Run` when it reaches the
unit with the variables `st`. -/
def unitContext (env : Env) (st : LoopState) (spec : TestUnit) : Context :=
  (deriveTimeout env st spec.Base.Timeout).ctx

/-- A call of a unit's `Run` hit an unexpected timeout: the error it
returned indicates that the deadline was exceeded, and the unit has a
timeout whose `Expected` is false. -/
def unexpectedTimeout (env : Env) (p : TestUnit × Context) : Bool :=
  env.TimedOut p.2 (p.1.Run p.2) &&
    match p.1.Base.Timeout with
    | some t => !t.Expected
    | none => false

/-- The runtime error that a call of a unit's `Run` contributes to the
aggregator: none when the call timed out, none for a nil return, the
runtime error of a Result, or the plain error returned. -/
def contribution (env : Env) (p : TestUnit × Context) : Option GoError :=
  if env.TimedOut p.2 (p.1.Run p.2) then none
  else
    match p.1.Run p.2 with
    | .nil => none
    | .result res => res.Unwrap
    | .err e => some e

/-- The data map of the Result that a unit returned; empty when the unit
returned no Result or a Result without data. -/
def returnedData : RunReturn → GoMap Any
  | .result res => res.Data
  | _ => GoMap.empty

/-- The in-order merge of data maps: a later map wins on an equal key and
older keys are kept. -/
def mergeData (ds : List (GoMap Any)) : GoMap Any :=
  ds.foldl (fun acc d => Assign [acc, d]) GoMap.empty

/-- The variables of the loop of `Scenario.Run` at its start. -/
def loopStart (ctx : Context) : LoopState :=
  { ctx := ctx, errs := NewRuntimeErrors, defers := [] }

/-- Whether an event is the start or the stop of a fixture. -/
def Event.isFixture : Event → Bool
  | .fixtureStart _ => true
  | .fixtureStop _ => true
  | _ => false

/-- Whether an event is a fatal report to the reporting sink. -/
def Event.isFatal : Event → Bool
  | .fatal _ => true
  | _ => false

/-! ## Concrete inputs -/

/-- The function `strings.ToLower` on ASCII text. -/
def asciiToLower (s : String) : String := String.mk (s.data.map Char.toLower)

/-- The error `context.DeadlineExceeded` of the Go standard library. -/
def DeadlineExceeded : GoError := .new "context deadline exceeded"

/-- An environment in which a call timed out exactly when the unit returned
`context.DeadlineExceeded`, and in which "20ms" parses to twenty million
nanoseconds. -/
def sampleEnv : Env :=
  { ToLower := asciiToLower
    ParseDuration := fun text => if text = "20ms" then some 20000000 else none
    TimedOut := fun _ err =>
      match err with
      | .err e => e.Is DeadlineExceeded
      | _ => false }

/-- A unit with the given index and timeout whose `Run` returns the same
value in every context. -/
def sampleUnit (index : Nat) (timeout : Option Timeout) (ret : RunReturn) : TestUnit :=
  { Base := { Index := index, Name := "", Description := "", Wait := none, Timeout := timeout }
    Run := fun _ => ret }

/-- A scenario named "sample" with the given `Require` and `Tests`. -/
def sampleScenario (require : List String) (tests : List TestUnit) : Scenario :=
  { ctx := none, Path := "testdata/sample.yaml", Name := "sample", Description := "",
    Defaults := GoMap.empty, Require := require, Tests := tests }

/-- A context whose fixture table has the single entry `key`. -/
def fixtureContext (key : String) (fix : Fixture) : Context :=
  .withValue .todo fixturesKey (.fixtures (GoMap.set GoMap.empty key fix))

/-- A Result whose only content is the data entry `key`. -/
def dataResult (key : String) (val : Any) : Result :=
  Result.New [WithData key val]

/-- A Result whose only content is the runtime error `err`. -/
def errorResult (err : GoError) : Result :=
  { err := some err, failures := [], data := none, vars := none }

/-- The variables of the loop of `Scenario.Run` when it reaches unit number
`i`, that is after the iterations of the first `i` units. -/
def Scenario.stateBefore (env : Env) (s : Scenario) (ctx : Context) (i : Nat) : LoopState :=
  (runSpecs env (loopStart ctx) (s.Tests.take i)).state

/-- The iteration of the loop of `Scenario.Run` for the unit `spec` reached
as unit number `i`. -/
def Scenario.iteration (env : Env) (s : Scenario) (ctx : Context) (i : Nat)
    (spec : TestUnit) : LoopResult :=
  runSpec env (s.stateBefore env ctx i) spec

/-- A scenario that requires the fixture "Books_API" and has one unit. -/
def mixedCaseScenario : Scenario :=
  sampleScenario ["Books_API"] [sampleUnit 0 none .nil]

/-- A scenario that requires the fixture "books_api" and has one unit. -/
def booksScenario : Scenario :=
  sampleScenario ["books_api"] [sampleUnit 0 none .nil]

/-- A scenario of three units: the first returns a plain runtime error, the
second a Result holding a runtime error, the third nil. -/
def failingScenario : Scenario :=
  sampleScenario []
    [sampleUnit 0 none (.err (RequiredFixtureMissing "db")),
     sampleUnit 1 none (.result (errorResult ErrRuntime)),
     sampleUnit 2 none .nil]

/-- A scenario of two units that each return a Result with data under the
key "k". -/
def priorRunScenario : Scenario :=
  sampleScenario []
    [sampleUnit 0 none (.result (dataResult "k" (.str "v0"))),
     sampleUnit 1 none (.result (dataResult "k" (.str "v1")))]

/-- A scenario of two units: the first has a timeout of 20ms that is not
expected to be exceeded and returns `context.DeadlineExceeded`. -/
def fatalScenario : Scenario :=
  sampleScenario []
    [sampleUnit 0 (some { After := "20ms", Expected := false }) (.err DeadlineExceeded),
     sampleUnit 1 none .nil]

/-- A scenario of two units: the first has a timeout of 20ms that is
expected to be exceeded and returns `context.DeadlineExceeded`. -/
def expectedScenario : Scenario :=
  sampleScenario []
    [sampleUnit 0 (some { After := "20ms", Expected := true }) (.err DeadlineExceeded),
     sampleUnit 1 none .nil]

/-- A scenario of two units: the first has a timeout of 20ms and returns
nil in time, the second has no timeout. -/
def cascadeScenario : Scenario :=
  sampleScenario []
    [sampleUnit 0 (some { After := "20ms", Expected := false }) .nil,
     sampleUnit 1 none .nil]

/-- A scenario that requires the fixtures "A" and "b" and whose only unit
returns a runtime error. -/
def twoFixtureScenario : Scenario :=
  sampleScenario ["A", "b"] [sampleUnit 0 none (.err ErrRuntime)]

/-- A context whose fixture table has the entries "a" and "b". -/
def twoFixtureContext : Context :=
  .withValue .todo fixturesKey
    (.fixtures ((GoMap.set GoMap.empty "a" { id := "fa" }).set "b" { id := "fb" }))

/-- A context whose fixture table has the entry "a" only. -/
def oneFixtureContext : Context := fixtureContext "a" { id := "fa" }

/-! ## Further notions and concrete inputs -/

/-- A fresh aggregator after a sequence of `AppendIf` calls, in order. -/
def appendAll (errs : List (Option GoError)) : RuntimeErrors :=
  errs.foldl RuntimeErrors.AppendIf NewRuntimeErrors

/-- A scenario whose only unit has no timeout and returns
`context.DeadlineExceeded` as a plain error. -/
def deadlineScenario : Scenario :=
  sampleScenario [] [sampleUnit 0 none (.err DeadlineExceeded)]

/-- The context made by `context.WithTimeout(context.TODO(), 20ms)`. -/
def deadlineContext : Context := .withTimeout .todo 20000000

/-! ## Package plugin -/

/-- The assignment `m[key] = val` on a Go map kept as the list of its
entries, one entry for each key. -/
def entriesStore {V : Type} : List (String × V) → String → V → List (String × V)
  | [], key, val => [(key, val)]
  | (k, v) :: rest, key, val =>
      if k = key then (key, val) :: rest else (k, v) :: entriesStore rest key val

/-- The statement `delete(m, key)` on a Go map kept as the list of its
entries. -/
def entriesDelete {V : Type} (m : List (String × V)) (key : String) : List (String × V) :=
  m.filter (fun e => decide (e.1 ≠ key))

/-- The struct `PluginRegistry`; its lock is left out, the calls are taken
one at a time. -/
structure PluginRegistry where
  entries : List (String × Plugin)
  deriving DecidableEq, Repr

/-- The function `NewRegistry`. -/
def NewRegistry : PluginRegistry := { entries := [] }

/-- The method `Remove`, with `strings.ToLower` as a parameter. -/
def PluginRegistry.Remove (toLower : String → String) (r : PluginRegistry) (p : Plugin) :
    PluginRegistry :=
  let lowered := toLower p.Name
  { entries := entriesDelete r.entries lowered }

/-- The method `Add`, with `strings.ToLower` as a parameter. -/
def PluginRegistry.Add (toLower : String → String) (r : PluginRegistry) (p : Plugin) :
    PluginRegistry :=
  let lowered := toLower p.Name
  { entries := entriesStore r.entries lowered p }

/-- A call of `Add` or of `Remove` on a registry. -/
inductive RegistryCall where
  | add (p : Plugin)
  | remove (p : Plugin)
  deriving DecidableEq, Repr

/-- The registry after the call. -/
def RegistryCall.apply (toLower : String → String) : RegistryCall → PluginRegistry → PluginRegistry
  | .add p, r => r.Add toLower p
  | .remove p, r => r.Remove toLower p

/-- The registry after a sequence of calls, in order. -/
def applyRegistryCalls (toLower : String → String) (r : PluginRegistry)
    (calls : List RegistryCall) : PluginRegistry :=
  calls.foldl (fun acc c => c.apply toLower acc) r

/-- The invariant of a registry: no key occurs twice, and every plugin is
kept under its lower-cased name. -/
def PluginRegistry.wellKeyed (toLower : String → String) (r : PluginRegistry) : Prop :=
  (r.entries.map Prod.fst).Nodup ∧ ∀ e ∈ r.entries, e.1 = toLower e.2.Name

/-- The method `List`: the plugins of the entries. Go visits the entries
of a map in no fixed order; here they come in the order of the list. -/
def PluginRegistry.List (r : PluginRegistry) : List Plugin :=
  r.entries.map Prod.snd

/-! ## Package context: the operations -/

/-- The type `ContextModifier`. -/
abbrev ContextModifier := Context → Context

/-- The function `WithDebug`. -/
def WithDebug (debug : Writer) : ContextModifier :=
  fun ctx => .withValue ctx debugKey (.debug debug)

/-- The function `WithPlugins`. -/
def WithPlugins (plugins : List Plugin) : ContextModifier :=
  fun ctx => .withValue ctx pluginsKey (.plugins plugins)

/-- The function `WithFixtures`. -/
def WithFixtures (fixtures : GoMap Fixture) : ContextModifier :=
  fun ctx => .withValue ctx fixturesKey (.fixtures fixtures)

/-- The function `SetDebug`. -/
def SetDebug (ctx : Context) (debug : Writer) : Context :=
  .withValue ctx debugKey (.debug debug)

/-- Modelled from the spec: the accessor `Plugins`, the plugin list of the
context, empty when none was set. -/
def Plugins (ctx : Context) : List Plugin :=
  match ctx.Value pluginsKey with
  | some (.plugins ps) => ps
  | _ => []

/-- The function `New` of package context. -/
def Context.New (mods : List ContextModifier) : Context :=
  mods.foldl (fun ctx mod => mod ctx) .todo

/-! ## Plugin lists as slices -/

/-- A Go slice of plugins: the address of its backing array, its length and
its capacity. -/
structure PluginSlice where
  array : Nat
  len : Nat
  cap : Nat
  deriving DecidableEq, Repr

/-- The backing arrays of plugin slices: the cell at each address and
position, nil when nothing was written to it, and the number of arrays made
so far, which is the address of the next one. Two slices with the same
array share its cells. -/
structure ArrayMemory where
  next : Nat
  cells : Nat → Nat → Option Plugin

/-- A memory in which no array was made yet. -/
def ArrayMemory.initial : ArrayMemory :=
  { next := 0, cells := fun _ _ => none }

/-- The elements of a slice: the cells of its array below its length. -/
def ArrayMemory.elements (mem : ArrayMemory) (s : PluginSlice) : List Plugin :=
  (List.range s.len).filterMap (mem.cells s.array)

/-- The built-in `append(s, p)` of Go. When the array has room after the
last element, the plugin is written into that cell of the same array, in
place. Otherwise a new array is made, the elements are copied into it and
the plugin is written after them; the capacity of the new array is given by
`grow`, the rule of the Go runtime, which is a parameter. -/
def ArrayMemory.append (grow : Nat → Nat) (mem : ArrayMemory) (s : PluginSlice) (p : Plugin) :
    ArrayMemory × PluginSlice :=
  if s.len < s.cap then
    ({ mem with cells := fun a i => if a = s.array ∧ i = s.len then some p else mem.cells a i },
     { s with len := s.len + 1 })
  else
    ({ next := mem.next + 1,
       cells := fun a i =>
         if a = mem.next then
           (if i < s.len then mem.cells s.array i else if i = s.len then some p else none)
         else mem.cells a i },
     { array := mem.next, len := s.len + 1, cap := grow s.cap })

/-- A context whose plugin-list layers hold a slice, as
`context.WithValue(ctx, pluginsKey, plugins)` stores it. -/
inductive SliceContext where
  | todo
  | withDebug (parent : SliceContext) (w : Writer)
  | withPlugins (parent : SliceContext) (s : PluginSlice)
  | withFixtures (parent : SliceContext) (fixtures : GoMap Fixture)
  | withPriorRun (parent : SliceContext) (m : GoMap Any)
  | withTimeout (parent : SliceContext) (timeout : Duration)

/-- Modelled from the spec: the slice that the accessor `Plugins` yields,
the one held by the nearest plugin-list layer, and an empty slice without
capacity when there is none. -/
def SliceContext.slice : SliceContext → PluginSlice
  | .todo => { array := 0, len := 0, cap := 0 }
  | .withDebug parent _ => parent.slice
  | .withPlugins _ s => s
  | .withFixtures parent _ => parent.slice
  | .withPriorRun parent _ => parent.slice
  | .withTimeout parent _ => parent.slice

/-- The context as its accessors read it in a given memory. -/
def SliceContext.view (mem : ArrayMemory) : SliceContext → Context
  | .todo => .todo
  | .withDebug parent w => .withValue (parent.view mem) debugKey (.debug w)
  | .withPlugins parent s => .withValue (parent.view mem) pluginsKey (.plugins (mem.elements s))
  | .withFixtures parent m => .withValue (parent.view mem) fixturesKey (.fixtures m)
  | .withPriorRun parent m => .withValue (parent.view mem) priorRunKey (.priorRun m)
  | .withTimeout parent timeout => .withTimeout (parent.view mem) timeout

/-- The function `RegisterPlugin`: when a plugin of the slice that the
context holds has the name of `p`, the context is returned as it is;
otherwise `p` is appended to that slice with the built-in `append` and the
resulting slice is stored in a new layer. -/
def RegisterPlugin (grow : Nat → Nat) (mem : ArrayMemory) (ctx : SliceContext) (p : Plugin) :
    ArrayMemory × SliceContext :=
  let plugins := ctx.slice
  if (mem.elements plugins).any (fun plug => plug.Name = p.Name) then (mem, ctx)
  else
    let r := mem.append grow plugins p
    (r.1, .withPlugins ctx r.2)

/-- The capacities that the Go runtime gives to a small slice that grows
by one element: 1 for an empty slice without capacity, and then twice the
capacity it had. -/
def goGrow (cap : Nat) : Nat := if cap = 0 then 1 else 2 * cap

/-- The memory and context after the plugins "a", "b" and "c" were
registered, one after the other, from `context.New()`. -/
def threePlugins : ArrayMemory × SliceContext :=
  [({ Name := "a", id := 1 } : Plugin), { Name := "b", id := 2 }, { Name := "c", id := 3 }].foldl
    (fun r p => RegisterPlugin goGrow r.1 r.2 p) (ArrayMemory.initial, SliceContext.todo)

/-- The memory and context after `RegisterPlugin(ctx, d)` on the context of
`threePlugins`. -/
def fourthPlugin : ArrayMemory × SliceContext :=
  RegisterPlugin goGrow threePlugins.1 threePlugins.2 { Name := "d", id := 4 }

/-- The memory and context after one more call, `RegisterPlugin(ctx, e)`,
on the same context of `threePlugins`. -/
def siblingPlugin : ArrayMemory × SliceContext :=
  RegisterPlugin goGrow fourthPlugin.1 threePlugins.2 { Name := "e", id := 5 }

/-! ## Fixture tables as shared map objects -/

/-- The map objects of fixture tables: the object at each address, and the
number of objects made so far, which is the address of the next one. A Go
map value is a reference to such an object, so two holders of the same map
see each write of the other. -/
structure TableMemory where
  next : Nat
  objects : Nat → GoMap Fixture

/-- The map object at an address. -/
def TableMemory.read (mem : TableMemory) (addr : Nat) : GoMap Fixture :=
  mem.objects addr

/-- The assignment `m[name] = f` on the map object at an address. -/
def TableMemory.store (mem : TableMemory) (addr : Nat) (name : String) (f : Fixture) :
    TableMemory :=
  { mem with objects := fun a => if a = addr then (mem.read addr).set name f else mem.objects a }

/-- A new, empty map object and its address. -/
def TableMemory.make (mem : TableMemory) : TableMemory × Nat :=
  ({ next := mem.next + 1,
     objects := fun a => if a = mem.next then GoMap.empty else mem.objects a }, mem.next)

/-- A memory in which no map object was made yet. -/
def TableMemory.initial : TableMemory :=
  { next := 0, objects := fun _ => GoMap.empty }

/-- A context whose fixture-table layers hold a reference to a map object,
as `context.WithValue(ctx, fixturesKey, fixtures)` stores it. -/
inductive SharedContext where
  | todo
  | withDebug (parent : SharedContext) (w : Writer)
  | withPlugins (parent : SharedContext) (ps : List Plugin)
  | withTable (parent : SharedContext) (addr : Nat)
  | withPriorRun (parent : SharedContext) (m : GoMap Any)
  | withTimeout (parent : SharedContext) (timeout : Duration)

/-- The map reference that `ctx.Value(fixturesKey)` yields: the address in
the nearest fixture-table layer, if there is one. -/
def SharedContext.table : SharedContext → Option Nat
  | .todo => none
  | .withDebug parent _ => parent.table
  | .withPlugins parent _ => parent.table
  | .withTable _ addr => some addr
  | .withPriorRun parent _ => parent.table
  | .withTimeout parent _ => parent.table

/-- The context as its accessors read it in a given memory. -/
def SharedContext.view (mem : TableMemory) : SharedContext → Context
  | .todo => .todo
  | .withDebug parent w => .withValue (parent.view mem) debugKey (.debug w)
  | .withPlugins parent ps => .withValue (parent.view mem) pluginsKey (.plugins ps)
  | .withTable parent addr => .withValue (parent.view mem) fixturesKey (.fixtures (mem.read addr))
  | .withPriorRun parent m => .withValue (parent.view mem) priorRunKey (.priorRun m)
  | .withTimeout parent timeout => .withTimeout (parent.view mem) timeout

/-- The function `RegisterFixture`. `Fixtures(ctx)` yields the map that the
context holds, or a new empty map when it holds none (modelled from the
spec); the assignment writes into that map object; the new layer holds the
same map. -/
def RegisterFixture (mem : TableMemory) (ctx : SharedContext) (name : String) (f : Fixture) :
    TableMemory × SharedContext :=
  let fixtures := match ctx.table with
    | some addr => (mem, addr)
    | none => mem.make
  let mem := fixtures.1.store fixtures.2 name f
  (mem, .withTable ctx fixtures.2)

/-- A memory with one fixture table, whose only entry is "a". -/
def oneTableMemory : TableMemory :=
  (TableMemory.initial.make.1.store 0 "a" { id := "fa" })

/-- A context made with `WithFixtures` from the table of `oneTableMemory`. -/
def oneTableContext : SharedContext := .withTable .todo 0

/-- The memory and context after `RegisterFixture(ctx, "Books_API", fx)` on
`context.TODO()`. -/
def registeredBooks : TableMemory × SharedContext :=
  RegisterFixture TableMemory.initial .todo "Books_API" { id := "fx" }

/-! ## Documents and the spec resolver -/

/-- A node of a document, as `yaml.Node` gives it: a scalar with its
value, a mapping whose content is the run of its key and value nodes, or a
sequence. The position of a node is left out. -/
inductive YamlNode where
  | scalar (value : String)
  | mapping (content : List YamlNode)
  | sequence (content : List YamlNode)

/-- Modelled from the spec: the sentinel `ErrParse`, the class of the
parse-time errors. -/
def ErrParse : GoError := .new "parse error"

/-- Modelled from the spec: the sentinel `ErrExpectedMap`. -/
def ErrExpectedMap : GoError := .wrap ErrParse "expected map field"

/-- Modelled from the spec: the sentinel `ErrExpectedScalar`. -/
def ErrExpectedScalar : GoError := .wrap ErrParse "expected scalar field"

/-- Modelled from the spec: the sentinel `ErrExpectedInt`. -/
def ErrExpectedInt : GoError := .wrap ErrParse "expected int value"

/-- Modelled from the spec: the sentinel `ErrUnknownField`, with which a
shape rejects a field that it does not recognize. -/
def ErrUnknownField : GoError := .wrap ErrParse "unknown field"

/-- Modelled from the spec: the sentinel `ErrUnknownSpec`, the
classification "unknown spec". -/
def ErrUnknownSpec : GoError := .wrap ErrParse "no plugin could parse spec definition"

/-- Modelled from the spec: `ExpectedMapAt(node)`. -/
def ExpectedMapAt (_node : YamlNode) : GoError := .wrap ErrExpectedMap "at node"

/-- Modelled from the spec: `ExpectedScalarAt(node)`. -/
def ExpectedScalarAt (_node : YamlNode) : GoError := .wrap ErrExpectedScalar "at node"

/-- Modelled from the spec: `ExpectedIntAt(node)`. -/
def ExpectedIntAt (_node : YamlNode) : GoError := .wrap ErrExpectedInt "at node"

/-- Modelled from the spec: `UnknownFieldAt(field, node)`. -/
def UnknownFieldAt (field : String) (_node : YamlNode) : GoError :=
  .wrap ErrUnknownField field

/-- Modelled from the spec: `UnknownSpecAt(path, node)`, the "unknown spec"
error wrapped as a parse error of the scenario at `path`. -/
def UnknownSpecAt (path : String) (_node : YamlNode) : GoError :=
  .wrap ErrUnknownSpec path

/-- Modelled from the spec: `gdttypes.BaseSpecFields`, the names of the
fields common to every unit. -/
def BaseSpecFields : List String := ["name", "description", "wait", "timeout"]

/-- The names of the scalar keys in the content of a mapping. -/
def mappingKeys : List YamlNode → List String
  | .scalar key :: _ :: rest => key :: mappingKeys rest
  | _ :: _ :: rest => mappingKeys rest
  | _ => []

/-- The names of the fields of a node. -/
def nodeFields : YamlNode → List String
  | .mapping content => mappingKeys content
  | _ => []

/-- The value of a decimal digit. -/
def digitValue : Char → Option Nat
  | '0' => some 0
  | '1' => some 1
  | '2' => some 2
  | '3' => some 3
  | '4' => some 4
  | '5' => some 5
  | '6' => some 6
  | '7' => some 7
  | '8' => some 8
  | '9' => some 9
  | _ => none

/-- The value of a run of decimal digits, read after the value `acc`. -/
def digitsValue : List Char → Nat → Option Nat
  | [], acc => some acc
  | c :: rest, acc =>
      match digitValue c with
      | none => none
      | some d => digitsValue rest (acc * 10 + d)

/-- The function `strconv.Atoi` on text within the range of `int`: an
optional sign followed by one decimal digit or more. -/
def atoi (s : String) : Option Int :=
  match s.data with
  | [] => none
  | ['-'] => none
  | ['+'] => none
  | '-' :: rest => (digitsValue rest 0).map (fun n => - (n : Int))
  | '+' :: rest => (digitsValue rest 0).map (fun n => (n : Int))
  | cs => (digitsValue cs 0).map (fun n => (n : Int))

/-- The zero value of `gdttypes.Spec`. -/
def zeroSpec : Spec :=
  { Index := 0, Name := "", Description := "", Wait := none, Timeout := none }

/-- The struct `fooSpec` of the tests. -/
structure fooSpec where
  Spec : Spec
  Foo : String

/-- The loop of `fooSpec.UnmarshalYAML` over the content of the mapping. -/
def fooSpec.unmarshalContent (s : fooSpec) : List YamlNode → Except GoError fooSpec
  | keyNode :: valNode :: rest =>
      match keyNode with
      | .scalar key =>
          if key = "foo" then
            match valNode with
            | .scalar value => fooSpec.unmarshalContent { s with Foo := value } rest
            | _ => .error (ExpectedScalarAt valNode)
          else if BaseSpecFields.contains key then fooSpec.unmarshalContent s rest
          else .error (UnknownFieldAt key keyNode)
      | _ => .error (ExpectedScalarAt keyNode)
  | _ => .ok s

/-- The method `fooSpec.UnmarshalYAML` of the tests. -/
def fooSpec.UnmarshalYAML (s : fooSpec) (node : YamlNode) : Except GoError fooSpec :=
  match node with
  | .mapping content => s.unmarshalContent content
  | _ => .error (ExpectedMapAt node)

/-- The struct `barSpec` of the tests. -/
structure barSpec where
  Spec : Spec
  Bar : Int

/-- The loop of `barSpec.UnmarshalYAML` over the content of the mapping. -/
def barSpec.unmarshalContent (s : barSpec) : List YamlNode → Except GoError barSpec
  | keyNode :: valNode :: rest =>
      match keyNode with
      | .scalar key =>
          if key = "bar" then
            match valNode with
            | .scalar value =>
                match atoi value with
                | none => .error (ExpectedIntAt valNode)
                | some v => barSpec.unmarshalContent { s with Bar := v } rest
            | _ => .error (ExpectedScalarAt valNode)
          else if BaseSpecFields.contains key then barSpec.unmarshalContent s rest
          else .error (UnknownFieldAt key keyNode)
      | _ => .error (ExpectedScalarAt keyNode)
  | _ => .ok s

/-- The method `barSpec.UnmarshalYAML` of the tests. -/
def barSpec.UnmarshalYAML (s : barSpec) (node : YamlNode) : Except GoError barSpec :=
  match node with
  | .mapping content => s.unmarshalContent content
  | _ => .error (ExpectedMapAt node)

/-- The struct `failSpec` of the tests. -/
structure failSpec where
  Spec : Spec

/-- The method `failSpec.UnmarshalYAML` of the tests. -/
def failSpec.UnmarshalYAML (_s : failSpec) (_node : YamlNode) : Except GoError failSpec :=
  .error (.new "Indy, bad dates!")

/-- The method `failDefaults.UnmarshalYAML` of the tests. -/
def failDefaultsUnmarshalYAML (_node : YamlNode) : Except GoError Any :=
  .error (.new "Indy, bad dates!")

/-- The method `barDefaults.UnmarshalYAML` of the tests, which reads
nothing. -/
def barDefaultsUnmarshalYAML (_node : YamlNode) : Except GoError Any :=
  .ok (.str "")

/-- The decoding of a mapping into `fooInnerDefaults` by the yaml library,
for scalar values: the field `bar` is a string, the field `fail` a
boolean, any other field is passed over. -/
def fooInnerDefaultsDecode (inner : String × Bool) : List YamlNode → Except GoError (String × Bool)
  | .scalar key :: valNode :: rest =>
      if key = "bar" then
        match valNode with
        | .scalar value => fooInnerDefaultsDecode (value, inner.2) rest
        | _ => .error (.new "yaml: unmarshal errors")
      else if key = "fail" then
        match valNode with
        | .scalar value =>
            if value = "true" then fooInnerDefaultsDecode (inner.1, true) rest
            else if value = "false" then fooInnerDefaultsDecode (inner.1, false) rest
            else .error (.new "yaml: unmarshal errors")
        | _ => .error (.new "yaml: unmarshal errors")
      else fooInnerDefaultsDecode inner rest
  | _ :: _ :: rest => fooInnerDefaultsDecode inner rest
  | _ => .ok inner

/-- The loop of `fooDefaults.UnmarshalYAML` over the content of the
mapping. -/
def fooDefaultsContent (d : String × Bool) : List YamlNode → Except GoError (String × Bool)
  | keyNode :: valNode :: rest =>
      match keyNode with
      | .scalar key =>
          if key = "foo" then
            match valNode with
            | .mapping content =>
                match fooInnerDefaultsDecode ("", false) content with
                | .error err => .error err
                | .ok inner =>
                    if inner.2 then .error (.new "defaults parsing failed")
                    else fooDefaultsContent inner rest
            | _ => .error (ExpectedMapAt valNode)
          else fooDefaultsContent d rest
      | _ => .error (ExpectedScalarAt keyNode)
  | _ => .ok d

/-- The method `fooDefaults.UnmarshalYAML` of the tests; the defaults it
read are kept as the value of `Bar`. -/
def fooDefaultsUnmarshalYAML (node : YamlNode) : Except GoError Any :=
  match node with
  | .mapping content =>
      match fooDefaultsContent ("", false) content with
      | .error err => .error err
      | .ok d => .ok (.str d.1)
  | _ => .error (ExpectedMapAt node)

/-- A prototype shape of a plugin: the names of its own fields, and the
decoding of a node into a fresh copy of the prototype. -/
structure Shape where
  Fields : List String
  UnmarshalYAML : YamlNode → Except GoError TestUnit

/-- The methods `Defaults()` and `Specs()` of a plugin: its
default-decoder and its prototype shapes, in order. -/
structure PluginMethods where
  Defaults : YamlNode → Except GoError Any
  Specs : List Shape

/-- What resolution takes from outside: the methods of each registered
plugin, and the shared decoding of the base fields of a unit. -/
structure Resolver where
  methods : Plugin → PluginMethods
  decodeBase : YamlNode → Except GoError Spec

/-- The top-level fields of a scenario document. -/
structure Document where
  name : String
  description : String
  require : List String
  defaults : Option YamlNode
  tests : List YamlNode

/-- The prototype shapes of the registered plugins, in registry order. -/
def Resolver.shapes (r : Resolver) : List Plugin → List Shape
  | [] => []
  | p :: rest => (r.methods p).Specs ++ Resolver.shapes r rest

/-- Whether a shape recognizes a field name: it is one of its own fields
or one of the common base fields. -/
def Shape.recognizes (sh : Shape) (field : String) : Bool :=
  sh.Fields.contains field || BaseSpecFields.contains field

/-- Modelled from the spec: step 2 of resolution. The default-decoder of
each registered plugin is invoked on the defaults mapping, in which it
reads the sub-node under its own name; a failure is propagated, wrapped
with the path of the scenario; the decoded value is stored under the name
of the plugin. -/
def decodeDefaults (r : Resolver) (path : String) (node : YamlNode) :
    List Plugin → GoMap Any → Except GoError (GoMap Any)
  | [], defaults => .ok defaults
  | p :: rest, defaults =>
      match (r.methods p).Defaults node with
      | .error err => .error (.wrap err path)
      | .ok val => decodeDefaults r path node rest (defaults.set p.Name val)

/-- Modelled from the spec: the probing of step 3. The first shape, in
registry order, that decodes the node without an "unknown field" rejection
is chosen; a failure for any other reason is propagated as it is; none is
chosen when every shape rejects the node. -/
def claimNode : List Shape → YamlNode → Except GoError (Option TestUnit)
  | [], _ => .ok none
  | sh :: rest, node =>
      match sh.UnmarshalYAML node with
      | .ok unit => .ok (some unit)
      | .error err => if err.Is ErrUnknownField then claimNode rest node else .error err

/-- Modelled from the spec: steps 3 and 4 for one node of the tests
sequence. A node that no shape claims fails with "unknown spec"; the base
fields of a claimed node are decoded by the shared logic and attached, with
`Index` set to the position of the node. -/
def resolveNode (r : Resolver) (shapes : List Shape) (path : String) (idx : Nat)
    (node : YamlNode) : Except GoError TestUnit :=
  match claimNode shapes node with
  | .error err => .error err
  | .ok none => .error (UnknownSpecAt path node)
  | .ok (some unit) =>
      match r.decodeBase node with
      | .error err => .error err
      | .ok base => .ok { unit with Base := { base with Index := idx } }

/-- Modelled from the spec: steps 3 and 4 over the tests sequence, from
position `idx` on; the first failure ends resolution. -/
def resolveTests (r : Resolver) (shapes : List Shape) (path : String) :
    Nat → List YamlNode → Except GoError (List TestUnit)
  | _, [] => .ok []
  | idx, node :: rest =>
      match resolveNode r shapes path idx node with
      | .error err => .error err
      | .ok unit =>
          match resolveTests r shapes path (idx + 1) rest with
          | .error err => .error err
          | .ok units => .ok (unit :: units)

/-- Modelled from the spec: the plugins currently registered, those of the
context that `WithContext` gave to the scenario; none without a context. -/
def registeredPlugins (ctx : Option Context) : List Plugin :=
  match ctx with
  | some c => Plugins c
  | none => []

/-- Modelled from the spec: step 2 on the `defaults` field of a document;
a document without the field has no defaults. -/
def decodeDocumentDefaults (r : Resolver) (path : String) (plugins : List Plugin)
    (defaults : Option YamlNode) : Except GoError (GoMap Any) :=
  match defaults with
  | none => .ok GoMap.empty
  | some node => decodeDefaults r path node plugins GoMap.empty

/-- Modelled from the spec: `scenario.FromReader` with `WithPath` and
`WithContext`, on a document already read into its top-level fields. No
Scenario is returned on an error. -/
def FromReader (r : Resolver) (doc : Document) (path : String) (ctx : Option Context) :
    Except GoError Scenario :=
  let plugins := registeredPlugins ctx
  match decodeDocumentDefaults r path plugins doc.defaults with
  | .error err => .error err
  | .ok defaults =>
      match resolveTests r (r.shapes plugins) path 0 doc.tests with
      | .error err => .error err
      | .ok tests =>
          .ok { ctx := ctx, Path := path, Name := doc.name, Description := doc.description,
                Defaults := defaults, Require := doc.require, Tests := tests }

/-- The error of a failed call, nil for a call that succeeded. -/
def errorOf {α : Type} : Except GoError α → Option GoError
  | .error err => some err
  | .ok _ => none

/-- The plugin `fooPlugin` of the tests. -/
def fooPlugin : Plugin := { Name := "foo", id := 1 }

/-- The plugin `barPlugin` of the tests. -/
def barPlugin : Plugin := { Name := "bar", id := 2 }

/-- The plugin `failingPlugin` of the tests. -/
def failingPlugin : Plugin := { Name := "failer", id := 3 }

/-- The shape of `fooSpec`; its `Run` returns nil. -/
def fooShape : Shape :=
  { Fields := ["foo"]
    UnmarshalYAML := fun node =>
      match fooSpec.UnmarshalYAML { Spec := zeroSpec, Foo := "" } node with
      | .error err => .error err
      | .ok s => .ok { Base := s.Spec, Run := fun _ => .nil } }

/-- The shape of `barSpec`; its `Run` returns nil. -/
def barShape : Shape :=
  { Fields := ["bar"]
    UnmarshalYAML := fun node =>
      match barSpec.UnmarshalYAML { Spec := zeroSpec, Bar := 0 } node with
      | .error err => .error err
      | .ok s => .ok { Base := s.Spec, Run := fun _ => .nil } }

/-- The shape of `failSpec`, which has no field of its own. -/
def failShape : Shape :=
  { Fields := []
    UnmarshalYAML := fun node =>
      match failSpec.UnmarshalYAML { Spec := zeroSpec } node with
      | .error err => .error err
      | .ok s => .ok { Base := s.Spec, Run := fun _ => .nil } }

/-- The methods of the plugins of the tests, by name. -/
def testMethods (p : Plugin) : PluginMethods :=
  if p.Name = "foo" then { Defaults := fooDefaultsUnmarshalYAML, Specs := [fooShape] }
  else if p.Name = "bar" then { Defaults := barDefaultsUnmarshalYAML, Specs := [barShape] }
  else if p.Name = "failer" then { Defaults := failDefaultsUnmarshalYAML, Specs := [failShape] }
  else { Defaults := fun _ => .ok (.str ""), Specs := [] }

/-- The content of a mapping read into the base fields `name` and
`description`. -/
def readBaseContent (base : Spec) : List YamlNode → Spec
  | .scalar key :: .scalar value :: rest =>
      if key = "name" then readBaseContent { base with Name := value } rest
      else if key = "description" then readBaseContent { base with Description := value } rest
      else readBaseContent base rest
  | _ :: _ :: rest => readBaseContent base rest
  | _ => base

/-- A decoding of base fields that reads `name` and `description`. -/
def readBase (node : YamlNode) : Except GoError Spec :=
  match node with
  | .mapping content => .ok (readBaseContent zeroSpec content)
  | _ => .error (ExpectedMapAt node)

/-- The resolver of the tests. -/
def testResolver : Resolver := { methods := testMethods, decodeBase := readBase }

/-- The document `foo.yaml` of the tests. -/
def fooYaml : Document :=
  { name := "foo", description := "", require := [],
    defaults := some (.mapping [.scalar "foo", .mapping [.scalar "bar", .scalar "barconfig"]]),
    tests :=
      [.mapping [.scalar "name", .scalar "bar", .scalar "foo", .scalar "bar"],
       .mapping [.scalar "description", .scalar "Bazzy Bizzy", .scalar "foo", .scalar "baz"]] }

/-- The document `foo-bar.yaml` of the tests. -/
def fooBarYaml : Document :=
  { name := "foo-bar", description := "", require := [], defaults := none,
    tests := [.mapping [.scalar "foo", .scalar "bar"], .mapping [.scalar "bar", .scalar "42"]] }

/-- A document whose only unit has a value of `bar` that is no integer and
a field `foo`. -/
def badBarYaml : Document :=
  { name := "bad-bar", description := "", require := [], defaults := none,
    tests := [.mapping [.scalar "bar", .scalar "abc", .scalar "foo", .scalar "x"]] }

/-- The Scenario that `TestMultipleSpec` expects from `foo-bar.yaml`. -/
def fooBarScenario : Scenario :=
  { ctx := some (WithPlugins [fooPlugin, barPlugin] .todo),
    Path := "testdata/foo-bar.yaml", Name := "foo-bar", Description := "",
    Defaults := GoMap.empty, Require := [],
    Tests :=
      [{ Base := { zeroSpec with Index := 0 }, Run := fun _ => .nil },
       { Base := { zeroSpec with Index := 1 }, Run := fun _ => .nil }] }

/-! ## What a list of modifier calls sets -/

/-- The value of the last call `WithData(k, v)` with the key `k` in a list
of calls, if there is such a call. -/
def lastData (k : String) : List ModifierCall → Option Any
  | [] => none
  | .withData key val :: rest =>
      match lastData k rest with
      | some v => some v
      | none => if key = k then some val else none
  | _ :: rest => lastData k rest

/-- The value of the last call `WithVar(k, v)` with the key `k` in a list of
calls, if there is such a call. -/
def lastVar (k : String) : List ModifierCall → Option Any
  | [] => none
  | .withVar key val :: rest =>
      match lastVar k rest with
      | some v => some v
      | none => if key = k then some val else none
  | _ :: rest => lastVar k rest

/-- The call is a call of `WithData`. -/
def ModifierCall.isWithData : ModifierCall → Bool
  | .withData _ _ => true
  | _ => false

/-- The call is a call of `WithVar`. -/
def ModifierCall.isWithVar : ModifierCall → Bool
  | .withVar _ _ => true
  | _ => false

/-! ## Reading the trace of a run -/

/-- The names of the sub-test scopes opened on the reporting sink, in
order. -/
def subtests : List Event → List String
  | [] => []
  | .subtest name :: rest => name :: subtests rest
  | _ :: rest => subtests rest

/-- The kind of an event, without its content. -/
def Event.kind : Event → String
  | .fixtureStart _ => "fixture start"
  | .fixtureStop _ => "fixture stop"
  | .subtest _ => "subtest"
  | .debugWrite _ _ => "debug write"
  | .sleep _ => "sleep"
  | .unitRun _ _ => "unit run"
  | .fatal _ => "fatal"
  | .cancel _ => "cancel"

/-- The scenario of the document `testdata/no-tests.yaml`: two required
fixtures and no test. -/
def noTestsScenario : Scenario :=
  { ctx := none, Path := "testdata/no-tests.yaml", Name := "no-tests", Description := "",
    Defaults := GoMap.empty, Require := ["books_api", "books_data"], Tests := [] }

/-- A context whose fixture table has the entries "books_api" and
"books_data". -/
def booksContext : Context :=
  .withValue .todo fixturesKey
    (.fixtures ((GoMap.set GoMap.empty "books_api" { id := "api" }).set "books_data"
      { id := "data" }))

/-- A scenario whose only unit has a Timeout with an empty `After` and
returns nil. -/
def emptyAfterScenario : Scenario :=
  sampleScenario [] [sampleUnit 0 (some { After := "", Expected := false }) .nil]

/-- A unit with the given index, wait and timeout whose `Run` returns the
same value in every context. -/
def waitingUnit (index : Nat) (wait : Option Wait) (timeout : Option Timeout)
    (ret : RunReturn) : TestUnit :=
  { Base := { Index := index, Name := "", Description := "", Wait := wait, Timeout := timeout }
    Run := fun _ => ret }

/-- A scenario whose only unit waits 20ms before and after its `Run`, which
returns nil. -/
def waitScenario : Scenario :=
  sampleScenario [] [waitingUnit 0 (some { Before := "20ms", After := "20ms" }) none .nil]

/-- A scenario whose only unit has a wait of 20ms after its `Run` and a
timeout of 20ms that is not expected to be exceeded, and returns
`context.DeadlineExceeded`. -/
def fatalWaitScenario : Scenario :=
  sampleScenario []
    [waitingUnit 0 (some { Before := "", After := "20ms" })
      (some { After := "20ms", Expected := false }) (.err DeadlineExceeded)]

/-- A context made by `New(WithDebug(w))`. -/
def debugContext : Context := Context.New [WithDebug { id := 1 }]

/-- The fixtures whose `Start` was called, in the order of the calls. -/
def startedFixtures : List Event → List Fixture
  | [] => []
  | .fixtureStart fix :: rest => fix :: startedFixtures rest
  | _ :: rest => startedFixtures rest

/-! ## Deadlines -/

/-- The deadline of a context, as `ctx.Deadline()` of the Go standard
library gives it, in nanoseconds, when the `WithTimeout` layer that has `k`
such layers below it was derived at the instant `derivedAt k`:
`context.WithTimeout(parent, d)` derived at the instant `now` has the
deadline `now + d`, unless the parent has an earlier deadline, which it
keeps. -/
def Context.Deadline (derivedAt : Nat → Int) : Context → Option Int
  | .todo => none
  | .withValue parent _ _ => parent.Deadline derivedAt
  | .withTimeout parent timeout =>
      let d := derivedAt parent.timeouts.length + timeout
      match parent.Deadline derivedAt with
      | some cur => if cur < d then some cur else some d
      | none => some d

/-- The context made by `context.WithTimeout(context.TODO(), 10ms)`. -/
def shortDeadlineContext : Context := .withTimeout .todo 10000000

/-- Instants of derivation: the outermost deadline layer is derived at the
instant 0, every other one 5ms later. -/
def sampleInstants (k : Nat) : Int := if k = 0 then 0 else 5000000

/-! # Theorems -/

/-! ## Results -/

theorem ModifierCall.eval_preserves (c : ModifierCall) (mod : ResultModifier)
    (h : c.eval = Except.ok mod) (r : Result) (hr : r.errIsRuntime) :
    (mod r).errIsRuntime := by
  cases c with
  | withRuntimeError err =>
      simp only [ModifierCall.eval, WithRuntimeError] at h
      cases he : errorsIs err (some RuntimeError)
      · simp [he] at h
      · simp [he] at h
        subst h
        exact Or.inr he
  | withData key val =>
      simp only [ModifierCall.eval, Except.ok.injEq] at h
      subst h
      exact hr
  | withVar key val =>
      simp only [ModifierCall.eval, Except.ok.injEq] at h
      subst h
      exact hr
  | withFailures failures =>
      simp only [ModifierCall.eval, Except.ok.injEq] at h
      subst h
      exact hr

theorem foldl_modifiers_preserves (calls : List ModifierCall) :
    ∀ (mods : List ResultModifier), evalModifiers calls = Except.ok mods →
      ∀ r : Result, r.errIsRuntime →
        (mods.foldl (fun acc mod => mod acc) r).errIsRuntime := by
  induction calls with
  | nil =>
      intro mods h r hr
      simp only [evalModifiers, Except.ok.injEq] at h
      subst h
      exact hr
  | cons c rest ih =>
      intro mods h r hr
      simp only [evalModifiers] at h
      cases hc : c.eval with
      | error msg => simp [hc] at h
      | ok mod =>
          cases hrest : evalModifiers rest with
          | error msg => simp [hc, hrest] at h
          | ok ms =>
              simp [hc, hrest] at h
              subst h
              exact ih ms hrest (mod r) (ModifierCall.eval_preserves c mod hc r hr)

theorem applySetters_err (calls : List SetterCall) :
    ∀ r : Result, (applySetters r calls).err = r.err := by
  induction calls with
  | nil => intro r; rfl
  | cons c rest ih =>
      intro r
      have h : (c.apply r).err = r.err := by cases c <;> rfl
      simp only [applySetters, List.foldl_cons] at ih ⊢
      rw [ih (c.apply r), h]

/-- C9: for every error value, nil included, `WithRuntimeError err` panics
exactly when `err` is not a `gdterrors.RuntimeError` under `errors.Is`; the
panic is the outcome of the call itself, before any modifier exists, so it
cannot come later from `New`; and when the call returns a modifier, that
modifier sets the runtime error of the Result to `err`, also through `New`.
In particular a nil error panics. -/
theorem WithRuntimeError_panics_iff_not_runtime (err : Option GoError) :
    ((∃ msg, WithRuntimeError err = Except.error msg) ↔
        errorsIs err (some RuntimeError) = false) ∧
    (∀ mod, WithRuntimeError err = Except.ok mod →
        ∀ r : Result, (mod r).RuntimeError = err ∧ (Result.New [mod]).RuntimeError = err) ∧
    (∃ msg, WithRuntimeError none = Except.error msg) := by
  refine ⟨?_, ?_, ?_⟩
  · unfold WithRuntimeError
    cases h : errorsIs err (some RuntimeError) <;> simp
  · intro mod hmod r
    unfold WithRuntimeError at hmod
    cases h : errorsIs err (some RuntimeError)
    · simp [h] at hmod
    · simp [h] at hmod
      subst hmod
      simp [Result.RuntimeError, Result.New]
  · exact ⟨_, rfl⟩

/-- C10: take a Result made by `New` from modifiers that `WithRuntimeError`,
`WithData`, `WithVar` and `WithFailures` returned (none of the calls having
panicked) and then changed by any sequence of `SetData`, `SetVars` and
`SetFailures`; if `HasRuntimeError()` is true then `RuntimeError()` is a
`gdterrors.RuntimeError` under `errors.Is`. -/
theorem Result_runtime_error_invariant (calls : List ModifierCall)
    (mods : List ResultModifier) (setters : List SetterCall)
    (hbuilt : evalModifiers calls = Except.ok mods)
    (hhas : (applySetters (Result.New mods) setters).HasRuntimeError = true) :
    errorsIs (applySetters (Result.New mods) setters).RuntimeError (some RuntimeError) = true := by
  have hinv : (Result.New mods).errIsRuntime :=
    foldl_modifiers_preserves calls mods hbuilt _ (Or.inl rfl)
  simp only [Result.HasRuntimeError, Result.RuntimeError, applySetters_err] at hhas ⊢
  rcases hinv with h | h
  · rw [h] at hhas; cases hhas
  · exact h

/-- The invariant on a Result built with a runtime error and data and then
changed by two setters. -/
theorem Result_runtime_error_invariant_witness :
    (applySetters
      (Result.New [fun r => { r with err := some (RequiredFixtureMissing "db") },
        WithData "k" (Any.str "v")])
      [SetterCall.setFailures [], SetterCall.setData "k" (Any.int 2)]).HasRuntimeError = true ∧
    errorsIs (applySetters
      (Result.New [fun r => { r with err := some (RequiredFixtureMissing "db") },
        WithData "k" (Any.str "v")])
      [SetterCall.setFailures [], SetterCall.setData "k" (Any.int 2)]).RuntimeError
      (some RuntimeError) = true :=
  ⟨rfl, Result_runtime_error_invariant
    [ModifierCall.withRuntimeError (some (RequiredFixtureMissing "db")),
     ModifierCall.withData "k" (Any.str "v")] _ _ (by rfl) rfl⟩

/-! ## The loop of Scenario.Run -/

theorem invocations_append (a b : List Event) :
    invocations (a ++ b) = invocations a ++ invocations b := by
  induction a with
  | nil => rfl
  | cons e rest ih => cases e <;> simp [invocations, ih]

theorem invocations_waitBefore (env : Env) (ctx : Context) (w : Option Wait) :
    invocations (waitBefore env ctx w) = [] := by
  unfold waitBefore
  cases w with
  | none => rfl
  | some w => by_cases h : w.Before = "" <;> simp [h, invocations]

theorem invocations_waitAfter (env : Env) (ctx : Context) (w : Option Wait) :
    invocations (waitAfter env ctx w) = [] := by
  unfold waitAfter
  cases w with
  | none => rfl
  | some w => by_cases h : w.After = "" <;> simp [h, invocations]

theorem runSpec_invocations (env : Env) (st : LoopState) (u : TestUnit) :
    invocations (runSpec env st u).events = [(u, unitContext env st u)] := by
  unfold runSpec
  simp only []
  split
  · split
    · split
      · simp [invocations_append, invocations_waitBefore, invocations, unitContext]
      · simp [invocations_append, invocations_waitBefore, invocations_waitAfter, invocations, unitContext]
    · simp [invocations_append, invocations_waitBefore, invocations_waitAfter, invocations, unitContext]
  · simp [invocations_append, invocations_waitBefore, invocations_waitAfter, invocations, unitContext]

theorem runSpec_exited (env : Env) (st : LoopState) (u : TestUnit) :
    (runSpec env st u).exited = unexpectedTimeout env (u, unitContext env st u) := by
  unfold runSpec unexpectedTimeout unitContext
  simp only []
  cases hto : env.TimedOut (deriveTimeout env st u.Base.Timeout).ctx
      (u.Run (deriveTimeout env st u.Base.Timeout).ctx)
  · simp
  · cases ht : u.Base.Timeout with
    | none => simp
    | some t => cases he : t.Expected <;> simp [he]


theorem recordReturn_nil (st : LoopState) : recordReturn st RunReturn.nil = st := by
  simp [recordReturn, RuntimeErrors.AppendIf]

theorem runSpec_errs (env : Env) (st : LoopState) (u : TestUnit) :
    (runSpec env st u).state.errs.errs =
      st.errs.errs ++ (contribution env (u, unitContext env st u)).toList := by
  have hd : (deriveTimeout env st u.Base.Timeout).errs = st.errs := by
    unfold deriveTimeout; cases u.Base.Timeout <;> rfl
  unfold runSpec contribution unitContext
  simp only []
  cases hto : env.TimedOut (deriveTimeout env st u.Base.Timeout).ctx
      (u.Run (deriveTimeout env st u.Base.Timeout).ctx)
  · simp only [Bool.false_eq_true, if_false]
    cases hr : u.Run (deriveTimeout env st u.Base.Timeout).ctx with
    | nil => simp [recordReturn, RuntimeErrors.AppendIf, hd]
    | result res =>
        cases he : res.Unwrap <;> simp [recordReturn, RuntimeErrors.AppendIf, hd, he]
    | err e => simp [recordReturn, RuntimeErrors.AppendIf, hd]
  · simp only [if_true, recordReturn_nil]
    cases ht : u.Base.Timeout with
    | none => simp [hd, ht, deriveTimeout]
    | some t => cases he : t.Expected <;> simp [he, deriveTimeout]

theorem Assign_pair {V : Type} (a b : GoMap V) (k : String) :
    Assign [a, b] k = match b k with
      | some v => some v
      | none => a k := by
  simp only [Assign, GoMap.empty]

theorem Assign_empty_right {V : Type} (a : GoMap V) : Assign [a, GoMap.empty] = a := by
  funext k
  simp [Assign_pair, GoMap.empty]

theorem PriorRun_withTimeout (ctx : Context) (d : Duration) :
    PriorRun (Context.withTimeout ctx d) = PriorRun ctx := rfl

theorem PriorRun_StorePriorRun (ctx : Context) (data : GoMap Any) :
    PriorRun (StorePriorRun ctx data) = Assign [PriorRun ctx, data] := by
  simp [StorePriorRun, PriorRun, Context.Value]

theorem PriorRun_unitContext (env : Env) (st : LoopState) (u : TestUnit) :
    PriorRun (unitContext env st u) = PriorRun st.ctx := by
  unfold unitContext deriveTimeout
  cases u.Base.Timeout <;> rfl

theorem Result_Data_of_not_HasData (res : Result) (h : res.HasData = false) :
    res.Data = GoMap.empty := by
  unfold Result.HasData at h
  unfold Result.Data
  cases hd : res.data with
  | none => rfl
  | some m => simp [hd] at h

theorem runSpec_priorRun (env : Env) (st : LoopState) (u : TestUnit)
    (h : env.TimedOut (unitContext env st u) (u.Run (unitContext env st u)) = false) :
    PriorRun (runSpec env st u).state.ctx =
      Assign [PriorRun st.ctx, returnedData (u.Run (unitContext env st u))] := by
  have hp := PriorRun_unitContext env st u
  unfold unitContext at h hp
  unfold runSpec unitContext
  simp only [h, Bool.false_eq_true, if_false]
  cases hr : u.Run (deriveTimeout env st u.Base.Timeout).ctx with
  | nil => simp [recordReturn, returnedData, Assign_empty_right, hp]
  | result res =>
      cases hd : res.HasData
      · simp [recordReturn, returnedData, hd, Result_Data_of_not_HasData res hd,
          Assign_empty_right, hp]
      · simp [recordReturn, returnedData, hd, PriorRun_StorePriorRun, hp]
  | err e => simp [recordReturn, returnedData, Assign_empty_right, hp]

theorem runSpecs_cons_exited (env : Env) (st : LoopState) (u : TestUnit) (rest : List TestUnit)
    (h : (runSpec env st u).exited = true) :
    runSpecs env st (u :: rest) = runSpec env st u := by
  simp [runSpecs, h]

theorem runSpecs_cons_continue (env : Env) (st : LoopState) (u : TestUnit)
    (rest : List TestUnit) (h : (runSpec env st u).exited = false) :
    runSpecs env st (u :: rest) =
      { state := (runSpecs env (runSpec env st u).state rest).state,
        events := (runSpec env st u).events ++ (runSpecs env (runSpec env st u).state rest).events,
        exited := (runSpecs env (runSpec env st u).state rest).exited } := by
  simp [runSpecs, h]

theorem runSpecs_invocations_cons (env : Env) (st : LoopState) (u : TestUnit)
    (rest : List TestUnit) :
    invocations (runSpecs env st (u :: rest)).events =
      (u, unitContext env st u) ::
        (if (runSpec env st u).exited then []
         else invocations (runSpecs env (runSpec env st u).state rest).events) := by
  cases h : (runSpec env st u).exited
  · rw [runSpecs_cons_continue env st u rest h]
    simp [invocations_append, runSpec_invocations]
  · rw [runSpecs_cons_exited env st u rest h]
    simp [runSpec_invocations]

/-- The call number `i` of the loop is the call of unit `i`, the loop has
not ended before it, and the context handed over is the one derived from
the variables left by the first `i` units. -/
theorem runSpecs_reach (env : Env) (us : List TestUnit) :
    ∀ (st : LoopState) (i : Nat) (p : TestUnit × Context),
      (invocations (runSpecs env st us).events)[i]? = some p →
        us[i]? = some p.1 ∧ (runSpecs env st (us.take i)).exited = false ∧
          p.2 = unitContext env (runSpecs env st (us.take i)).state p.1 := by
  induction us with
  | nil => intro st i p h; simp [runSpecs, invocations] at h
  | cons u rest ih =>
      intro st i p h
      rw [runSpecs_invocations_cons] at h
      cases i with
      | zero =>
          simp only [List.getElem?_cons_zero, Option.some.injEq] at h
          subst h
          simp [runSpecs]
      | succ j =>
          simp only [List.getElem?_cons_succ] at h
          cases hx : (runSpec env st u).exited
          · simp only [hx, Bool.false_eq_true, if_false] at h
            obtain ⟨h1, h2, h3⟩ := ih (runSpec env st u).state j p h
            refine ⟨by simpa using h1, ?_, ?_⟩
            · simp only [List.take_succ_cons]
              rw [runSpecs_cons_continue env st u _ hx]
              exact h2
            · simp only [List.take_succ_cons]
              rw [runSpecs_cons_continue env st u _ hx]
              exact h3
          · simp [hx] at h

/-- While the loop has not ended, every unit was called, in order, and none
of the calls hit an unexpected timeout. -/
theorem runSpecs_not_exited (env : Env) (us : List TestUnit) :
    ∀ (st : LoopState), (runSpecs env st us).exited = false →
      (invocations (runSpecs env st us).events).map Prod.fst = us ∧
        ∀ p ∈ invocations (runSpecs env st us).events, unexpectedTimeout env p = false := by
  induction us with
  | nil => intro st _; simp [runSpecs, invocations]
  | cons u rest ih =>
      intro st h
      cases hx : (runSpec env st u).exited
      · rw [runSpecs_cons_continue env st u rest hx] at h
        simp only at h
        obtain ⟨h1, h2⟩ := ih _ h
        rw [runSpecs_invocations_cons]
        simp only [hx, Bool.false_eq_true, if_false, List.map_cons, h1, List.mem_cons, true_and]
        intro p hp
        rcases hp with hp | hp
        · subst hp
          rw [← runSpec_exited]
          exact hx
        · exact h2 p hp
      · rw [runSpecs_cons_exited env st u rest hx] at h
        rw [hx] at h
        cases h

/-- When no call hits an unexpected timeout the loop does not end early. -/
theorem runSpecs_exited_false_of (env : Env) (us : List TestUnit) :
    ∀ (st : LoopState),
      (∀ p ∈ invocations (runSpecs env st us).events, unexpectedTimeout env p = false) →
        (runSpecs env st us).exited = false := by
  induction us with
  | nil => intro st _; rfl
  | cons u rest ih =>
      intro st h
      rw [runSpecs_invocations_cons] at h
      have h0 := h (u, unitContext env st u) (List.mem_cons_self _ _)
      rw [← runSpec_exited] at h0
      rw [runSpecs_cons_continue env st u rest h0]
      simp only
      apply ih
      intro p hp
      apply h
      simp only [h0, Bool.false_eq_true, if_false]
      exact List.mem_cons_of_mem _ hp

/-- The aggregator after the loop: what it held before, followed by the
contributions of the calls, in order. -/
theorem runSpecs_errs (env : Env) (us : List TestUnit) :
    ∀ (st : LoopState),
      (runSpecs env st us).state.errs.errs =
        st.errs.errs ++ (invocations (runSpecs env st us).events).filterMap (contribution env) := by
  induction us with
  | nil => intro st; simp [runSpecs, invocations]
  | cons u rest ih =>
      intro st
      rw [runSpecs_invocations_cons]
      cases hx : (runSpec env st u).exited
      · rw [runSpecs_cons_continue env st u rest hx]
        simp only [Bool.false_eq_true, if_false]
        rw [ih, runSpec_errs]
        cases hc : contribution env (u, unitContext env st u) <;>
          simp [List.filterMap_cons, hc]
      · rw [runSpecs_cons_exited env st u rest hx, runSpec_errs]
        cases hc : contribution env (u, unitContext env st u) <;>
          simp [List.filterMap_cons, hc]

/-- When no call times out, the prior-run view of call `k` is the merge, in
order, of the data returned by the calls before it into the view that the
loop started with. -/
theorem runSpecs_priorRun (env : Env) (us : List TestUnit) :
    ∀ (st : LoopState),
      (∀ p ∈ invocations (runSpecs env st us).events,
          env.TimedOut p.2 (p.1.Run p.2) = false) →
      ∀ (k : Nat) (p : TestUnit × Context),
        (invocations (runSpecs env st us).events)[k]? = some p →
          PriorRun p.2 =
            (((invocations (runSpecs env st us).events).take k).map
                (fun q => returnedData (q.1.Run q.2))).foldl
              (fun acc d => Assign [acc, d]) (PriorRun st.ctx) := by
  induction us with
  | nil => intro st _ k p h; simp [runSpecs, invocations] at h
  | cons u rest ih =>
      intro st hno k p h
      rw [runSpecs_invocations_cons] at h hno ⊢
      have h0 := hno (u, unitContext env st u) (List.mem_cons_self _ _)
      simp only at h0
      have hx : (runSpec env st u).exited = false := by
        rw [runSpec_exited]
        simp [unexpectedTimeout, h0]
      simp only [hx, Bool.false_eq_true, if_false] at h hno ⊢
      cases k with
      | zero =>
          simp only [List.getElem?_cons_zero, Option.some.injEq] at h
          subst h
          simp [PriorRun_unitContext]
      | succ j =>
          simp only [List.getElem?_cons_succ] at h
          have hrest := ih (runSpec env st u).state
            (fun q hq => hno q (List.mem_cons_of_mem _ hq)) j p h
          rw [hrest, runSpec_priorRun env st u h0]
          simp

theorem waitBefore_isFatal (env : Env) (ctx : Context) (w : Option Wait) :
    ∀ e ∈ waitBefore env ctx w, e.isFatal = false := by
  unfold waitBefore
  cases w with
  | none => simp
  | some w => by_cases h : w.Before = "" <;> simp [h, Event.isFatal]

theorem waitAfter_isFatal (env : Env) (ctx : Context) (w : Option Wait) :
    ∀ e ∈ waitAfter env ctx w, e.isFatal = false := by
  unfold waitAfter
  cases w with
  | none => simp
  | some w => by_cases h : w.After = "" <;> simp [h, Event.isFatal]

/-- An iteration that does not end the loop reports nothing fatal. -/
theorem runSpec_isFatal (env : Env) (st : LoopState) (u : TestUnit)
    (h : (runSpec env st u).exited = false) :
    ∀ e ∈ (runSpec env st u).events, e.isFatal = false := by
  have hb := waitBefore_isFatal env st.ctx u.Base.Wait
  have key : ∀ (c c2 : Context), ∀ e ∈ (waitBefore env st.ctx u.Base.Wait ++ [Event.unitRun u c]) ++
      waitAfter env c2 u.Base.Wait, e.isFatal = false := by
    intro c c2 e hmem
    simp only [List.mem_append, List.mem_singleton] at hmem
    rcases hmem with (hmem | hmem) | hmem
    · exact hb e hmem
    · subst hmem; rfl
    · exact waitAfter_isFatal _ _ _ e hmem
  unfold runSpec at h ⊢
  simp only [] at h ⊢
  cases hto : env.TimedOut (deriveTimeout env st u.Base.Timeout).ctx
      (u.Run (deriveTimeout env st u.Base.Timeout).ctx)
  · simp only [Bool.false_eq_true, if_false]
    exact key _ _
  · simp only [hto, if_true] at h ⊢
    cases ht : u.Base.Timeout with
    | none =>
        simp only [ht] at h ⊢
        exact key _ _
    | some t =>
        simp only [ht] at h ⊢
        cases he : t.Expected
        · simp [he] at h
        · simp only [he, Bool.not_true, Bool.false_eq_true, if_false]
          exact key _ _

/-- An iteration whose call hits an unexpected timeout ends with the fatal
report of the "timeout exceeded" error built from the unit's `After`. -/
theorem runSpec_fatal (env : Env) (st : LoopState) (u : TestUnit) (t : Timeout)
    (ht : u.Base.Timeout = some t) (he : t.Expected = false)
    (hto : env.TimedOut (unitContext env st u) (u.Run (unitContext env st u)) = true) :
    (∃ body : List Event,
        (runSpec env st u).events = body ++ [Event.fatal (TimeoutExceeded t.After)]) ∧
      (runSpec env st u).exited = true := by
  unfold unitContext at hto
  unfold runSpec
  simp only [hto, if_true]
  simp only [ht, he, Bool.not_false, if_true, and_true]
  exact ⟨_, rfl⟩

/-- When a call hits an unexpected timeout, the events of the loop end with
the fatal report, the call is the last one, and the loop has ended. -/
theorem runSpecs_fatal (env : Env) (us : List TestUnit) :
    ∀ (st : LoopState) (i : Nat) (p : TestUnit × Context) (t : Timeout),
      (invocations (runSpecs env st us).events)[i]? = some p →
      p.1.Base.Timeout = some t → t.Expected = false →
      env.TimedOut p.2 (p.1.Run p.2) = true →
        (∃ body : List Event,
          (runSpecs env st us).events = body ++ [Event.fatal (TimeoutExceeded t.After)]) ∧
          (invocations (runSpecs env st us).events).length = i + 1 ∧
          (runSpecs env st us).exited = true := by
  induction us with
  | nil => intro st i p t h; simp [runSpecs, invocations] at h
  | cons u rest ih =>
      intro st i p t h ht he hto
      rw [runSpecs_invocations_cons] at h ⊢
      cases i with
      | zero =>
          simp only [List.getElem?_cons_zero, Option.some.injEq] at h
          subst h
          obtain ⟨h1, h2⟩ := runSpec_fatal env st u t ht he hto
          rw [runSpecs_cons_exited env st u rest h2]
          simp [h1, h2]
      | succ j =>
          simp only [List.getElem?_cons_succ] at h
          cases hx : (runSpec env st u).exited
          · simp only [hx, Bool.false_eq_true, if_false] at h ⊢
            obtain ⟨⟨body, h1⟩, h2, h3⟩ := ih (runSpec env st u).state j p t h ht he hto
            rw [runSpecs_cons_continue env st u rest hx]
            refine ⟨⟨(runSpec env st u).events ++ body, ?_⟩, by simp [h2], h3⟩
            simp only [h1, List.append_assoc]
          · simp [hx] at h

/-- After a call that hit no unexpected timeout the next unit is called. -/
theorem runSpecs_next (env : Env) (us : List TestUnit) :
    ∀ (st : LoopState) (i : Nat) (p : TestUnit × Context) (v : TestUnit),
      (invocations (runSpecs env st us).events)[i]? = some p →
      unexpectedTimeout env p = false → us[i + 1]? = some v →
        ∃ c, (invocations (runSpecs env st us).events)[i + 1]? = some (v, c) := by
  induction us with
  | nil => intro st i p v h; simp [runSpecs, invocations] at h
  | cons u rest ih =>
      intro st i p v h hu hv
      rw [runSpecs_invocations_cons] at h ⊢
      simp only [List.getElem?_cons_succ] at hv ⊢
      cases i with
      | zero =>
          simp only [List.getElem?_cons_zero, Option.some.injEq] at h
          subst h
          rw [← runSpec_exited] at hu
          simp only [hu, Bool.false_eq_true, if_false]
          cases rest with
          | nil => simp at hv
          | cons w rest2 =>
              simp only [List.getElem?_cons_zero, Option.some.injEq] at hv
              subst hv
              rw [runSpecs_invocations_cons]
              exact ⟨unitContext env (runSpec env st u).state w, by simp⟩
      | succ j =>
          simp only [List.getElem?_cons_succ] at h
          cases hx : (runSpec env st u).exited
          · simp only [hx, Bool.false_eq_true, if_false] at h ⊢
            exact ih (runSpec env st u).state j p v h hu hv
          · simp [hx] at h

/-- When every lookup of the loop over `Require` finds a fixture, the loop
starts exactly those fixtures, in order, and misses none. -/
theorem requireFixtures_found (env : Env) (fixtures : GoMap Fixture) (req : List String) :
    ∀ (fixes : List Fixture),
      req.map (fun n => fixtures (env.ToLower n)) = fixes.map some →
        requireFixtures env fixtures req = (fixes, none) := by
  induction req with
  | nil =>
      intro fixes h
      cases fixes with
      | nil => rfl
      | cons f fs => simp at h
  | cons n rest ih =>
      intro fixes h
      cases fixes with
      | nil => simp at h
      | cons f fs =>
          simp only [List.map_cons, List.cons.injEq] at h
          simp [requireFixtures, h.1, ih fs h.2]

/-- When the lookups find a fixture for every name of `pre` and none for
the next name, the loop has started the fixtures of `pre` and misses that
name. -/
theorem requireFixtures_missing (env : Env) (fixtures : GoMap Fixture) (pre : List String)
    (n : String) (post : List String) (hn : fixtures (env.ToLower n) = none) :
    ∀ (fixes : List Fixture),
      pre.map (fun m => fixtures (env.ToLower m)) = fixes.map some →
        requireFixtures env fixtures (pre ++ n :: post) = (fixes, some n) := by
  induction pre with
  | nil =>
      intro fixes h
      cases fixes with
      | nil => simp [requireFixtures, hn]
      | cons f fs => simp at h
  | cons m rest ih =>
      intro fixes h
      cases fixes with
      | nil => simp at h
      | cons f fs =>
          simp only [List.map_cons, List.cons.injEq] at h
          simp [requireFixtures, h.1, ih fs h.2]

/-- A list of names splits at the first name whose lookup fails. -/
theorem exists_first_missing (env : Env) (fixtures : GoMap Fixture) (req : List String) :
    (∃ n ∈ req, fixtures (env.ToLower n) = none) →
      ∃ (pre : List String) (n : String) (post : List String) (fixes : List Fixture),
        req = pre ++ n :: post ∧ fixtures (env.ToLower n) = none ∧
          pre.map (fun m => fixtures (env.ToLower m)) = fixes.map some := by
  induction req with
  | nil => intro h; simp at h
  | cons m rest ih =>
      intro h
      cases hm : fixtures (env.ToLower m) with
      | none => exact ⟨[], m, rest, [], rfl, hm, rfl⟩
      | some f =>
          have h2 : ∃ n ∈ rest, fixtures (env.ToLower n) = none := by
            obtain ⟨n, hmem, hnone⟩ := h
            rcases List.mem_cons.mp hmem with heq | hmem
            · subst heq; rw [hm] at hnone; cases hnone
            · exact ⟨n, hmem, hnone⟩
          obtain ⟨pre, n, post, fixes, h1, h3, h4⟩ := ih h2
          exact ⟨m :: pre, n, post, f :: fixes, by simp [h1], h3, by simp [hm, h4]⟩

/-- When every lookup succeeds the found fixtures can be listed. -/
theorem exists_fixes_of_found (env : Env) (fixtures : GoMap Fixture) (req : List String) :
    (∀ n ∈ req, (fixtures (env.ToLower n)).isSome = true) →
      ∃ fixes : List Fixture, req.map (fun n => fixtures (env.ToLower n)) = fixes.map some := by
  induction req with
  | nil => intro _; exact ⟨[], rfl⟩
  | cons m rest ih =>
      intro h
      obtain ⟨fs, hfs⟩ := ih (fun n hn => h n (List.mem_cons_of_mem _ hn))
      have hm := h m (List.mem_cons_self _ _)
      cases hx : fixtures (env.ToLower m) with
      | none => simp [hx] at hm
      | some f => exact ⟨f :: fs, by simp [hx, hfs]⟩

/-- The guard on the length of `Require` changes nothing. -/
theorem require_guard (env : Env) (fixtures : GoMap Fixture) (req : List String) :
    (if req.length > 0 then requireFixtures env fixtures req else ([], none)) =
      requireFixtures env fixtures req := by
  cases req with
  | nil => rfl
  | cons n rest => simp

/-- The shape of `Scenario.Run` when every required fixture is found. -/
theorem Run_of_found (env : Env) (s : Scenario) (ctx : Context) (fixes : List Fixture)
    (h : s.Require.map (fun n => Fixtures ctx (env.ToLower n)) = fixes.map some) :
    Scenario.Run env s ctx =
      { ret := if (runSpecs env (loopStart ctx) s.Tests).state.errs.Empty then none
               else some (.aggregate (runSpecs env (loopStart ctx) s.Tests).state.errs),
        events := fixes.map Event.fixtureStart ++ [Event.subtest s.Title] ++
          (runSpecs env (loopStart ctx) s.Tests).events ++
          (runSpecs env (loopStart ctx) s.Tests).state.defers.map Event.cancel ++
          fixes.reverse.map Event.fixtureStop } := by
  have hg : (if s.Require.length > 0 then requireFixtures env (Fixtures ctx) s.Require
      else ([], none)) = (fixes, none) := by
    rw [require_guard]
    exact requireFixtures_found env _ _ fixes h
  unfold Scenario.Run
  simp only [hg, loopStart]

/-- The shape of `Scenario.Run` when a required fixture is missing. -/
theorem Run_of_missing (env : Env) (s : Scenario) (ctx : Context) (pre : List String)
    (n : String) (post : List String) (fixes : List Fixture)
    (hreq : s.Require = pre ++ n :: post)
    (hn : Fixtures ctx (env.ToLower n) = none)
    (h : pre.map (fun m => Fixtures ctx (env.ToLower m)) = fixes.map some) :
    Scenario.Run env s ctx =
      { ret := some (.single (RequiredFixtureMissing n)),
        events := fixes.map Event.fixtureStart ++ fixes.reverse.map Event.fixtureStop } := by
  have hg : (if s.Require.length > 0 then requireFixtures env (Fixtures ctx) s.Require
      else ([], none)) = (fixes, some n) := by
    rw [require_guard, hreq]
    exact requireFixtures_missing env _ pre n post hn fixes h
  unfold Scenario.Run
  simp only [hg]

theorem invocations_fixtureStart (fixes : List Fixture) :
    invocations (fixes.map Event.fixtureStart) = [] := by
  induction fixes with
  | nil => rfl
  | cons f fs ih => simp [invocations, ih]

theorem invocations_fixtureStop (fixes : List Fixture) :
    invocations (fixes.map Event.fixtureStop) = [] := by
  induction fixes with
  | nil => rfl
  | cons f fs ih => simp [invocations, ih]

theorem invocations_cancel (cs : List Context) :
    invocations (cs.map Event.cancel) = [] := by
  induction cs with
  | nil => rfl
  | cons c rest ih => simp [invocations, ih]

/-- The calls made by `Scenario.Run` are the calls made by its loop, when
every required fixture is found. -/
theorem Run_invocations_of_found (env : Env) (s : Scenario) (ctx : Context)
    (fixes : List Fixture)
    (h : s.Require.map (fun n => Fixtures ctx (env.ToLower n)) = fixes.map some) :
    invocations (Scenario.Run env s ctx).events =
      invocations (runSpecs env (loopStart ctx) s.Tests).events := by
  rw [Run_of_found env s ctx fixes h]
  simp only [invocations_append, invocations_fixtureStart, invocations_fixtureStop,
    invocations_cancel, invocations, List.nil_append, List.append_nil]

/-- The calls made by `Scenario.Run` are calls made by its loop: all of
them, or none when a fixture is missing. -/
theorem Run_invocations (env : Env) (s : Scenario) (ctx : Context) :
    invocations (Scenario.Run env s ctx).events =
        invocations (runSpecs env (loopStart ctx) s.Tests).events ∨
      invocations (Scenario.Run env s ctx).events = [] := by
  by_cases hm : ∃ n ∈ s.Require, Fixtures ctx (env.ToLower n) = none
  · obtain ⟨pre, n, post, fixes, h1, h2, h3⟩ := exists_first_missing env _ _ hm
    right
    rw [Run_of_missing env s ctx pre n post fixes h1 h2 h3]
    simp only [invocations_append, invocations_fixtureStart, invocations_fixtureStop,
      List.append_nil]
  · left
    have hf : ∀ n ∈ s.Require, (Fixtures ctx (env.ToLower n)).isSome = true := by
      intro n hn
      cases hx : Fixtures ctx (env.ToLower n) with
      | none => exact absurd ⟨n, hn, hx⟩ hm
      | some f => rfl
    obtain ⟨fixes, hfixes⟩ := exists_fixes_of_found env _ _ hf
    exact Run_invocations_of_found env s ctx fixes hfixes

/-! ## Scenario.Run -/

/-- Every run either finds all required fixtures or stops at the first
name whose lookup fails. -/
theorem Run_fixture_cases (env : Env) (s : Scenario) (ctx : Context) :
    (∃ fixes : List Fixture,
        s.Require.map (fun n => Fixtures ctx (env.ToLower n)) = fixes.map some) ∨
      (∃ (pre : List String) (n : String) (post : List String) (fixes : List Fixture),
        s.Require = pre ++ n :: post ∧ Fixtures ctx (env.ToLower n) = none ∧
          pre.map (fun m => Fixtures ctx (env.ToLower m)) = fixes.map some) := by
  by_cases hm : ∃ n ∈ s.Require, Fixtures ctx (env.ToLower n) = none
  · exact Or.inr (exists_first_missing env _ _ hm)
  · left
    apply exists_fixes_of_found
    intro n hn
    cases hx : Fixtures ctx (env.ToLower n) with
    | none => exact absurd ⟨n, hn, hx⟩ hm
    | some f => rfl

theorem RequiredFixtureMissing_Is_ErrRuntime (name : String) :
    (RequiredFixtureMissing name).Is ErrRuntime = true := by
  simp [RequiredFixtureMissing, ErrRequiredFixture, ErrRuntime, GoError.Is]

theorem RequiredFixtureMissing_Is_ErrRequiredFixture (name : String) :
    (RequiredFixtureMissing name).Is ErrRequiredFixture = true := by
  simp [RequiredFixtureMissing, ErrRequiredFixture, ErrRuntime, GoError.Is]

/-- C1, as stated, fails: the scenario requires the name "Books_API", which
is absent from a fixture table whose only key is "books_api"; `Run` looks
the name up in lower case, finds the fixture, returns nil and runs the
unit. -/
theorem Run_absent_name_counterexample :
    "Books_API" ∈ mixedCaseScenario.Require ∧
    Fixtures (fixtureContext "books_api" { id := "fx" }) "Books_API" = none ∧
    (Scenario.Run sampleEnv mixedCaseScenario
      (fixtureContext "books_api" { id := "fx" })).ret = none ∧
    (invocations (Scenario.Run sampleEnv mixedCaseScenario
      (fixtureContext "books_api" { id := "fx" })).events).length = 1 := by
  decide

/-- C1, amended: for every scenario whose Require list contains a name
whose lower-cased form is absent from the fixture table of the context,
`Scenario.Run` returns a non-nil error that matches both `ErrRuntime` and
`ErrRequiredFixture`, and no unit's `Run` is called. -/
theorem Run_missing_fixture (env : Env) (s : Scenario) (ctx : Context)
    (h : ∃ n ∈ s.Require, Fixtures ctx (env.ToLower n) = none) :
    ∃ e : RunError, (Scenario.Run env s ctx).ret = some e ∧
      e.Is ErrRuntime = true ∧ e.Is ErrRequiredFixture = true ∧
      invocations (Scenario.Run env s ctx).events = [] := by
  obtain ⟨pre, n, post, fixes, h1, h2, h3⟩ := exists_first_missing env _ _ h
  rw [Run_of_missing env s ctx pre n post fixes h1 h2 h3]
  refine ⟨.single (RequiredFixtureMissing n), rfl, ?_, ?_, ?_⟩
  · exact RequiredFixtureMissing_Is_ErrRuntime n
  · exact RequiredFixtureMissing_Is_ErrRequiredFixture n
  · simp only [invocations_append, invocations_fixtureStart, invocations_fixtureStop,
      List.append_nil]

/-- The missing fixture "books_api" of the test `TestMissingFixtures`. -/
theorem Run_missing_fixture_witness :
    (∃ n ∈ booksScenario.Require, Fixtures Context.todo (sampleEnv.ToLower n) = none) ∧
    ∃ e : RunError, (Scenario.Run sampleEnv booksScenario Context.todo).ret = some e ∧
      e.Is ErrRuntime = true ∧ e.Is ErrRequiredFixture = true ∧
      invocations (Scenario.Run sampleEnv booksScenario Context.todo).events = [] :=
  ⟨⟨"books_api", by decide, rfl⟩,
    Run_missing_fixture sampleEnv booksScenario Context.todo ⟨"books_api", by decide, rfl⟩⟩

theorem waitBefore_isFixture (env : Env) (ctx : Context) (w : Option Wait) :
    ∀ e ∈ waitBefore env ctx w, e.isFixture = false := by
  unfold waitBefore
  cases w with
  | none => simp
  | some w => by_cases h : w.Before = "" <;> simp [h, Event.isFixture]

theorem waitAfter_isFixture (env : Env) (ctx : Context) (w : Option Wait) :
    ∀ e ∈ waitAfter env ctx w, e.isFixture = false := by
  unfold waitAfter
  cases w with
  | none => simp
  | some w => by_cases h : w.After = "" <;> simp [h, Event.isFixture]

/-- An iteration of the loop starts and stops no fixture. -/
theorem runSpec_isFixture (env : Env) (st : LoopState) (u : TestUnit) :
    ∀ e ∈ (runSpec env st u).events, e.isFixture = false := by
  have hb := waitBefore_isFixture env st.ctx u.Base.Wait
  have key : ∀ (c : Context) (l : List Event), (∀ e ∈ l, e.isFixture = false) →
      ∀ e ∈ (waitBefore env st.ctx u.Base.Wait ++ [Event.unitRun u c]) ++ l,
        e.isFixture = false := by
    intro c l hl e hmem
    simp only [List.mem_append, List.mem_singleton] at hmem
    rcases hmem with (hmem | hmem) | hmem
    · exact hb e hmem
    · subst hmem; rfl
    · exact hl e hmem
  have hfatal : ∀ x : GoError, ∀ e ∈ [Event.fatal x], e.isFixture = false := by
    intro x e hmem
    simp only [List.mem_singleton] at hmem
    subst hmem; rfl
  unfold runSpec
  simp only []
  split
  · split
    · split
      · exact key _ _ (hfatal _)
      · exact key _ _ (waitAfter_isFixture _ _ _)
    · exact key _ _ (waitAfter_isFixture _ _ _)
  · exact key _ _ (waitAfter_isFixture _ _ _)

/-- The loop starts and stops no fixture. -/
theorem runSpecs_isFixture (env : Env) (us : List TestUnit) :
    ∀ (st : LoopState), ∀ e ∈ (runSpecs env st us).events, e.isFixture = false := by
  induction us with
  | nil => intro st e h; simp [runSpecs] at h
  | cons u rest ih =>
      intro st e h
      cases hx : (runSpec env st u).exited
      · rw [runSpecs_cons_continue env st u rest hx] at h
        simp only [List.mem_append] at h
        rcases h with h | h
        · exact runSpec_isFixture env st u e h
        · exact ih _ e h
      · rw [runSpecs_cons_exited env st u rest hx] at h
        exact runSpec_isFixture env st u e h

theorem invocations_subtest (name : String) (l : List Event) :
    invocations (Event.subtest name :: l) = invocations l := rfl

/-- C3: when the lookups of `Run` find a fixture for every name of the
Require list, the events of `Scenario.Run` are the `Start` of each of them
in Require order, then events that touch no fixture and hold every call of
a unit's `Run`, then the `Stop` of each of them in the reverse order; so
the fixture of each entry of the Require list is started once before any
unit runs and stopped once after the last unit has run, whatever the units
return and also when `t.Fatal` ends the loop. And when the lookups succeed for
the names before some name and fail for that name, the events are the
`Start` of the fixtures found, in order, followed by their `Stop` in the
reverse order, and `Run` returns the error of the missing fixture. -/
theorem Run_fixture_lifecycle (env : Env) (s : Scenario) (ctx : Context) :
    (∀ fixes : List Fixture,
      s.Require.map (fun n => Fixtures ctx (env.ToLower n)) = fixes.map some →
      ∃ mid : List Event,
        (Scenario.Run env s ctx).events =
          fixes.map Event.fixtureStart ++ mid ++ fixes.reverse.map Event.fixtureStop ∧
        (∀ e ∈ mid, e.isFixture = false) ∧
        invocations mid = invocations (Scenario.Run env s ctx).events ∧
        invocations mid = invocations (runSpecs env (loopStart ctx) s.Tests).events) ∧
    (∀ (pre : List String) (n : String) (post : List String) (fixes : List Fixture),
      s.Require = pre ++ n :: post →
      pre.map (fun m => Fixtures ctx (env.ToLower m)) = fixes.map some →
      Fixtures ctx (env.ToLower n) = none →
        (Scenario.Run env s ctx).events =
          fixes.map Event.fixtureStart ++ fixes.reverse.map Event.fixtureStop ∧
        (Scenario.Run env s ctx).ret = some (.single (RequiredFixtureMissing n))) := by
  constructor
  · intro fixes h
    refine ⟨[Event.subtest s.Title] ++ (runSpecs env (loopStart ctx) s.Tests).events ++
      (runSpecs env (loopStart ctx) s.Tests).state.defers.map Event.cancel, ?_, ?_, ?_, ?_⟩
    · rw [Run_of_found env s ctx fixes h]
      simp only [List.append_assoc]
    · intro e hmem
      simp only [List.mem_append, List.mem_singleton, List.mem_map] at hmem
      rcases hmem with (hmem | hmem) | ⟨c, _, hc⟩
      · subst hmem; rfl
      · exact runSpecs_isFixture env _ _ e hmem
      · subst hc; rfl
    · rw [Run_invocations_of_found env s ctx fixes h]
      simp only [invocations_append, invocations_cancel, invocations_subtest,
        List.singleton_append, List.append_nil]
    · simp only [invocations_append, invocations_cancel, invocations_subtest,
        List.singleton_append, List.append_nil]
  · intro pre n post fixes h1 h3 h2
    rw [Run_of_missing env s ctx pre n post fixes h1 h2 h3]
    exact ⟨rfl, rfl⟩

/-- The fixtures "A" and "b" around a unit that returns a runtime error,
and the same scenario in a context that lacks "b". -/
theorem Run_fixture_lifecycle_witness :
    (∃ mid : List Event,
      (Scenario.Run sampleEnv twoFixtureScenario twoFixtureContext).events =
        [Event.fixtureStart { id := "fa" }, Event.fixtureStart { id := "fb" }] ++ mid ++
          [Event.fixtureStop { id := "fb" }, Event.fixtureStop { id := "fa" }] ∧
      (∀ e ∈ mid, e.isFixture = false) ∧
      invocations mid =
        invocations (Scenario.Run sampleEnv twoFixtureScenario twoFixtureContext).events ∧
      invocations mid =
        invocations (runSpecs sampleEnv (loopStart twoFixtureContext)
          twoFixtureScenario.Tests).events) ∧
    ((Scenario.Run sampleEnv twoFixtureScenario oneFixtureContext).events =
        [Event.fixtureStart { id := "fa" }, Event.fixtureStop { id := "fa" }] ∧
      (Scenario.Run sampleEnv twoFixtureScenario oneFixtureContext).ret =
        some (.single (RequiredFixtureMissing "b"))) :=
  ⟨(Run_fixture_lifecycle sampleEnv twoFixtureScenario twoFixtureContext).1
      [{ id := "fa" }, { id := "fb" }] (by decide),
    (Run_fixture_lifecycle sampleEnv twoFixtureScenario oneFixtureContext).2
      ["A"] "b" [] [{ id := "fa" }] rfl (by decide) (by decide)⟩

/-- C4, as stated, fails: the scenario requires a fixture that the context
does not have; no unit hits an unexpected timeout, and yet the unit of the
scenario is not called. -/
theorem Run_calls_every_unit_counterexample :
    (∀ p ∈ invocations (Scenario.Run sampleEnv booksScenario Context.todo).events,
      unexpectedTimeout sampleEnv p = false) ∧
    (invocations (Scenario.Run sampleEnv booksScenario Context.todo).events).length = 0 ∧
    booksScenario.Tests.length = 1 ∧
    (invocations (Scenario.Run sampleEnv booksScenario Context.todo).events).map Prod.fst ≠
      booksScenario.Tests := by
  have h : invocations (Scenario.Run sampleEnv booksScenario Context.todo).events = [] := rfl
  rw [h]
  refine ⟨by simp, rfl, rfl, ?_⟩
  simp [booksScenario, sampleScenario]

/-- C4, amended: for every scenario whose required fixtures are all found
and in which no call of a unit hits an unexpected timeout, `Scenario.Run`
calls the `Run` of each unit exactly once, in the order of the Tests list,
whatever the units return: a runtime error returned as a plain error or
inside a Result stops no later unit. -/
theorem Run_calls_every_unit (env : Env) (s : Scenario) (ctx : Context)
    (hfound : ∀ n ∈ s.Require, (Fixtures ctx (env.ToLower n)).isSome = true)
    (hno : ∀ p ∈ invocations (Scenario.Run env s ctx).events,
      unexpectedTimeout env p = false) :
    (invocations (Scenario.Run env s ctx).events).map Prod.fst = s.Tests := by
  obtain ⟨fixes, hfixes⟩ := exists_fixes_of_found env _ _ hfound
  rw [Run_invocations_of_found env s ctx fixes hfixes] at hno ⊢
  exact (runSpecs_not_exited env s.Tests _ (runSpecs_exited_false_of env s.Tests _ hno)).1

/-- Three units, two of which return a runtime error, are all called. -/
theorem Run_calls_every_unit_witness :
    (∀ n ∈ failingScenario.Require,
      (Fixtures Context.todo (sampleEnv.ToLower n)).isSome = true) ∧
    (∀ p ∈ invocations (Scenario.Run sampleEnv failingScenario Context.todo).events,
      unexpectedTimeout sampleEnv p = false) ∧
    (invocations (Scenario.Run sampleEnv failingScenario Context.todo).events).map Prod.fst =
      failingScenario.Tests :=
  ⟨by decide, by decide,
    Run_calls_every_unit sampleEnv failingScenario Context.todo (by decide) (by decide)⟩

theorem mergeData_append (ds : List (GoMap Any)) (d : GoMap Any) (key : String) :
    mergeData (ds ++ [d]) key =
      match d key with
      | some v => some v
      | none => mergeData ds key := by
  simp only [mergeData, List.foldl_append, List.foldl_cons, List.foldl_nil]
  rw [Assign_pair]
  cases d key <;> rfl

/-- C2: take a run in which no call of a unit times out, started from a
context whose prior-run view is empty. The call number `k` is the call of
unit `k`, and the prior-run view of the context it is handed is the
in-order merge of the data maps of the Results returned by the units
before it (a later map wins on an equal key, older keys are kept). In
particular the first unit sees an empty view, no unit sees its own data or
that of a later unit, and when the required fixtures are all found every
unit is called. -/
theorem Run_priorRun_propagation (env : Env) (s : Scenario) (ctx : Context)
    (hempty : PriorRun ctx = GoMap.empty)
    (hno : ∀ p ∈ invocations (Scenario.Run env s ctx).events,
      env.TimedOut p.2 (p.1.Run p.2) = false) :
    (∀ (k : Nat) (p : TestUnit × Context),
      (invocations (Scenario.Run env s ctx).events)[k]? = some p →
        s.Tests[k]? = some p.1 ∧
        PriorRun p.2 =
          mergeData (((invocations (Scenario.Run env s ctx).events).take k).map
            (fun q => returnedData (q.1.Run q.2)))) ∧
    (∀ p : TestUnit × Context,
      (invocations (Scenario.Run env s ctx).events)[0]? = some p →
        PriorRun p.2 = GoMap.empty) ∧
    ((∀ n ∈ s.Require, (Fixtures ctx (env.ToLower n)).isSome = true) →
      (invocations (Scenario.Run env s ctx).events).map Prod.fst = s.Tests) ∧
    (∀ (ds : List (GoMap Any)) (d : GoMap Any) (key : String),
      mergeData (ds ++ [d]) key =
        match d key with
        | some v => some v
        | none => mergeData ds key) := by
  have main : ∀ (k : Nat) (p : TestUnit × Context),
      (invocations (Scenario.Run env s ctx).events)[k]? = some p →
        s.Tests[k]? = some p.1 ∧
        PriorRun p.2 =
          mergeData (((invocations (Scenario.Run env s ctx).events).take k).map
            (fun q => returnedData (q.1.Run q.2))) := by
    intro k p hk
    rcases Run_invocations env s ctx with h | h
    · rw [h] at hk hno ⊢
      refine ⟨(runSpecs_reach env s.Tests _ k p hk).1, ?_⟩
      rw [runSpecs_priorRun env s.Tests _ hno k p hk]
      simp only [loopStart, hempty, mergeData]
    · rw [h] at hk
      simp at hk
  refine ⟨main, ?_, ?_, mergeData_append⟩
  · intro p hp
    rw [(main 0 p hp).2]
    rfl
  · intro hfound
    obtain ⟨fixes, hfixes⟩ := exists_fixes_of_found env _ _ hfound
    rw [Run_invocations_of_found env s ctx fixes hfixes] at hno ⊢
    apply (runSpecs_not_exited env s.Tests _ _).1
    apply runSpecs_exited_false_of
    intro p hp
    simp [unexpectedTimeout, hno p hp]

/-- The second of two units sees the data of the first under the key "k". -/
theorem Run_priorRun_propagation_witness :
    PriorRun Context.todo = GoMap.empty ∧
    (∀ p ∈ invocations (Scenario.Run sampleEnv priorRunScenario Context.todo).events,
      sampleEnv.TimedOut p.2 (p.1.Run p.2) = false) ∧
    (priorRunScenario.Tests[1]? =
        some (sampleUnit 1 none (.result (dataResult "k" (.str "v1")))) ∧
      PriorRun (StorePriorRun Context.todo (dataResult "k" (.str "v0")).Data) =
        mergeData (((invocations
          (Scenario.Run sampleEnv priorRunScenario Context.todo).events).take 1).map
            (fun q => returnedData (q.1.Run q.2)))) ∧
    PriorRun (StorePriorRun Context.todo (dataResult "k" (.str "v0")).Data) "k" =
      some (.str "v0") :=
  ⟨rfl, by decide,
    (Run_priorRun_propagation sampleEnv priorRunScenario Context.todo rfl (by decide)).1 1
      (sampleUnit 1 none (.result (dataResult "k" (.str "v1"))),
        StorePriorRun Context.todo (dataResult "k" (.str "v0")).Data) rfl,
    by decide⟩

/-- C5: when the call number `i` of a run is the call of a unit that has a
timeout whose `Expected` is false, and the error it returned indicates that
the deadline was exceeded, then that unit is unit `i` of the Tests list,
`Scenario.Run` reports to the sink the fatal "timeout exceeded" error built
from the `After` string of the unit, right after the `i + 1` calls made so
far, and no unit after `i` is called. -/
theorem Run_unexpected_timeout_fatal (env : Env) (s : Scenario) (ctx : Context)
    (i : Nat) (p : TestUnit × Context) (t : Timeout)
    (hcall : (invocations (Scenario.Run env s ctx).events)[i]? = some p)
    (ht : p.1.Base.Timeout = some t) (he : t.Expected = false)
    (hto : env.TimedOut p.2 (p.1.Run p.2) = true) :
    s.Tests[i]? = some p.1 ∧
    (∃ pre post : List Event,
      (Scenario.Run env s ctx).events =
        pre ++ Event.fatal (TimeoutExceeded t.After) :: post ∧
      (invocations pre).length = i + 1 ∧ invocations post = []) ∧
    (∀ j : Nat, i < j → (invocations (Scenario.Run env s ctx).events)[j]? = none) := by
  rcases Run_fixture_cases env s ctx with ⟨fixes, hf⟩ | ⟨pre, n, post, fixes, h1, h2, h3⟩
  · have hinv := Run_invocations_of_found env s ctx fixes hf
    rw [hinv] at hcall ⊢
    obtain ⟨⟨body, hbody⟩, hlen, _⟩ := runSpecs_fatal env s.Tests _ i p t hcall ht he hto
    refine ⟨(runSpecs_reach env s.Tests _ i p hcall).1, ?_, ?_⟩
    · refine ⟨fixes.map Event.fixtureStart ++ [Event.subtest s.Title] ++ body,
        (runSpecs env (loopStart ctx) s.Tests).state.defers.map Event.cancel ++
          fixes.reverse.map Event.fixtureStop, ?_, ?_, ?_⟩
      · rw [Run_of_found env s ctx fixes hf, hbody]
        simp
      · have hb : invocations (runSpecs env (loopStart ctx) s.Tests).events =
            invocations body := by
          rw [hbody, invocations_append]
          simp [invocations]
        rw [← hlen, hb]
        simp only [invocations_append, invocations_fixtureStart, invocations_subtest,
          List.singleton_append, List.nil_append, List.append_assoc]
      · simp only [invocations_append, invocations_cancel, invocations_fixtureStop,
          List.append_nil]
    · intro j hj
      apply List.getElem?_eq_none
      omega
  · have hrun := Run_of_missing env s ctx pre n post fixes h1 h2 h3
    rw [hrun] at hcall
    simp only [invocations_append, invocations_fixtureStart, invocations_fixtureStop,
      List.append_nil] at hcall
    simp at hcall

/-- A first unit that exceeds its unexpected timeout of 20ms ends the run. -/
theorem Run_unexpected_timeout_fatal_witness :
    ((invocations (Scenario.Run sampleEnv fatalScenario Context.todo).events)[0]? =
        some (sampleUnit 0 (some { After := "20ms", Expected := false })
            (.err DeadlineExceeded),
          Context.withTimeout Context.todo 20000000)) ∧
    (fatalScenario.Tests[0]? =
        some (sampleUnit 0 (some { After := "20ms", Expected := false })
          (.err DeadlineExceeded)) ∧
      (∃ pre post : List Event,
        (Scenario.Run sampleEnv fatalScenario Context.todo).events =
          pre ++ Event.fatal (TimeoutExceeded "20ms") :: post ∧
        (invocations pre).length = 0 + 1 ∧ invocations post = []) ∧
      (∀ j : Nat, 0 < j →
        (invocations (Scenario.Run sampleEnv fatalScenario Context.todo).events)[j]? = none)) :=
  ⟨rfl, Run_unexpected_timeout_fatal sampleEnv fatalScenario Context.todo 0
    (sampleUnit 0 (some { After := "20ms", Expected := false }) (.err DeadlineExceeded),
      Context.withTimeout Context.todo 20000000)
    { After := "20ms", Expected := false } rfl rfl rfl rfl⟩

theorem RuntimeErrors_ext (a b : RuntimeErrors) (h : a.errs = b.errs) : a = b := by
  cases a; cases b; simp only at h; rw [h]

/-- C6: when the call number `i` of a run is the call of a unit that has a
timeout whose `Expected` is true, and the error it returned indicates that
the deadline was exceeded, then that unit is unit `i`, the loop reached it,
and its iteration does not end the loop, reports nothing fatal to the sink
and leaves the aggregator as it found it; and if there is a unit `i + 1`,
its `Run` is the next call. -/
theorem Run_expected_timeout_suppressed (env : Env) (s : Scenario) (ctx : Context)
    (i : Nat) (p : TestUnit × Context) (t : Timeout)
    (hcall : (invocations (Scenario.Run env s ctx).events)[i]? = some p)
    (ht : p.1.Base.Timeout = some t) (he : t.Expected = true)
    (hto : env.TimedOut p.2 (p.1.Run p.2) = true) :
    s.Tests[i]? = some p.1 ∧
    p.2 = unitContext env (s.stateBefore env ctx i) p.1 ∧
    (s.iteration env ctx i p.1).exited = false ∧
    (∀ e ∈ (s.iteration env ctx i p.1).events, e.isFatal = false) ∧
    (s.iteration env ctx i p.1).state.errs = (s.stateBefore env ctx i).errs ∧
    (∀ v : TestUnit, s.Tests[i + 1]? = some v →
      ∃ c : Context, (invocations (Scenario.Run env s ctx).events)[i + 1]? = some (v, c)) := by
  have hinv : invocations (Scenario.Run env s ctx).events =
      invocations (runSpecs env (loopStart ctx) s.Tests).events := by
    rcases Run_invocations env s ctx with h | h
    · exact h
    · rw [h] at hcall; simp at hcall
  rw [hinv] at hcall ⊢
  obtain ⟨h1, _, h3⟩ := runSpecs_reach env s.Tests _ i p hcall
  have hun : unexpectedTimeout env p = false := by
    simp [unexpectedTimeout, ht, he]
  have hp : (p.1, unitContext env (s.stateBefore env ctx i) p.1) = p := by
    unfold Scenario.stateBefore
    rw [← h3]
  have hx : (s.iteration env ctx i p.1).exited = false := by
    unfold Scenario.iteration
    rw [runSpec_exited, hp]
    exact hun
  refine ⟨h1, h3, hx, runSpec_isFatal env _ _ hx, ?_, ?_⟩
  · apply RuntimeErrors_ext
    unfold Scenario.iteration
    rw [runSpec_errs, hp]
    simp [contribution, hto]
  · intro v hv
    exact runSpecs_next env s.Tests _ i p v hcall hun hv

/-- A first unit that exceeds its expected timeout of 20ms is passed over. -/
theorem Run_expected_timeout_suppressed_witness :
    ((invocations (Scenario.Run sampleEnv expectedScenario Context.todo).events)[0]? =
        some (sampleUnit 0 (some { After := "20ms", Expected := true })
            (.err DeadlineExceeded),
          Context.withTimeout Context.todo 20000000)) ∧
    (expectedScenario.Tests[0]? =
        some (sampleUnit 0 (some { After := "20ms", Expected := true })
          (.err DeadlineExceeded)) ∧
      Context.withTimeout Context.todo 20000000 =
        unitContext sampleEnv (expectedScenario.stateBefore sampleEnv Context.todo 0)
          (sampleUnit 0 (some { After := "20ms", Expected := true })
            (.err DeadlineExceeded)) ∧
      (expectedScenario.iteration sampleEnv Context.todo 0
        (sampleUnit 0 (some { After := "20ms", Expected := true })
          (.err DeadlineExceeded))).exited = false ∧
      (∀ e ∈ (expectedScenario.iteration sampleEnv Context.todo 0
        (sampleUnit 0 (some { After := "20ms", Expected := true })
          (.err DeadlineExceeded))).events, e.isFatal = false) ∧
      (expectedScenario.iteration sampleEnv Context.todo 0
        (sampleUnit 0 (some { After := "20ms", Expected := true })
          (.err DeadlineExceeded))).state.errs =
        (expectedScenario.stateBefore sampleEnv Context.todo 0).errs ∧
      (∀ v : TestUnit, expectedScenario.Tests[0 + 1]? = some v →
        ∃ c : Context,
          (invocations (Scenario.Run sampleEnv expectedScenario Context.todo).events)[0 + 1]? =
            some (v, c))) :=
  ⟨rfl, Run_expected_timeout_suppressed sampleEnv expectedScenario Context.todo 0
    (sampleUnit 0 (some { After := "20ms", Expected := true }) (.err DeadlineExceeded),
      Context.withTimeout Context.todo 20000000)
    { After := "20ms", Expected := true } rfl rfl rfl rfl⟩

/-- C7, on the code: in a scenario whose first unit has a timeout of 20ms
and whose second unit has none, started from `context.TODO()`, which has no
deadline, the context handed to the second unit carries the deadline layer
derived for the first unit. -/
theorem Run_timeout_reaches_later_unit :
    (invocations (Scenario.Run sampleEnv cascadeScenario Context.todo).events).map
        (fun p => (p.1.Base.Index, p.1.Base.Timeout, p.2.timeouts)) =
      [(0, some { After := "20ms", Expected := false }, [20000000]),
       (1, none, [20000000])] ∧
    Context.todo.timeouts = [] := by
  decide

theorem filterMap_eq_nil_iff_forall {α β : Type} (f : α → Option β) (l : List α) :
    l.filterMap f = [] ↔ ∀ a ∈ l, f a = none := by
  induction l with
  | nil => simp
  | cons a rest ih =>
      cases ha : f a with
      | none => simp [List.filterMap_cons, ha, ih]
      | some b => simp [List.filterMap_cons, ha]

/-- A call contributes nothing to the aggregator exactly when it timed out,
returned nil, or returned a Result without a runtime error. -/
theorem contribution_eq_none_iff (env : Env) (p : TestUnit × Context) :
    contribution env p = none ↔
      (env.TimedOut p.2 (p.1.Run p.2) = true ∨ p.1.Run p.2 = RunReturn.nil ∨
        ∃ res : Result, p.1.Run p.2 = RunReturn.result res ∧ res.HasRuntimeError = false) := by
  unfold contribution
  cases hto : env.TimedOut p.2 (p.1.Run p.2)
  · simp only [Bool.false_eq_true, if_false, false_or]
    cases hr : p.1.Run p.2 with
    | nil => simp
    | result res =>
        simp only [Result.Unwrap, Result.HasRuntimeError, false_or, RunReturn.result.injEq,
          exists_eq_left']
        cases res.err <;> simp
    | err e => simp
  · simp

/-- C8, as stated, fails: the first unit of the scenario has a timeout that
is not expected to be exceeded and returns `context.DeadlineExceeded`, so
its timeout is reported with `t.Fatal` and not suppressed, and the second
unit is never called; no fixture is required, and `Scenario.Run` returns
nil. -/
theorem Run_returns_nil_counterexample :
    (∀ n ∈ fatalScenario.Require,
      (Fixtures Context.todo (sampleEnv.ToLower n)).isSome = true) ∧
    (Scenario.Run sampleEnv fatalScenario Context.todo).ret = none ∧
    (Scenario.Run sampleEnv fatalScenario Context.todo).events.map Event.kind =
      ["subtest", "unit run", "fatal", "cancel"] ∧
    (invocations (Scenario.Run sampleEnv fatalScenario Context.todo).events).map
        (fun p => (p.1.Base.Index, unexpectedTimeout sampleEnv p)) = [(0, true)] ∧
    fatalScenario.Tests.map (fun u => u.Base.Index) = [0, 1] := by
  decide

/-- C8, amended: for every scenario whose required fixtures are all found,
`Scenario.Run` returns nil if and only if no call of a unit contributed a
runtime error to the aggregator, where a call contributes nothing exactly
when it timed out, whether the timeout was expected or not, returned nil,
or returned a Result without a runtime error, and a unit that is not called
contributes nothing; otherwise it returns the aggregator itself, which
holds the contributed errors in the order of the calls. -/
theorem Run_returns_nil_iff (env : Env) (s : Scenario) (ctx : Context)
    (hfound : ∀ n ∈ s.Require, (Fixtures ctx (env.ToLower n)).isSome = true) :
    ((Scenario.Run env s ctx).ret = none ↔
      ∀ p ∈ invocations (Scenario.Run env s ctx).events, contribution env p = none) ∧
    ((Scenario.Run env s ctx).ret ≠ none →
      (Scenario.Run env s ctx).ret =
        some (.aggregate
          { errs := (invocations (Scenario.Run env s ctx).events).filterMap
              (contribution env) })) ∧
    (∀ p : TestUnit × Context, contribution env p = none ↔
      (env.TimedOut p.2 (p.1.Run p.2) = true ∨ p.1.Run p.2 = RunReturn.nil ∨
        ∃ res : Result, p.1.Run p.2 = RunReturn.result res ∧ res.HasRuntimeError = false)) := by
  obtain ⟨fixes, hfixes⟩ := exists_fixes_of_found env _ _ hfound
  have hinv := Run_invocations_of_found env s ctx fixes hfixes
  have herrs : (runSpecs env (loopStart ctx) s.Tests).state.errs =
      { errs := (invocations (Scenario.Run env s ctx).events).filterMap (contribution env) } := by
    apply RuntimeErrors_ext
    rw [runSpecs_errs, hinv]
    simp [loopStart, NewRuntimeErrors]
  have hret : (Scenario.Run env s ctx).ret =
      if (runSpecs env (loopStart ctx) s.Tests).state.errs.Empty then none
      else some (.aggregate (runSpecs env (loopStart ctx) s.Tests).state.errs) := by
    rw [Run_of_found env s ctx fixes hfixes]
  rw [hret, herrs]
  refine ⟨?_, ?_, contribution_eq_none_iff env⟩
  · rw [← filterMap_eq_nil_iff_forall]
    cases hl : (invocations (Scenario.Run env s ctx).events).filterMap (contribution env) <;>
      simp [RuntimeErrors.Empty]
  · cases hl : (invocations (Scenario.Run env s ctx).events).filterMap (contribution env) <;>
      simp [RuntimeErrors.Empty]

/-- Three units, two of which contribute a runtime error to the aggregator. -/
theorem Run_returns_nil_iff_witness :
    (∀ n ∈ failingScenario.Require,
      (Fixtures Context.todo (sampleEnv.ToLower n)).isSome = true) ∧
    (Scenario.Run sampleEnv failingScenario Context.todo).ret =
      some (.aggregate { errs := [RequiredFixtureMissing "db", ErrRuntime] }) ∧
    (((Scenario.Run sampleEnv failingScenario Context.todo).ret = none ↔
      ∀ p ∈ invocations (Scenario.Run sampleEnv failingScenario Context.todo).events,
        contribution sampleEnv p = none) ∧
    ((Scenario.Run sampleEnv failingScenario Context.todo).ret ≠ none →
      (Scenario.Run sampleEnv failingScenario Context.todo).ret =
        some (.aggregate
          { errs := (invocations
              (Scenario.Run sampleEnv failingScenario Context.todo).events).filterMap
                (contribution sampleEnv) })) ∧
    (∀ p : TestUnit × Context, contribution sampleEnv p = none ↔
      (sampleEnv.TimedOut p.2 (p.1.Run p.2) = true ∨ p.1.Run p.2 = RunReturn.nil ∨
        ∃ res : Result, p.1.Run p.2 = RunReturn.result res ∧
          res.HasRuntimeError = false))) :=
  ⟨by decide, by decide,
    Run_returns_nil_iff sampleEnv failingScenario Context.todo (by decide)⟩

/-! ## The prior-run data and the aggregator -/

/-- C14: for every context and data map `d`, the prior-run view of
`StorePriorRun(ctx, d)` has exactly the keys of the prior-run view of `ctx`
together with the keys of `d`; every key of `d` maps to the value of `d`,
and every key that is not in `d` keeps the value of the existing view. -/
theorem StorePriorRun_merges (ctx : Context) (d : GoMap Any) :
    (∀ key : String, (PriorRun (StorePriorRun ctx d) key).isSome =
        ((PriorRun ctx key).isSome || (d key).isSome)) ∧
    (∀ (key : String) (v : Any), d key = some v →
        PriorRun (StorePriorRun ctx d) key = some v) ∧
    (∀ key : String, d key = none →
        PriorRun (StorePriorRun ctx d) key = PriorRun ctx key) := by
  refine ⟨?_, ?_, ?_⟩
  · intro key
    rw [PriorRun_StorePriorRun, Assign_pair]
    cases d key <;> simp
  · intro key v h
    rw [PriorRun_StorePriorRun, Assign_pair, h]
  · intro key h
    rw [PriorRun_StorePriorRun, Assign_pair, h]

theorem GoError_Is_refl (e : GoError) : e.Is e = true := by
  cases e <;> simp [GoError.Is]

theorem foldl_AppendIf_errs (errs : List (Option GoError)) :
    ∀ acc : RuntimeErrors,
      (errs.foldl RuntimeErrors.AppendIf acc).errs = acc.errs ++ errs.filterMap id := by
  induction errs with
  | nil => intro acc; simp
  | cons x rest ih =>
      intro acc
      rw [List.foldl_cons, ih]
      cases x <;> simp [RuntimeErrors.AppendIf, List.filterMap_cons]

/-- C19: for a fresh aggregator and every list of errors passed to
`AppendIf`, `Has(kind)` is true if and only if some appended non-nil error
matches `kind`; after `AppendIf(RequiredFixtureMissing(name))`, for any
name, `Has(ErrRequiredFixture)` is true; and the aggregate that
`Scenario.Run` returns holds the errors contributed by the calls and
matches each of them. -/
theorem RuntimeErrors_Has_iff (errs : List (Option GoError)) (kind : GoError) :
    ((appendAll errs).Has kind = true ↔ ∃ e : GoError, some e ∈ errs ∧ e.Is kind = true) ∧
    (∀ name : String,
      (NewRuntimeErrors.AppendIf (some (RequiredFixtureMissing name))).Has
        ErrRequiredFixture = true) ∧
    (∀ (env : Env) (s : Scenario) (ctx : Context) (agg : RuntimeErrors),
      (Scenario.Run env s ctx).ret = some (.aggregate agg) →
        agg.errs = (invocations (Scenario.Run env s ctx).events).filterMap (contribution env) ∧
        ∀ e ∈ agg.errs, (RunError.aggregate agg).Is e = true) := by
  refine ⟨?_, ?_, ?_⟩
  · unfold appendAll RuntimeErrors.Has
    rw [foldl_AppendIf_errs]
    simp only [NewRuntimeErrors, List.nil_append, List.any_eq_true, List.mem_filterMap, id]
    constructor
    · rintro ⟨e, ⟨x, hx, hxe⟩, he⟩
      subst hxe
      exact ⟨e, hx, he⟩
    · rintro ⟨e, hx, he⟩
      exact ⟨e, ⟨some e, hx, rfl⟩, he⟩
  · intro name
    simp [RuntimeErrors.Has, RuntimeErrors.AppendIf, NewRuntimeErrors,
      RequiredFixtureMissing_Is_ErrRequiredFixture]
  · intro env s ctx agg hret
    constructor
    · rcases Run_fixture_cases env s ctx with ⟨fixes, hf⟩ | ⟨pre, n, post, fixes, h1, h2, h3⟩
      · have hinv := Run_invocations_of_found env s ctx fixes hf
        rw [Run_of_found env s ctx fixes hf] at hret
        simp only at hret
        split at hret
        · cases hret
        · simp only [Option.some.injEq, RunError.aggregate.injEq] at hret
          rw [← hret, runSpecs_errs, hinv]
          simp [loopStart, NewRuntimeErrors]
      · rw [Run_of_missing env s ctx pre n post fixes h1 h2 h3] at hret
        simp at hret
    · intro e he
      simp only [RunError.Is, RuntimeErrors.Has, List.any_eq_true]
      exact ⟨e, he, GoError_Is_refl e⟩


/-- C20, as stated, fails: `Run` is given a context with a deadline of
20ms; the only unit of the scenario has no timeout of its own and, the
deadline having passed, returns the plain error `context.DeadlineExceeded`;
the timeout check holds for it, the error is set to nil before it reaches
the aggregator, and `Scenario.Run` returns nil. -/
theorem Run_plain_error_counterexample :
    (invocations (Scenario.Run sampleEnv deadlineScenario deadlineContext).events).map
        (fun p => (p.1.Base.Timeout, p.2.timeouts)) = [(none, [20000000])] ∧
    (sampleUnit 0 none (.err DeadlineExceeded)).Run deadlineContext =
      RunReturn.err DeadlineExceeded ∧
    sampleEnv.TimedOut deadlineContext (RunReturn.err DeadlineExceeded) = true ∧
    (Scenario.Run sampleEnv deadlineScenario deadlineContext).ret = none := by
  refine ⟨by decide, rfl, by decide, by decide⟩

/-- C20, amended: when a call of a run is the call of a unit with no
timeout, and the unit returns a non-nil error that is not a Result and
does not indicate that the deadline was exceeded, `Scenario.Run` appends
that error to the aggregator and returns the aggregator, a non-nil error
that matches it. -/
theorem Run_appends_plain_error (env : Env) (s : Scenario) (ctx : Context)
    (i : Nat) (p : TestUnit × Context) (e : GoError)
    (hcall : (invocations (Scenario.Run env s ctx).events)[i]? = some p)
    (_hnone : p.1.Base.Timeout = none)
    (hret : p.1.Run p.2 = RunReturn.err e)
    (hto : env.TimedOut p.2 (p.1.Run p.2) = false) :
    ∃ agg : RuntimeErrors,
      (Scenario.Run env s ctx).ret = some (.aggregate agg) ∧ e ∈ agg.errs ∧
        (RunError.aggregate agg).Is e = true := by
  have hc : contribution env p = some e := by
    unfold contribution
    rw [hto, hret]
    rfl
  rcases Run_fixture_cases env s ctx with ⟨fixes, hf⟩ | ⟨pre, n, post, fixes, h1, h2, h3⟩
  · have hinv := Run_invocations_of_found env s ctx fixes hf
    rw [hinv] at hcall
    have hmem : e ∈ (runSpecs env (loopStart ctx) s.Tests).state.errs.errs := by
      rw [runSpecs_errs]
      apply List.mem_append_right
      rw [List.mem_filterMap]
      exact ⟨p, List.getElem?_mem hcall, hc⟩
    refine ⟨(runSpecs env (loopStart ctx) s.Tests).state.errs, ?_, hmem, ?_⟩
    · rw [Run_of_found env s ctx fixes hf]
      simp only
      have hne : (runSpecs env (loopStart ctx) s.Tests).state.errs.Empty = false := by
        unfold RuntimeErrors.Empty
        cases hl : (runSpecs env (loopStart ctx) s.Tests).state.errs.errs with
        | nil => rw [hl] at hmem; simp at hmem
        | cons a l => rfl
      simp [hne]
    · simp only [RunError.Is, RuntimeErrors.Has, List.any_eq_true]
      exact ⟨e, hmem, GoError_Is_refl e⟩
  · rw [Run_of_missing env s ctx pre n post fixes h1 h2 h3] at hcall
    simp only [invocations_append, invocations_fixtureStart, invocations_fixtureStop,
      List.append_nil] at hcall
    simp at hcall

/-- The first unit of three returns a plain runtime error, which the
aggregate returned by the run holds and matches. -/
theorem Run_appends_plain_error_witness :
    ((invocations (Scenario.Run sampleEnv failingScenario Context.todo).events)[0]? =
        some (sampleUnit 0 none (.err (RequiredFixtureMissing "db")), Context.todo)) ∧
    ∃ agg : RuntimeErrors,
      (Scenario.Run sampleEnv failingScenario Context.todo).ret = some (.aggregate agg) ∧
        RequiredFixtureMissing "db" ∈ agg.errs ∧
        (RunError.aggregate agg).Is (RequiredFixtureMissing "db") = true :=
  ⟨rfl, Run_appends_plain_error sampleEnv failingScenario Context.todo 0
    (sampleUnit 0 none (.err (RequiredFixtureMissing "db")), Context.todo)
    (RequiredFixtureMissing "db") rfl rfl rfl rfl⟩

/-! ## The plugin registry -/

theorem mem_entriesStore_self {V : Type} (m : List (String × V)) (key : String) (val : V) :
    (key, val) ∈ entriesStore m key val := by
  induction m with
  | nil => simp [entriesStore]
  | cons e rest ih =>
      obtain ⟨k, v⟩ := e
      by_cases h : k = key <;> simp [entriesStore, h, ih]

theorem mem_entriesStore_of_mem {V : Type} (m : List (String × V)) (key : String) (val : V)
    (e : String × V) (he : e ∈ m) (hk : e.1 ≠ key) : e ∈ entriesStore m key val := by
  induction m with
  | nil => simp at he
  | cons x rest ih =>
      obtain ⟨k, v⟩ := x
      by_cases h : k = key
      · simp only [entriesStore, h, if_true, List.mem_cons]
        rcases List.mem_cons.mp he with heq | hmem
        · subst heq
          exact absurd h hk
        · exact Or.inr hmem
      · simp only [entriesStore, h, if_false, List.mem_cons]
        rcases List.mem_cons.mp he with heq | hmem
        · exact Or.inl heq
        · exact Or.inr (ih hmem)

theorem mem_of_mem_entriesStore {V : Type} (m : List (String × V)) (key : String) (val : V)
    (e : String × V) (he : e ∈ entriesStore m key val) : e = (key, val) ∨ e ∈ m := by
  induction m with
  | nil => simp [entriesStore] at he; exact Or.inl he
  | cons x rest ih =>
      obtain ⟨k, v⟩ := x
      by_cases h : k = key
      · simp only [entriesStore, h, if_true, List.mem_cons] at he
        rcases he with heq | hmem
        · exact Or.inl heq
        · exact Or.inr (List.mem_cons_of_mem _ hmem)
      · simp only [entriesStore, h, if_false, List.mem_cons] at he
        rcases he with heq | hmem
        · exact Or.inr (by rw [heq]; exact List.mem_cons_self _ _)
        · rcases ih hmem with h1 | h1
          · exact Or.inl h1
          · exact Or.inr (List.mem_cons_of_mem _ h1)

theorem keys_entriesStore {V : Type} (m : List (String × V)) (key : String) (val : V) :
    (entriesStore m key val).map Prod.fst =
      if key ∈ m.map Prod.fst then m.map Prod.fst else m.map Prod.fst ++ [key] := by
  induction m with
  | nil => simp [entriesStore]
  | cons x rest ih =>
      obtain ⟨k, v⟩ := x
      by_cases h : k = key
      · simp [entriesStore, h]
      · have h2 : ¬ key = k := fun hh => h hh.symm
        simp only [entriesStore, h, if_false, List.map_cons, ih, List.mem_cons, h2, false_or]
        split <;> simp

theorem nodup_keys_entriesStore {V : Type} (m : List (String × V)) (key : String) (val : V)
    (h : (m.map Prod.fst).Nodup) : ((entriesStore m key val).map Prod.fst).Nodup := by
  rw [keys_entriesStore]
  split
  · exact h
  · rename_i hk
    rw [List.nodup_append]
    refine ⟨h, List.nodup_singleton _, ?_⟩
    intro a ha hb
    simp only [List.mem_singleton] at hb
    subst hb
    exact hk ha

theorem eq_of_mem_entriesStore_key {V : Type} (m : List (String × V)) (key : String) (val : V)
    (h : (m.map Prod.fst).Nodup) (e : String × V) (he : e ∈ entriesStore m key val)
    (hk : e.1 = key) : e = (key, val) := by
  have hnd := nodup_keys_entriesStore m key val h
  have hself := mem_entriesStore_self m key val
  exact (List.inj_on_of_nodup_map hnd) he hself hk

theorem wellKeyed_NewRegistry (toLower : String → String) :
    NewRegistry.wellKeyed toLower := by
  simp [PluginRegistry.wellKeyed, NewRegistry]

theorem wellKeyed_Add (toLower : String → String) (r : PluginRegistry) (p : Plugin)
    (h : r.wellKeyed toLower) : (r.Add toLower p).wellKeyed toLower := by
  refine ⟨nodup_keys_entriesStore _ _ _ h.1, ?_⟩
  intro e he
  rcases mem_of_mem_entriesStore _ _ _ e he with heq | hmem
  · rw [heq]
  · exact h.2 e hmem

theorem wellKeyed_Remove (toLower : String → String) (r : PluginRegistry) (p : Plugin)
    (h : r.wellKeyed toLower) : (r.Remove toLower p).wellKeyed toLower := by
  refine ⟨?_, ?_⟩
  · exact List.Nodup.sublist (List.Sublist.map _ (List.filter_sublist _)) h.1
  · intro e he
    exact h.2 e (List.mem_of_mem_filter he)

theorem wellKeyed_applyRegistryCalls (toLower : String → String) (calls : List RegistryCall) :
    ∀ r : PluginRegistry, r.wellKeyed toLower →
      (applyRegistryCalls toLower r calls).wellKeyed toLower := by
  induction calls with
  | nil => intro r h; exact h
  | cons c rest ih =>
      intro r h
      simp only [applyRegistryCalls, List.foldl_cons]
      apply ih
      cases c with
      | add p => exact wellKeyed_Add toLower r p h
      | remove p => exact wellKeyed_Remove toLower r p h

/-- C17: for every registry reached from `NewRegistry` by `Add` and
`Remove` calls and every plugin `p`, after `Add(p)` the result of `List()`
contains `p`, contains no other plugin whose name lower-cases to the same
string as the name of `p`, and still contains every plugin listed before
whose lower-cased name differs. -/
theorem Registry_Add_List (toLower : String → String) (calls : List RegistryCall)
    (p : Plugin) :
    p ∈ ((applyRegistryCalls toLower NewRegistry calls).Add toLower p).List ∧
    (∀ q ∈ ((applyRegistryCalls toLower NewRegistry calls).Add toLower p).List,
      toLower q.Name = toLower p.Name → q = p) ∧
    (∀ q ∈ (applyRegistryCalls toLower NewRegistry calls).List,
      toLower q.Name ≠ toLower p.Name →
        q ∈ ((applyRegistryCalls toLower NewRegistry calls).Add toLower p).List) := by
  have hwk := wellKeyed_applyRegistryCalls toLower calls NewRegistry
    (wellKeyed_NewRegistry toLower)
  have hwk2 := wellKeyed_Add toLower _ p hwk
  refine ⟨?_, ?_, ?_⟩
  · simp only [PluginRegistry.List, List.mem_map]
    exact ⟨(toLower p.Name, p), mem_entriesStore_self _ _ _, rfl⟩
  · intro q hq hname
    simp only [PluginRegistry.List, List.mem_map] at hq
    obtain ⟨e, he, heq⟩ := hq
    have hkey : e.1 = toLower p.Name := by
      rw [hwk2.2 e he, heq, hname]
    have := eq_of_mem_entriesStore_key _ _ _ hwk.1 e he hkey
    rw [← heq, this]
  · intro q hq hname
    simp only [PluginRegistry.List, List.mem_map] at hq ⊢
    obtain ⟨e, he, heq⟩ := hq
    refine ⟨e, mem_entriesStore_of_mem _ _ _ e he ?_, heq⟩
    rw [hwk.2 e he, heq]
    exact hname

/-- C18: for the registry made by `NewRegistry` and every finite sequence
of `Add` and `Remove` calls on it, `List()` holds no two plugins whose
names are equal after lower-casing, and its length is the number of
distinct lower-cased names registered. -/
theorem Registry_List_distinct (toLower : String → String) (calls : List RegistryCall) :
    (((applyRegistryCalls toLower NewRegistry calls).List).map
        (fun q => toLower q.Name)).Nodup ∧
    ((applyRegistryCalls toLower NewRegistry calls).List).length =
      ((((applyRegistryCalls toLower NewRegistry calls).List).map
        (fun q => toLower q.Name)).dedup).length := by
  have hwk := wellKeyed_applyRegistryCalls toLower calls NewRegistry
    (wellKeyed_NewRegistry toLower)
  have hkeys : ((applyRegistryCalls toLower NewRegistry calls).List).map
      (fun q => toLower q.Name) =
      (applyRegistryCalls toLower NewRegistry calls).entries.map Prod.fst := by
    simp only [PluginRegistry.List, List.map_map]
    apply List.map_congr_left
    intro e he
    exact (hwk.2 e he).symm
  have hnd : (((applyRegistryCalls toLower NewRegistry calls).List).map
      (fun q => toLower q.Name)).Nodup := by
    rw [hkeys]
    exact hwk.1
  refine ⟨hnd, ?_⟩
  rw [List.Nodup.dedup hnd, List.length_map]

/-! ## The operations on contexts -/

theorem Plugins_withValue_plugins (ctx : Context) (ps : List Plugin) :
    Plugins (Context.withValue ctx pluginsKey (CtxValue.plugins ps)) = ps := by
  simp [Plugins, Context.Value]

theorem Plugins_view (mem : ArrayMemory) (ctx : SliceContext) :
    Plugins (ctx.view mem) = mem.elements ctx.slice := by
  induction ctx with
  | todo => rfl
  | withDebug parent w ih =>
      have h : Plugins ((SliceContext.withDebug parent w).view mem) = Plugins (parent.view mem) := by
        simp [Plugins, SliceContext.view, Context.Value, debugKey, pluginsKey]
      rw [h, ih]
      rfl
  | withPlugins parent s ih =>
      simp [Plugins, SliceContext.view, Context.Value, SliceContext.slice]
  | withFixtures parent m ih =>
      have h : Plugins ((SliceContext.withFixtures parent m).view mem) =
          Plugins (parent.view mem) := by
        simp [Plugins, SliceContext.view, Context.Value, fixturesKey, pluginsKey]
      rw [h, ih]
      rfl
  | withPriorRun parent m ih =>
      have h : Plugins ((SliceContext.withPriorRun parent m).view mem) =
          Plugins (parent.view mem) := by
        simp [Plugins, SliceContext.view, Context.Value, priorRunKey, pluginsKey]
      rw [h, ih]
      rfl
  | withTimeout parent timeout ih =>
      have h : Plugins ((SliceContext.withTimeout parent timeout).view mem) =
          Plugins (parent.view mem) := by
        simp [Plugins, SliceContext.view, Context.Value]
      rw [h, ih]
      rfl

theorem filterMap_range_congr (n : Nat) (f g : Nat → Option Plugin)
    (h : ∀ i, i < n → f i = g i) :
    (List.range n).filterMap f = (List.range n).filterMap g := by
  induction n with
  | zero => rfl
  | succ k ih =>
      rw [List.range_succ, List.filterMap_append, List.filterMap_append,
        ih (fun i hi => h i (Nat.lt_succ_of_lt hi))]
      simp [List.filterMap_cons, h k (Nat.lt_succ_self k)]

/-- The slice that `append` returns holds the elements of the slice it was
given, followed by the new plugin. -/
theorem elements_append (grow : Nat → Nat) (mem : ArrayMemory) (s : PluginSlice) (p : Plugin) :
    (mem.append grow s p).1.elements (mem.append grow s p).2 = mem.elements s ++ [p] := by
  unfold ArrayMemory.append
  by_cases hroom : s.len < s.cap
  · simp only [hroom, if_true, ArrayMemory.elements]
    rw [List.range_succ, List.filterMap_append]
    congr 1
    · apply filterMap_range_congr
      intro i hi
      have hne : ¬ i = s.len := Nat.ne_of_lt hi
      simp [hne]
    · simp [List.filterMap_cons]
  · simp only [hroom, if_false, ArrayMemory.elements]
    rw [List.range_succ, List.filterMap_append]
    congr 1
    · apply filterMap_range_congr
      intro i hi
      simp [hi]
    · simp [List.filterMap_cons]

/-- A call of `RegisterPlugin` with a name that a listed plugin has returns
the memory and the context as they are. -/
theorem RegisterPlugin_known (grow : Nat → Nat) (mem : ArrayMemory) (ctx : SliceContext)
    (a b : Plugin) (ha : a ∈ Plugins (ctx.view mem)) (hname : a.Name = b.Name) :
    RegisterPlugin grow mem ctx b = (mem, ctx) := by
  rw [Plugins_view] at ha
  unfold RegisterPlugin
  have hany : (mem.elements ctx.slice).any (fun plug => decide (plug.Name = b.Name)) = true := by
    rw [List.any_eq_true]
    exact ⟨a, ha, by simp [hname]⟩
  simp only [hany, if_true]

/-- C16: for every context and plugins `p`, `q` of the same name, if `p` is
in the plugin list of the context then `RegisterPlugin(ctx, q)` returns the
context itself, writes nothing, and the plugin list is the same; and
registering `p` twice gives the same context, with the same plugin list, as
registering it once. -/
theorem RegisterPlugin_idempotent (grow : Nat → Nat) (mem : ArrayMemory) (ctx : SliceContext)
    (p q : Plugin) :
    (p ∈ Plugins (ctx.view mem) → p.Name = q.Name →
      RegisterPlugin grow mem ctx q = (mem, ctx) ∧
      Plugins ((RegisterPlugin grow mem ctx q).2.view (RegisterPlugin grow mem ctx q).1) =
        Plugins (ctx.view mem)) ∧
    RegisterPlugin grow (RegisterPlugin grow mem ctx p).1 (RegisterPlugin grow mem ctx p).2 p =
      RegisterPlugin grow mem ctx p ∧
    Plugins ((RegisterPlugin grow (RegisterPlugin grow mem ctx p).1
        (RegisterPlugin grow mem ctx p).2 p).2.view
      (RegisterPlugin grow (RegisterPlugin grow mem ctx p).1
        (RegisterPlugin grow mem ctx p).2 p).1) =
      Plugins ((RegisterPlugin grow mem ctx p).2.view (RegisterPlugin grow mem ctx p).1) := by
  have twice : RegisterPlugin grow (RegisterPlugin grow mem ctx p).1
      (RegisterPlugin grow mem ctx p).2 p = RegisterPlugin grow mem ctx p := by
    by_cases hany : (mem.elements ctx.slice).any (fun plug => decide (plug.Name = p.Name)) = true
    · have h1 : RegisterPlugin grow mem ctx p = (mem, ctx) := by
        unfold RegisterPlugin
        simp only [hany, if_true]
      rw [h1]
      exact h1
    · have h1 : RegisterPlugin grow mem ctx p =
          ((mem.append grow ctx.slice p).1,
            SliceContext.withPlugins ctx (mem.append grow ctx.slice p).2) := by
        unfold RegisterPlugin
        simp only [hany, if_false, Bool.false_eq_true]
      rw [h1]
      apply RegisterPlugin_known grow _ _ p p _ rfl
      rw [Plugins_view]
      simp only [SliceContext.slice]
      rw [elements_append]
      simp
  refine ⟨?_, twice, by rw [twice]⟩
  intro hp hname
  have h := RegisterPlugin_known grow mem ctx p q hp hname
  exact ⟨h, by rw [h]⟩

/-- Two plugins named "foo": the second is not registered after the first. -/
theorem RegisterPlugin_idempotent_witness :
    ({ Name := "foo", id := 1 } : Plugin) ∈
        Plugins ((RegisterPlugin goGrow ArrayMemory.initial SliceContext.todo
          { Name := "foo", id := 1 }).2.view
          (RegisterPlugin goGrow ArrayMemory.initial SliceContext.todo
            { Name := "foo", id := 1 }).1) ∧
    (RegisterPlugin goGrow
        (RegisterPlugin goGrow ArrayMemory.initial SliceContext.todo { Name := "foo", id := 1 }).1
        (RegisterPlugin goGrow ArrayMemory.initial SliceContext.todo { Name := "foo", id := 1 }).2
        { Name := "foo", id := 2 } =
      ((RegisterPlugin goGrow ArrayMemory.initial SliceContext.todo
          { Name := "foo", id := 1 }).1,
        (RegisterPlugin goGrow ArrayMemory.initial SliceContext.todo
          { Name := "foo", id := 1 }).2) ∧
    Plugins ((RegisterPlugin goGrow
        (RegisterPlugin goGrow ArrayMemory.initial SliceContext.todo { Name := "foo", id := 1 }).1
        (RegisterPlugin goGrow ArrayMemory.initial SliceContext.todo { Name := "foo", id := 1 }).2
        { Name := "foo", id := 2 }).2.view
      (RegisterPlugin goGrow
        (RegisterPlugin goGrow ArrayMemory.initial SliceContext.todo { Name := "foo", id := 1 }).1
        (RegisterPlugin goGrow ArrayMemory.initial SliceContext.todo { Name := "foo", id := 1 }).2
        { Name := "foo", id := 2 }).1) =
      Plugins ((RegisterPlugin goGrow ArrayMemory.initial SliceContext.todo
          { Name := "foo", id := 1 }).2.view
        (RegisterPlugin goGrow ArrayMemory.initial SliceContext.todo
          { Name := "foo", id := 1 }).1)) ∧
    Plugins ((RegisterPlugin goGrow ArrayMemory.initial SliceContext.todo
        { Name := "foo", id := 1 }).2.view
      (RegisterPlugin goGrow ArrayMemory.initial SliceContext.todo
        { Name := "foo", id := 1 }).1) = [{ Name := "foo", id := 1 }] :=
  ⟨by decide,
    (RegisterPlugin_idempotent goGrow
      (RegisterPlugin goGrow ArrayMemory.initial SliceContext.todo { Name := "foo", id := 1 }).1
      (RegisterPlugin goGrow ArrayMemory.initial SliceContext.todo { Name := "foo", id := 1 }).2
      { Name := "foo", id := 1 } { Name := "foo", id := 2 }).1 (by decide) rfl,
    by decide⟩

/-- C30, on the code: the plugins "a", "b" and "c" are registered one after
the other from `context.New()`, which leaves a slice of length 3 in an array
of capacity 4. `RegisterPlugin(ctx, d)` on that context gives a context
whose plugin list is a, b, c, d. A second call on the same context,
`RegisterPlugin(ctx, e)`, appends into the same array: after it the plugin
list of the context made by the first call is a, b, c, e, with a plugin that
was never registered on it and without the plugin "d". -/
theorem RegisterPlugin_overwrites_sibling :
    (Plugins (threePlugins.2.view threePlugins.1)).map Plugin.Name = ["a", "b", "c"] ∧
    threePlugins.2.slice = { array := 2, len := 3, cap := 4 } ∧
    (Plugins (fourthPlugin.2.view fourthPlugin.1)).map Plugin.Name = ["a", "b", "c", "d"] ∧
    (Plugins (siblingPlugin.2.view siblingPlugin.1)).map Plugin.Name = ["a", "b", "c", "e"] ∧
    (Plugins (fourthPlugin.2.view siblingPlugin.1)).map Plugin.Name = ["a", "b", "c", "e"] := by
  decide

/-! ## Fixture tables -/

/-- C15, on the code: a context holds a fixture table whose only entry is
"a"; after `RegisterFixture(ctx, "db", f)` the accessor `Fixtures` on that
same context also yields the entry "db", because the assignment wrote into
the map that the context holds. -/
theorem RegisterFixture_writes_parent_table :
    Fixtures (oneTableContext.view oneTableMemory) "db" = none ∧
    Fixtures (oneTableContext.view
      (RegisterFixture oneTableMemory oneTableContext "db" { id := "fdb" }).1) "db" =
        some { id := "fdb" } ∧
    Fixtures ((RegisterFixture oneTableMemory oneTableContext "db" { id := "fdb" }).2.view
      (RegisterFixture oneTableMemory oneTableContext "db" { id := "fdb" }).1) "db" =
        some { id := "fdb" } := by
  decide

/-- C13, as stated, fails: the fixture table has an entry keyed
"Books_API", made by `RegisterFixture` or by `WithFixtures`, and the
Require list is ["Books_API"]; `Run` looks up "books_api", finds nothing,
returns the error of a missing fixture and starts no fixture. -/
theorem Run_exact_key_counterexample :
    mixedCaseScenario.Require = ["Books_API"] ∧
    Fixtures (registeredBooks.2.view registeredBooks.1) "Books_API" = some { id := "fx" } ∧
    (Scenario.Run sampleEnv mixedCaseScenario
      (registeredBooks.2.view registeredBooks.1)).ret =
        some (.single (RequiredFixtureMissing "Books_API")) ∧
    (Scenario.Run sampleEnv mixedCaseScenario
      (registeredBooks.2.view registeredBooks.1)).events.length = 0 ∧
    Fixtures (WithFixtures (GoMap.set GoMap.empty "Books_API" { id := "fx" }) Context.todo)
      "Books_API" = some { id := "fx" } ∧
    (Scenario.Run sampleEnv mixedCaseScenario
      (WithFixtures (GoMap.set GoMap.empty "Books_API" { id := "fx" }) Context.todo)).ret =
        some (.single (RequiredFixtureMissing "Books_API")) ∧
    (Scenario.Run sampleEnv mixedCaseScenario
      (WithFixtures (GoMap.set GoMap.empty "Books_API" { id := "fx" })
        Context.todo)).events.length = 0 := by
  decide

/-- C13, amended: for every fixture name `n` and every context whose
fixture table has an entry keyed by the lower-cased form of `n`, a scenario
whose Require list is `[n]` does not fail with the error of a missing
fixture: `Scenario.Run` finds that entry, starts its fixture first and
stops it last. -/
theorem Run_finds_lowercase_entry (env : Env) (s : Scenario) (ctx : Context)
    (n : String) (f : Fixture)
    (hreq : s.Require = [n])
    (hentry : Fixtures ctx (env.ToLower n) = some f) :
    (∀ e : GoError, (Scenario.Run env s ctx).ret ≠ some (.single e)) ∧
    (Scenario.Run env s ctx).events.head? = some (Event.fixtureStart f) ∧
    (Scenario.Run env s ctx).events.getLast? = some (Event.fixtureStop f) := by
  have hf : s.Require.map (fun m => Fixtures ctx (env.ToLower m)) = [f].map some := by
    rw [hreq]
    simp [hentry]
  rw [Run_of_found env s ctx [f] hf]
  refine ⟨?_, ?_, ?_⟩
  · intro e
    simp only
    split <;> simp
  · simp
  · have hev : ∀ (a b c : List Event) (x : Fixture),
        (a ++ [Event.subtest s.Title] ++ b ++ c ++ List.map Event.fixtureStop [x]).getLast? =
          some (Event.fixtureStop x) := by
      intro a b c x
      rw [List.map_singleton, List.getLast?_concat]
    exact hev _ _ _ f

/-- The name "Books_API" is found under the key "books_api". -/
theorem Run_finds_lowercase_entry_witness :
    mixedCaseScenario.Require = ["Books_API"] ∧
    Fixtures (fixtureContext "books_api" { id := "fx" }) (sampleEnv.ToLower "Books_API") =
      some { id := "fx" } ∧
    ((∀ e : GoError, (Scenario.Run sampleEnv mixedCaseScenario
        (fixtureContext "books_api" { id := "fx" })).ret ≠ some (.single e)) ∧
      (Scenario.Run sampleEnv mixedCaseScenario
        (fixtureContext "books_api" { id := "fx" })).events.head? =
          some (Event.fixtureStart { id := "fx" }) ∧
      (Scenario.Run sampleEnv mixedCaseScenario
        (fixtureContext "books_api" { id := "fx" })).events.getLast? =
          some (Event.fixtureStop { id := "fx" })) :=
  ⟨rfl, by decide,
    Run_finds_lowercase_entry sampleEnv mixedCaseScenario
      (fixtureContext "books_api" { id := "fx" }) "Books_API" { id := "fx" } rfl (by decide)⟩

/-! ## The spec resolver -/

theorem UnknownSpecAt_Is (path : String) (node : YamlNode) :
    (UnknownSpecAt path node).Is ErrUnknownSpec = true ∧
      (UnknownSpecAt path node).Is ErrParse = true := by
  simp [UnknownSpecAt, ErrUnknownSpec, ErrParse, GoError.Is]

/-- When every shape rejects a node with an "unknown field" error, no shape
claims it. -/
theorem claimNode_of_rejected (node : YamlNode) (shapes : List Shape)
    (h : ∀ sh ∈ shapes, ∃ e : GoError,
      sh.UnmarshalYAML node = Except.error e ∧ e.Is ErrUnknownField = true) :
    claimNode shapes node = Except.ok none := by
  induction shapes with
  | nil => rfl
  | cons sh rest ih =>
      obtain ⟨e, he, hu⟩ := h sh (List.mem_cons_self _ _)
      simp only [claimNode, he, hu, if_true]
      exact ih (fun s hs => h s (List.mem_cons_of_mem _ hs))

theorem resolveTests_cons (r : Resolver) (shapes : List Shape) (path : String) (idx : Nat)
    (n : YamlNode) (rest : List YamlNode) :
    resolveTests r shapes path idx (n :: rest) =
      match resolveNode r shapes path idx n with
      | .error err => .error err
      | .ok unit =>
          match resolveTests r shapes path (idx + 1) rest with
          | .error err => .error err
          | .ok units => .ok (unit :: units) := rfl

/-- The first node that fails ends the resolution of the tests sequence
with its error. -/
theorem resolveTests_first_failure (r : Resolver) (shapes : List Shape) (path : String)
    (node : YamlNode) (post : List YamlNode) (pre : List YamlNode) :
    ∀ (idx : Nat) (e : GoError),
      errorOf (resolveTests r shapes path idx pre) = none →
      resolveNode r shapes path (idx + pre.length) node = Except.error e →
        resolveTests r shapes path idx (pre ++ node :: post) = Except.error e := by
  induction pre with
  | nil =>
      intro idx e _ hnode
      simp only [List.length_nil, Nat.add_zero] at hnode
      simp only [List.nil_append, resolveTests, hnode]
  | cons n rest ih =>
      intro idx e hpre hnode
      rw [List.cons_append, resolveTests_cons]
      rw [resolveTests_cons] at hpre
      cases hn : resolveNode r shapes path idx n with
      | error err => simp [hn, errorOf] at hpre
      | ok unit =>
          simp only [hn] at hpre ⊢
          have hrest : errorOf (resolveTests r shapes path (idx + 1) rest) = none := by
            cases hr : resolveTests r shapes path (idx + 1) rest with
            | error err => simp [hr, errorOf] at hpre
            | ok units => rfl
          have hidx : idx + 1 + rest.length = idx + (n :: rest).length := by
            simp only [List.length_cons]
            omega
          rw [ih (idx + 1) e hrest (by rw [hidx]; exact hnode)]

/-- The units of a resolved tests sequence are as many as its nodes, and
the unit at position `i` has the index `idx + i`. -/
theorem resolveTests_index (r : Resolver) (shapes : List Shape) (path : String)
    (nodes : List YamlNode) :
    ∀ (idx : Nat) (units : List TestUnit),
      resolveTests r shapes path idx nodes = Except.ok units →
        units.length = nodes.length ∧
          ∀ (i : Nat) (u : TestUnit), units[i]? = some u → u.Base.Index = idx + i := by
  induction nodes with
  | nil =>
      intro idx units h
      simp only [resolveTests, Except.ok.injEq] at h
      subst h
      simp
  | cons n rest ih =>
      intro idx units h
      simp only [resolveTests] at h
      cases hn : resolveNode r shapes path idx n with
      | error err => simp [hn] at h
      | ok unit =>
          cases hr : resolveTests r shapes path (idx + 1) rest with
          | error err => simp [hn, hr] at h
          | ok us =>
              simp only [hn, hr, Except.ok.injEq] at h
              subst h
              obtain ⟨hlen, hidx⟩ := ih (idx + 1) us hr
              refine ⟨by simp [hlen], ?_⟩
              intro i u hu
              cases i with
              | zero =>
                  simp only [List.getElem?_cons_zero, Option.some.injEq] at hu
                  subst hu
                  unfold resolveNode at hn
                  cases hc : claimNode shapes n with
                  | error err => simp [hc] at hn
                  | ok claimed =>
                      cases claimed with
                      | none => simp [hc] at hn
                      | some cu =>
                          cases hb : r.decodeBase n with
                          | error err => simp [hc, hb] at hn
                          | ok base =>
                              simp only [hc, hb, Except.ok.injEq] at hn
                              rw [← hn]
                              rfl
              | succ j =>
                  simp only [List.getElem?_cons_succ] at hu
                  rw [hidx j u hu]
                  omega

/-- C11, as stated, fails. The document `foo.yaml` has nodes with the
field `foo`, which the only shape of the only registered plugin,
`failSpec`, does not recognize, and construction fails with the error of
that plugin, which is not an "unknown spec" error (the test
`TestFailingPlugin`). And a node with the fields `bar` and `foo`, with
`barSpec` as the only shape, fails with the "expected int" error of the
value of `bar`. -/
theorem FromReader_unrecognized_field_counterexample :
    (registeredPlugins (some (WithPlugins [failingPlugin] Context.todo)) = [failingPlugin] ∧
      fooYaml.tests.map nodeFields = [["name", "foo"], ["description", "foo"]] ∧
      (∀ sh ∈ testResolver.shapes [failingPlugin], sh.recognizes "foo" = false) ∧
      errorOf (FromReader testResolver fooYaml "testdata/foo.yaml"
        (some (WithPlugins [failingPlugin] Context.todo))) =
          some (.wrap (.new "Indy, bad dates!") "testdata/foo.yaml") ∧
      (GoError.wrap (.new "Indy, bad dates!") "testdata/foo.yaml").Is ErrUnknownSpec = false) ∧
    (registeredPlugins (some (WithPlugins [barPlugin] Context.todo)) = [barPlugin] ∧
      badBarYaml.tests.map nodeFields = [["bar", "foo"]] ∧
      (∀ sh ∈ testResolver.shapes [barPlugin], sh.recognizes "foo" = false) ∧
      errorOf (FromReader testResolver badBarYaml "testdata/bad-bar.yaml"
        (some (WithPlugins [barPlugin] Context.todo))) =
          some (ExpectedIntAt (.scalar "abc")) ∧
      (ExpectedIntAt (.scalar "abc")).Is ErrUnknownSpec = false) := by
  decide

/-- C11, amended: for every scenario document whose defaults decode, whose
tests sequence contains a node that every shape of every registered plugin
rejects with an "unknown field" error (also when no plugin is registered),
and whose nodes before that node all resolve, scenario construction
returns no Scenario and an error classified as "unknown spec", which is a
parse error: the node is not skipped. -/
theorem FromReader_unknown_spec (r : Resolver) (doc : Document) (path : String)
    (ctx : Option Context) (pre : List YamlNode) (node : YamlNode) (post : List YamlNode)
    (hdefaults : errorOf (decodeDocumentDefaults r path (registeredPlugins ctx)
      doc.defaults) = none)
    (htests : doc.tests = pre ++ node :: post)
    (hpre : errorOf (resolveTests r (r.shapes (registeredPlugins ctx)) path 0 pre) = none)
    (hreject : ∀ sh ∈ r.shapes (registeredPlugins ctx), ∃ e : GoError,
      sh.UnmarshalYAML node = Except.error e ∧ e.Is ErrUnknownField = true) :
    ∃ e : GoError, FromReader r doc path ctx = Except.error e ∧
      e.Is ErrUnknownSpec = true ∧ e.Is ErrParse = true := by
  have hnode : resolveNode r (r.shapes (registeredPlugins ctx)) path (0 + pre.length) node =
      Except.error (UnknownSpecAt path node) := by
    unfold resolveNode
    rw [claimNode_of_rejected node _ hreject]
  have hall := resolveTests_first_failure r _ path node post pre 0 _ hpre hnode
  refine ⟨UnknownSpecAt path node, ?_, UnknownSpecAt_Is path node⟩
  unfold FromReader
  cases hd : decodeDocumentDefaults r path (registeredPlugins ctx) doc.defaults with
  | error err => simp [hd, errorOf] at hdefaults
  | ok defaults => simp only [hd, htests, hall]

/-- The document `foo.yaml` with no plugin registered (the test
`TestNoPlugins`) and with the plugin `bar` alone (the test
`TestUnknownSpec`), whose shape rejects the field `foo` of the first
node. -/
theorem FromReader_unknown_spec_witness :
    (errorOf (decodeDocumentDefaults testResolver "testdata/foo.yaml" (registeredPlugins none)
        fooYaml.defaults) = none ∧
      ∃ e : GoError, FromReader testResolver fooYaml "testdata/foo.yaml" none = Except.error e ∧
        e.Is ErrUnknownSpec = true ∧ e.Is ErrParse = true) ∧
    (errorOf (decodeDocumentDefaults testResolver "testdata/foo.yaml"
        (registeredPlugins (some (WithPlugins [barPlugin] Context.todo)))
        fooYaml.defaults) = none ∧
      barShape.UnmarshalYAML
          (.mapping [.scalar "name", .scalar "bar", .scalar "foo", .scalar "bar"]) =
        Except.error (UnknownFieldAt "foo" (.scalar "foo")) ∧
      ∃ e : GoError, FromReader testResolver fooYaml "testdata/foo.yaml"
          (some (WithPlugins [barPlugin] Context.todo)) = Except.error e ∧
        e.Is ErrUnknownSpec = true ∧ e.Is ErrParse = true) :=
  ⟨⟨rfl, FromReader_unknown_spec testResolver fooYaml "testdata/foo.yaml" none []
      (.mapping [.scalar "name", .scalar "bar", .scalar "foo", .scalar "bar"])
      [.mapping [.scalar "description", .scalar "Bazzy Bizzy", .scalar "foo", .scalar "baz"]]
      rfl rfl rfl (by intro sh hsh; simp [registeredPlugins, Resolver.shapes] at hsh)⟩,
    ⟨rfl, rfl,
      FromReader_unknown_spec testResolver fooYaml "testdata/foo.yaml"
        (some (WithPlugins [barPlugin] Context.todo)) []
        (.mapping [.scalar "name", .scalar "bar", .scalar "foo", .scalar "bar"])
        [.mapping [.scalar "description", .scalar "Bazzy Bizzy", .scalar "foo", .scalar "baz"]]
        rfl rfl rfl
        (by
          intro sh hsh
          have hs : sh = barShape := by
            simpa [registeredPlugins, Plugins, WithPlugins, Context.Value, Resolver.shapes,
              testResolver, testMethods, barPlugin] using hsh
          subst hs
          exact ⟨UnknownFieldAt "foo" (.scalar "foo"), rfl, by decide⟩)⟩⟩

/-- C12: for every Scenario that construction returns and every position
`i` of its Tests list, the unit at position `i` has `Base().Index` equal to
`i`, whichever shape claimed the node; and the Tests list has one unit for
each node of the tests sequence of the document. -/
theorem FromReader_Index (r : Resolver) (doc : Document) (path : String)
    (ctx : Option Context) (s : Scenario)
    (h : FromReader r doc path ctx = Except.ok s) :
    s.Tests.length = doc.tests.length ∧
      ∀ (i : Nat) (u : TestUnit), s.Tests[i]? = some u → u.Base.Index = i := by
  unfold FromReader at h
  cases hd : decodeDocumentDefaults r path (registeredPlugins ctx) doc.defaults with
  | error err => simp [hd] at h
  | ok defaults =>
      cases ht : resolveTests r (r.shapes (registeredPlugins ctx)) path 0 doc.tests with
      | error err => simp [hd, ht] at h
      | ok tests =>
          simp only [hd, ht, Except.ok.injEq] at h
          subst h
          obtain ⟨hlen, hidx⟩ := resolveTests_index r _ path doc.tests 0 tests ht
          refine ⟨hlen, ?_⟩
          intro i u hu
          rw [hidx i u hu]
          omega

/-- The document `foo-bar.yaml` with the plugins `foo` and `bar` (the test
`TestMultipleSpec`): a unit of each shape, with the indexes 0 and 1. -/
theorem FromReader_Index_witness :
    FromReader testResolver fooBarYaml "testdata/foo-bar.yaml"
      (some (WithPlugins [fooPlugin, barPlugin] Context.todo)) = Except.ok fooBarScenario ∧
    (fooBarScenario.Tests.length = fooBarYaml.tests.length ∧
      ∀ (i : Nat) (u : TestUnit), fooBarScenario.Tests[i]? = some u → u.Base.Index = i) :=
  ⟨rfl, FromReader_Index testResolver fooBarYaml "testdata/foo-bar.yaml"
    (some (WithPlugins [fooPlugin, barPlugin] Context.todo)) fooBarScenario rfl⟩

/-! ## Modifiers of a Result, one field each -/

theorem foldl_modifiers_data (calls : List ModifierCall) :
    ∀ (mods : List ResultModifier), evalModifiers calls = .ok mods → ∀ (r : Result) (k : String),
      (mods.foldl (fun r mod => mod r) r).Data k =
        (match lastData k calls with
         | some v => some v
         | none => r.Data k) ∧
      (mods.foldl (fun r mod => mod r) r).HasData = (r.HasData || calls.any ModifierCall.isWithData) := by
  induction calls with
  | nil =>
      intro mods h r k
      simp only [evalModifiers, Except.ok.injEq] at h
      subst h
      simp [lastData]
  | cons c rest ih =>
      intro mods h r k
      simp only [evalModifiers] at h
      cases hc : c.eval with
      | error msg => simp [hc] at h
      | ok mod =>
          cases hrest : evalModifiers rest with
          | error msg => simp [hc, hrest] at h
          | ok ms =>
              simp only [hc, hrest, Except.ok.injEq] at h
              subst h
              have hi := ih ms hrest (mod r) k
              simp only [List.foldl_cons]
              refine ⟨hi.1.trans ?_, hi.2.trans ?_⟩
              · cases c with
                | withRuntimeError err =>
                    simp only [ModifierCall.eval, WithRuntimeError] at hc
                    split at hc
                    · simp at hc
                    · simp only [Except.ok.injEq] at hc
                      subst hc
                      simp [lastData, Result.Data]
                | withData key val =>
                    simp only [ModifierCall.eval, Except.ok.injEq] at hc
                    subst hc
                    simp only [lastData]
                    cases lastData k rest with
                    | some v => rfl
                    | none =>
                        simp only [WithData, Result.SetData, Result.Data, GoMap.set]
                        by_cases hk : key = k
                        · subst hk; simp
                        · have hk2 : ¬ k = key := fun e => hk e.symm
                          simp [hk, hk2]
                | withVar key val =>
                    simp only [ModifierCall.eval, Except.ok.injEq] at hc
                    subst hc
                    simp [lastData, WithVar, Result.SetVars, Result.Data]
                | withFailures fs =>
                    simp only [ModifierCall.eval, Except.ok.injEq] at hc
                    subst hc
                    simp [lastData, WithFailures, Result.SetFailures, Result.Data]
              · cases c with
                | withRuntimeError err =>
                    simp only [ModifierCall.eval, WithRuntimeError] at hc
                    split at hc
                    · simp at hc
                    · simp only [Except.ok.injEq] at hc
                      subst hc
                      simp [ModifierCall.isWithData, Result.HasData]
                | withData key val =>
                    simp only [ModifierCall.eval, Except.ok.injEq] at hc
                    subst hc
                    simp [ModifierCall.isWithData, Result.HasData, WithData, Result.SetData]
                | withVar key val =>
                    simp only [ModifierCall.eval, Except.ok.injEq] at hc
                    subst hc
                    simp [ModifierCall.isWithData, Result.HasData, WithVar, Result.SetVars]
                | withFailures fs =>
                    simp only [ModifierCall.eval, Except.ok.injEq] at hc
                    subst hc
                    simp [ModifierCall.isWithData, Result.HasData, WithFailures, Result.SetFailures]

theorem foldl_modifiers_vars (calls : List ModifierCall) :
    ∀ (mods : List ResultModifier), evalModifiers calls = .ok mods → ∀ (r : Result) (k : String),
      (mods.foldl (fun r mod => mod r) r).Vars k =
        (match lastVar k calls with
         | some v => some v
         | none => r.Vars k) ∧
      (mods.foldl (fun r mod => mod r) r).HasVars = (r.HasVars || calls.any ModifierCall.isWithVar) := by
  induction calls with
  | nil =>
      intro mods h r k
      simp only [evalModifiers, Except.ok.injEq] at h
      subst h
      simp [lastVar]
  | cons c rest ih =>
      intro mods h r k
      simp only [evalModifiers] at h
      cases hc : c.eval with
      | error msg => simp [hc] at h
      | ok mod =>
          cases hrest : evalModifiers rest with
          | error msg => simp [hc, hrest] at h
          | ok ms =>
              simp only [hc, hrest, Except.ok.injEq] at h
              subst h
              have hi := ih ms hrest (mod r) k
              simp only [List.foldl_cons]
              refine ⟨hi.1.trans ?_, hi.2.trans ?_⟩
              · cases c with
                | withRuntimeError err =>
                    simp only [ModifierCall.eval, WithRuntimeError] at hc
                    split at hc
                    · simp at hc
                    · simp only [Except.ok.injEq] at hc
                      subst hc
                      simp [lastVar, Result.Vars]
                | withVar key val =>
                    simp only [ModifierCall.eval, Except.ok.injEq] at hc
                    subst hc
                    simp only [lastVar]
                    cases lastVar k rest with
                    | some v => rfl
                    | none =>
                        simp only [WithVar, Result.SetVars, Result.Vars, GoMap.set]
                        by_cases hk : key = k
                        · subst hk; simp
                        · have hk2 : ¬ k = key := fun e => hk e.symm
                          simp [hk, hk2]
                | withData key val =>
                    simp only [ModifierCall.eval, Except.ok.injEq] at hc
                    subst hc
                    simp [lastVar, WithData, Result.SetData, Result.Vars]
                | withFailures fs =>
                    simp only [ModifierCall.eval, Except.ok.injEq] at hc
                    subst hc
                    simp [lastVar, WithFailures, Result.SetFailures, Result.Vars]
              · cases c with
                | withRuntimeError err =>
                    simp only [ModifierCall.eval, WithRuntimeError] at hc
                    split at hc
                    · simp at hc
                    · simp only [Except.ok.injEq] at hc
                      subst hc
                      simp [ModifierCall.isWithVar, Result.HasVars]
                | withVar key val =>
                    simp only [ModifierCall.eval, Except.ok.injEq] at hc
                    subst hc
                    simp [ModifierCall.isWithVar, Result.HasVars, WithVar, Result.SetVars]
                | withData key val =>
                    simp only [ModifierCall.eval, Except.ok.injEq] at hc
                    subst hc
                    simp [ModifierCall.isWithVar, Result.HasVars, WithData, Result.SetData]
                | withFailures fs =>
                    simp only [ModifierCall.eval, Except.ok.injEq] at hc
                    subst hc
                    simp [ModifierCall.isWithVar, Result.HasVars, WithFailures, Result.SetFailures]

theorem foldl_WithFailures_err (fss : List (List GoError)) :
    ∀ r : Result, ((fss.map WithFailures).foldl (fun r mod => mod r) r).err = r.err := by
  induction fss with
  | nil => intro r; rfl
  | cons fs rest ih =>
      intro r
      simp only [List.map_cons, List.foldl_cons]
      rw [ih]
      rfl

/-- C27: for every list of calls of the four modifier builders that raises
no panic, `New` applies the modifiers in order: `Data()` of the result maps
each key to the value of the last `WithData` call with that key and has no
other key, and `HasData()` is true exactly when the list has a `WithData`
call; likewise `Vars()` and `HasVars()` with the `WithVar` calls. -/
theorem New_data_and_vars (calls : List ModifierCall) (mods : List ResultModifier)
    (hbuilt : evalModifiers calls = .ok mods) :
    (∀ k, (Result.New mods).Data k = lastData k calls) ∧
    ((Result.New mods).HasData = calls.any ModifierCall.isWithData) ∧
    (∀ k, (Result.New mods).Vars k = lastVar k calls) ∧
    ((Result.New mods).HasVars = calls.any ModifierCall.isWithVar) := by
  refine ⟨fun k => ?_, ?_, fun k => ?_, ?_⟩
  · have h := (foldl_modifiers_data calls mods hbuilt
      { err := none, failures := [], data := none, vars := none } k).1
    rw [Result.New, h]
    cases lastData k calls <;> rfl
  · have h := (foldl_modifiers_data calls mods hbuilt
      { err := none, failures := [], data := none, vars := none } "").2
    rw [Result.New, h]
    simp [Result.HasData]
  · have h := (foldl_modifiers_vars calls mods hbuilt
      { err := none, failures := [], data := none, vars := none } k).1
    rw [Result.New, h]
    cases lastVar k calls <;> rfl
  · have h := (foldl_modifiers_vars calls mods hbuilt
      { err := none, failures := [], data := none, vars := none } "").2
    rw [Result.New, h]
    simp [Result.HasVars]

/-- C27 at `New(WithData("a", 1), WithVar("x", true), WithData("a", 2))`:
the data map has "a" at 2 and no key "x", the vars map has "x", and both
`HasData()` and `HasVars()` are true. -/
theorem New_data_and_vars_witness :
    evalModifiers [.withData "a" (.int 1), .withVar "x" (.bool true), .withData "a" (.int 2)] =
      .ok [WithData "a" (.int 1), WithVar "x" (.bool true), WithData "a" (.int 2)] ∧
    (Result.New [WithData "a" (.int 1), WithVar "x" (.bool true), WithData "a" (.int 2)]).Data "a" =
      some (.int 2) ∧
    (Result.New [WithData "a" (.int 1), WithVar "x" (.bool true), WithData "a" (.int 2)]).Data "x" =
      none ∧
    (Result.New [WithData "a" (.int 1), WithVar "x" (.bool true), WithData "a" (.int 2)]).HasData =
      true ∧
    (Result.New [WithData "a" (.int 1), WithVar "x" (.bool true), WithData "a" (.int 2)]).Vars "x" =
      some (.bool true) ∧
    (Result.New [WithData "a" (.int 1), WithVar "x" (.bool true), WithData "a" (.int 2)]).HasVars =
      true :=
  have h := New_data_and_vars
    [.withData "a" (.int 1), .withVar "x" (.bool true), .withData "a" (.int 2)]
    [WithData "a" (.int 1), WithVar "x" (.bool true), WithData "a" (.int 2)] rfl
  ⟨rfl, (h.1 "a").trans (by decide), (h.1 "x").trans (by decide), h.2.1.trans (by decide),
    (h.2.2.1 "x").trans (by decide), h.2.2.2.trans (by decide)⟩

/-- C29: each modifier changes only its own field. `SetData` and `WithData`
leave the runtime error, the vars and the failures as they were; `SetVars`
and `WithVar` leave the runtime error, the data and the failures;
`SetFailures` and `WithFailures` put the given list in the place of the
failures, whatever they were, and leave the runtime error, the data and the
vars, so that a Result built by `New` from `WithFailures` modifiers alone
has no runtime error; the modifier of `WithRuntimeError` leaves the data,
the vars and the failures. -/
theorem Result_modifiers_frame (r : Result) :
    (∀ k v, (r.SetData k v).err = r.err ∧ (r.SetData k v).vars = r.vars ∧
      (r.SetData k v).failures = r.failures ∧ WithData k v r = r.SetData k v) ∧
    (∀ k v, (r.SetVars k v).err = r.err ∧ (r.SetVars k v).data = r.data ∧
      (r.SetVars k v).failures = r.failures ∧ WithVar k v r = r.SetVars k v) ∧
    (∀ fs, (r.SetFailures fs).Failures = fs ∧ (r.SetFailures fs).err = r.err ∧
      (r.SetFailures fs).data = r.data ∧ (r.SetFailures fs).vars = r.vars ∧
      WithFailures fs r = r.SetFailures fs) ∧
    (∀ fss : List (List GoError),
      (Result.New (fss.map WithFailures)).HasRuntimeError = false ∧
      (Result.New (fss.map WithFailures)).RuntimeError = none) ∧
    (∀ err mod, WithRuntimeError err = .ok mod →
      (mod r).RuntimeError = err ∧ (mod r).data = r.data ∧ (mod r).vars = r.vars ∧
      (mod r).failures = r.failures) := by
  refine ⟨fun k v => ⟨rfl, rfl, rfl, rfl⟩, fun k v => ⟨rfl, rfl, rfl, rfl⟩,
    fun fs => ⟨rfl, rfl, rfl, rfl, rfl⟩, fun fss => ?_, fun err mod h => ?_⟩
  · have h := foldl_WithFailures_err fss { err := none, failures := [], data := none, vars := none }
    simp only [Result.New, Result.HasRuntimeError, Result.RuntimeError, h]
    exact ⟨rfl, trivial⟩
  · simp only [WithRuntimeError] at h
    split at h
    · simp at h
    · simp only [Except.ok.injEq] at h
      subst h
      exact ⟨rfl, rfl, rfl, rfl⟩

/-! ## Removing from the registry -/

/-- C25: for every registry reached from `NewRegistry` by `Add` and `Remove`
calls and every plugin `p`, after `Remove(p)` the result of `List()` holds
no plugin whose name lower-cases to the same string as the name of `p`,
still holds every plugin listed before whose lower-cased name differs, and
holds nothing that was not listed before; when no listed plugin has the
lower-cased name of `p`, `List()` is unchanged. -/
theorem Registry_Remove_List (toLower : String → String) (calls : List RegistryCall)
    (p : Plugin) :
    (∀ q ∈ ((applyRegistryCalls toLower NewRegistry calls).Remove toLower p).List,
      toLower q.Name ≠ toLower p.Name) ∧
    (∀ q ∈ (applyRegistryCalls toLower NewRegistry calls).List,
      toLower q.Name ≠ toLower p.Name →
        q ∈ ((applyRegistryCalls toLower NewRegistry calls).Remove toLower p).List) ∧
    (∀ q ∈ ((applyRegistryCalls toLower NewRegistry calls).Remove toLower p).List,
      q ∈ (applyRegistryCalls toLower NewRegistry calls).List) ∧
    ((∀ q ∈ (applyRegistryCalls toLower NewRegistry calls).List,
        toLower q.Name ≠ toLower p.Name) →
      ((applyRegistryCalls toLower NewRegistry calls).Remove toLower p).List =
        (applyRegistryCalls toLower NewRegistry calls).List) := by
  have hwk := wellKeyed_applyRegistryCalls toLower calls NewRegistry
    (wellKeyed_NewRegistry toLower)
  refine ⟨?_, ?_, ?_, ?_⟩
  · intro q hq
    simp only [PluginRegistry.List, PluginRegistry.Remove, entriesDelete, List.mem_map,
      List.mem_filter, decide_eq_true_eq] at hq
    obtain ⟨e, ⟨he, hne⟩, heq⟩ := hq
    rw [← heq, ← hwk.2 e he]
    exact hne
  · intro q hq hname
    simp only [PluginRegistry.List, PluginRegistry.Remove, entriesDelete, List.mem_map,
      List.mem_filter, decide_eq_true_eq] at hq ⊢
    obtain ⟨e, he, heq⟩ := hq
    refine ⟨e, ⟨he, ?_⟩, heq⟩
    rw [hwk.2 e he, heq]
    exact hname
  · intro q hq
    simp only [PluginRegistry.List, PluginRegistry.Remove, entriesDelete, List.mem_map,
      List.mem_filter, decide_eq_true_eq] at hq ⊢
    obtain ⟨e, ⟨he, _⟩, heq⟩ := hq
    exact ⟨e, he, heq⟩
  · intro hnone
    simp only [PluginRegistry.List, PluginRegistry.Remove, entriesDelete]
    congr 1
    apply List.filter_eq_self.mpr
    intro e he
    simp only [decide_eq_true_eq]
    rw [hwk.2 e he]
    exact hnone e.2 (by
      simp only [PluginRegistry.List, List.mem_map]
      exact ⟨e, he, rfl⟩)

/-! ## Registering a fixture -/

theorem Fixtures_view (mem : TableMemory) (ctx : SharedContext) :
    Fixtures (ctx.view mem) =
      match ctx.table with
      | some addr => mem.read addr
      | none => GoMap.empty := by
  induction ctx with
  | todo => rfl
  | withDebug parent w ih =>
      have h : Fixtures ((SharedContext.withDebug parent w).view mem) = Fixtures (parent.view mem) := by
        simp [Fixtures, SharedContext.view, Context.Value, debugKey, fixturesKey]
      rw [h, ih]
      rfl
  | withPlugins parent ps ih =>
      have h : Fixtures ((SharedContext.withPlugins parent ps).view mem) =
          Fixtures (parent.view mem) := by
        simp [Fixtures, SharedContext.view, Context.Value, pluginsKey, fixturesKey]
      rw [h, ih]
      rfl
  | withTable parent addr ih =>
      simp [Fixtures, SharedContext.view, Context.Value, SharedContext.table]
  | withPriorRun parent m ih =>
      have h : Fixtures ((SharedContext.withPriorRun parent m).view mem) =
          Fixtures (parent.view mem) := by
        simp [Fixtures, SharedContext.view, Context.Value, priorRunKey, fixturesKey]
      rw [h, ih]
      rfl
  | withTimeout parent timeout ih =>
      have h : Fixtures ((SharedContext.withTimeout parent timeout).view mem) =
          Fixtures (parent.view mem) := by
        simp [Fixtures, SharedContext.view, Context.Value]
      rw [h, ih]
      rfl

/-- C26: for every context, with or without a fixture table, every name
`n` and every fixture `f`, `RegisterFixture(ctx, n, f)` returns a context
whose fixture table has `f` at `n` and, at every other name, what the
fixture table of `ctx` had before the call. -/
theorem RegisterFixture_maps_name (mem : TableMemory) (ctx : SharedContext) (n : String)
    (f : Fixture) :
    Fixtures ((RegisterFixture mem ctx n f).2.view (RegisterFixture mem ctx n f).1) n = some f ∧
    (∀ m, m ≠ n →
      Fixtures ((RegisterFixture mem ctx n f).2.view (RegisterFixture mem ctx n f).1) m =
        Fixtures (ctx.view mem) m) ∧
    (ctx.table = none → ∀ m, m ≠ n →
      Fixtures ((RegisterFixture mem ctx n f).2.view (RegisterFixture mem ctx n f).1) m = none) := by
  rw [Fixtures_view, Fixtures_view]
  cases h : ctx.table with
  | none =>
      simp only [RegisterFixture, h, SharedContext.table, TableMemory.make, TableMemory.store,
        TableMemory.read, GoMap.set, GoMap.empty, if_true]
      refine ⟨trivial, fun m hm => ?_, fun _ m hm => ?_⟩ <;> simp [hm]
  | some addr =>
      simp only [RegisterFixture, h, SharedContext.table, TableMemory.store,
        TableMemory.read, GoMap.set, if_true]
      refine ⟨trivial, fun m hm => ?_, fun hn => ?_⟩
      · simp [hm]
      · cases hn

/-! ## The title of a scenario -/

theorem dropWhile_all_append {α : Type} (p : α → Bool) (l1 l2 : List α)
    (h : ∀ c ∈ l1, p c = true) : (l1 ++ l2).dropWhile p = l2.dropWhile p := by
  induction l1 with
  | nil => rfl
  | cons x rest ih =>
      have hx : p x = true := h x (List.mem_cons_self _ _)
      simp only [List.cons_append, List.dropWhile_cons, hx, if_true]
      exact ih (fun c hc => h c (List.mem_cons_of_mem _ hc))

theorem takeWhile_all_append {α : Type} (p : α → Bool) (l1 l2 : List α)
    (h : ∀ c ∈ l1, p c = true) (h2 : l2 = [] ∨ ∃ x r, l2 = x :: r ∧ p x = false) :
    (l1 ++ l2).takeWhile p = l1 := by
  induction l1 with
  | nil =>
      rcases h2 with h2 | ⟨x, r, h2, hx⟩
      · subst h2; rfl
      · subst h2
        simp [List.takeWhile_cons, hx]
  | cons x rest ih =>
      have hx : p x = true := h x (List.mem_cons_self _ _)
      simp only [List.cons_append, List.takeWhile_cons, hx, if_true]
      rw [ih (fun c hc => h c (List.mem_cons_of_mem _ hc))]

theorem pathBase_last_element (pre file trail : List Char) (hfile : file ≠ [])
    (hslash : ∀ c ∈ file, c ≠ '/') (htrail : ∀ c ∈ trail, c = '/')
    (hpre : pre = [] ∨ ∃ dir, pre = dir ++ ['/']) :
    pathBase (String.mk (pre ++ file ++ trail)) = String.mk file := by
  have hne : String.mk (pre ++ file ++ trail) ≠ "" := by
    intro h
    have hd := congrArg String.data h
    simp only [List.append_assoc] at hd
    have : (pre ++ (file ++ trail)) = [] := hd
    simp only [List.append_eq_nil] at this
    exact hfile this.2.1
  obtain ⟨x, r, hrev⟩ : ∃ x r, file.reverse = x :: r := by
    cases hr : file.reverse with
    | nil => exact absurd (List.reverse_eq_nil_iff.mp hr) hfile
    | cons x r => exact ⟨x, r, rfl⟩
  have hx : x ≠ '/' := hslash x (by
    have : x ∈ file.reverse := by rw [hrev]; exact List.mem_cons_self _ _
    exact List.mem_reverse.mp this)
  have hstrip : ((pre ++ file ++ trail).reverse.dropWhile (fun c => decide (c = '/'))) =
      file.reverse ++ pre.reverse := by
    rw [List.reverse_append, List.reverse_append, dropWhile_all_append]
    · rw [hrev]
      simp [List.dropWhile_cons, hx]
    · intro c hc
      simp only [decide_eq_true_eq]
      exact htrail c (List.mem_reverse.mp hc)
  have hlast : ((file.reverse ++ pre.reverse).takeWhile (fun c => decide (c ≠ '/'))) =
      file.reverse := by
    apply takeWhile_all_append
    · intro c hc
      simp only [decide_eq_true_eq]
      exact hslash c (List.mem_reverse.mp hc)
    · rcases hpre with hpre | ⟨dir, hpre⟩
      · left; rw [hpre]; rfl
      · right
        refine ⟨'/', dir.reverse, ?_, ?_⟩
        · rw [hpre]; simp
        · simp
  unfold pathBase
  rw [if_neg hne]
  simp only [hstrip, List.reverse_reverse, hlast]
  rw [if_neg hfile]

/-- C22: for every Scenario, `Title()` returns `Name` when `Name` is not
empty, and otherwise the base of `Path` as `path.Base` gives it. The base
is the last slash-separated element of the path once trailing slashes are
left aside: for a path that ends, up to trailing slashes, with an element
`file` that follows a slash or starts the path, it is `file`; for the empty
path `path.Base` gives ".". -/
theorem Title_name_or_base (s : Scenario) :
    (s.Name ≠ "" → s.Title = s.Name) ∧
    (s.Name = "" → s.Title = pathBase s.Path) ∧
    (s.Name = "" → ∀ pre file trail : List Char, file ≠ [] → (∀ c ∈ file, c ≠ '/') →
      (∀ c ∈ trail, c = '/') → (pre = [] ∨ ∃ dir, pre = dir ++ ['/']) →
      s.Path = String.mk (pre ++ file ++ trail) → s.Title = String.mk file) ∧
    (s.Name = "" → s.Path = "" → s.Title = ".") := by
  refine ⟨fun h => ?_, fun h => ?_, fun h pre file trail hfile hslash htrail hpre hpath => ?_,
    fun h hp => ?_⟩
  · simp [Scenario.Title, h]
  · simp [Scenario.Title, h]
  · have ht : s.Title = pathBase s.Path := by simp [Scenario.Title, h]
    rw [ht, hpath]
    exact pathBase_last_element pre file trail hfile hslash htrail hpre
  · simp [Scenario.Title, h, hp, pathBase]

/-! ## A scenario without tests -/

theorem subtests_append (a b : List Event) : subtests (a ++ b) = subtests a ++ subtests b := by
  induction a with
  | nil => rfl
  | cons e rest ih => cases e <;> simp [subtests, ih]

theorem subtests_fixtureStart (fixes : List Fixture) :
    subtests (fixes.map Event.fixtureStart) = [] := by
  induction fixes with
  | nil => rfl
  | cons f rest ih => simp [subtests, ih]

theorem subtests_fixtureStop (fixes : List Fixture) :
    subtests (fixes.map Event.fixtureStop) = [] := by
  induction fixes with
  | nil => rfl
  | cons f rest ih => simp [subtests, ih]

/-- C21, as stated, fails: the scenario of `testdata/no-tests.yaml` has no
test and requires two fixtures; run with a context that has no fixture it
returns the error of a missing fixture and opens no sub-test scope. -/
theorem Run_no_tests_counterexample :
    noTestsScenario.Tests = [] ∧
    (Scenario.Run sampleEnv noTestsScenario (Context.New [])).ret =
      some (.single (RequiredFixtureMissing "books_api")) ∧
    subtests (Scenario.Run sampleEnv noTestsScenario (Context.New [])).events = [] :=
  ⟨rfl, by decide, by decide⟩

/-- C21, amended: for every scenario whose Tests list is empty and whose
required fixtures are all found in the fixture table of the context,
`Scenario.Run` returns nil and opens exactly one sub-test scope, named
`Title()`, in which no unit runs: between the starts and the stops of the
fixtures the only event is the opening of that scope. -/
theorem Run_no_tests (env : Env) (s : Scenario) (ctx : Context)
    (hfound : ∀ n ∈ s.Require, (Fixtures ctx (env.ToLower n)).isSome = true)
    (hempty : s.Tests = []) :
    (Scenario.Run env s ctx).ret = none ∧
    subtests (Scenario.Run env s ctx).events = [s.Title] ∧
    invocations (Scenario.Run env s ctx).events = [] ∧
    ∃ fixes : List Fixture,
      s.Require.map (fun n => Fixtures ctx (env.ToLower n)) = fixes.map some ∧
      (Scenario.Run env s ctx).events =
        fixes.map Event.fixtureStart ++ [Event.subtest s.Title] ++
          fixes.reverse.map Event.fixtureStop := by
  obtain ⟨fixes, hfixes⟩ := exists_fixes_of_found env _ _ hfound
  have hrun := Run_of_found env s ctx fixes hfixes
  rw [hempty] at hrun
  have hev : (Scenario.Run env s ctx).events =
      fixes.map Event.fixtureStart ++ [Event.subtest s.Title] ++
        fixes.reverse.map Event.fixtureStop := by
    rw [hrun]
    simp [runSpecs, loopStart]
  refine ⟨?_, ?_, ?_, fixes, hfixes, hev⟩
  · rw [hrun]
    simp [runSpecs, loopStart, NewRuntimeErrors, RuntimeErrors.Empty]
  · rw [hev, subtests_append, subtests_append, subtests_fixtureStart, subtests_fixtureStop]
    rfl
  · rw [hev, invocations_append, invocations_append, invocations_fixtureStart,
      invocations_fixtureStop]
    rfl

/-- C21 at the scenario of `testdata/no-tests.yaml` with both of its
fixtures in the context. -/
theorem Run_no_tests_witness :
    (∀ n ∈ noTestsScenario.Require,
      (Fixtures booksContext (sampleEnv.ToLower n)).isSome = true) ∧
    noTestsScenario.Tests = [] ∧
    (Scenario.Run sampleEnv noTestsScenario booksContext).ret = none ∧
    subtests (Scenario.Run sampleEnv noTestsScenario booksContext).events = ["no-tests"] :=
  ⟨by decide, rfl,
    (Run_no_tests sampleEnv noTestsScenario booksContext (by decide) rfl).1,
    (Run_no_tests sampleEnv noTestsScenario booksContext (by decide) rfl).2.1⟩

/-! ## The deadline of a unit -/

/-- A unit built with a Timeout whose `After` is empty: `Timeout.Duration`
drops the error of `time.ParseDuration`, and the context handed to the unit
is derived with the zero duration. -/
theorem Run_empty_After_zero_duration :
    emptyAfterScenario.Tests.map (fun u => u.Base.Timeout) =
      [some { After := "", Expected := false }] ∧
    (Context.New []).timeouts = [] ∧
    (invocations (Scenario.Run sampleEnv emptyAfterScenario (Context.New [])).events).map
      (fun p => p.2.timeouts) = [[0]] := by
  decide

theorem Deadline_withTimeout (derivedAt : Nat → Int) (parent : Context) (d : Duration) :
    (parent.Deadline derivedAt = none →
      (Context.withTimeout parent d).Deadline derivedAt =
        some (derivedAt parent.timeouts.length + d)) ∧
    (∀ cur, parent.Deadline derivedAt = some cur →
      (Context.withTimeout parent d).Deadline derivedAt =
        some (min cur (derivedAt parent.timeouts.length + d))) := by
  refine ⟨fun h => ?_, fun cur h => ?_⟩
  · simp [Context.Deadline, h]
  · simp only [Context.Deadline, h]
    by_cases hlt : cur < derivedAt parent.timeouts.length + d
    · rw [if_pos hlt, min_eq_left (le_of_lt hlt)]
    · rw [if_neg hlt, min_eq_right (not_lt.mp hlt)]

/-- C23, as stated, fails: the scenario is run with a context whose
deadline, set by the caller, is 10ms after the instant 0; its first unit has
a timeout of 20ms, and the context of the unit is derived 5ms after the
instant 0. The deadline of the context handed to the unit is the one of the
caller, 10ms after the instant 0, and not 20ms after the derivation. -/
theorem Run_earlier_deadline_counterexample :
    shortDeadlineContext.Deadline sampleInstants = some 10000000 ∧
    ((invocations (Scenario.Run sampleEnv cascadeScenario shortDeadlineContext).events).map
        (fun p => (p.1.Base.Index, p.1.Base.Timeout, p.2.timeouts,
          p.2.Deadline sampleInstants))).head? =
      some (0, some { After := "20ms", Expected := false }, [20000000, 10000000],
        some 10000000) ∧
    sampleEnv.ParseDuration "20ms" = some 20000000 ∧
    sampleInstants 1 + 20000000 = 25000000 := by
  decide

/-- C23, amended: for every call of a unit, when the unit has a Timeout
whose `After` is a duration `d`, the context handed to the unit is derived
from the context of the loop by `context.WithTimeout` with `d`, and its
deadline is the earlier of `d` after the instant of the derivation and the
deadline that the context of the loop has, if it has one; when the unit has
no Timeout, the context handed to it is the context of the loop as it
stands, with the same deadline. -/
theorem Run_derives_deadline (env : Env) (s : Scenario) (ctx : Context) (i : Nat)
    (p : TestUnit × Context)
    (hcall : (invocations (Scenario.Run env s ctx).events)[i]? = some p) :
    (∀ t d, p.1.Base.Timeout = some t → env.ParseDuration t.After = some d →
      p.2 = Context.withTimeout (s.stateBefore env ctx i).ctx d ∧
      ∀ derivedAt : Nat → Int,
        ((s.stateBefore env ctx i).ctx.Deadline derivedAt = none →
          p.2.Deadline derivedAt =
            some (derivedAt (s.stateBefore env ctx i).ctx.timeouts.length + d)) ∧
        (∀ cur, (s.stateBefore env ctx i).ctx.Deadline derivedAt = some cur →
          p.2.Deadline derivedAt =
            some (min cur (derivedAt (s.stateBefore env ctx i).ctx.timeouts.length + d)))) ∧
    (p.1.Base.Timeout = none →
      p.2 = (s.stateBefore env ctx i).ctx ∧
      ∀ derivedAt : Nat → Int,
        p.2.Deadline derivedAt = (s.stateBefore env ctx i).ctx.Deadline derivedAt) := by
  have hloop : (invocations (runSpecs env (loopStart ctx) s.Tests).events)[i]? = some p := by
    rcases Run_invocations env s ctx with h | h
    · rw [h] at hcall; exact hcall
    · rw [h] at hcall; simp at hcall
  have hctx : p.2 = unitContext env (s.stateBefore env ctx i) p.1 :=
    (runSpecs_reach env s.Tests _ i p hloop).2.2
  refine ⟨fun t d ht hd => ?_, fun hnone => ?_⟩
  · have h1 : p.2 = Context.withTimeout (s.stateBefore env ctx i).ctx d := by
      rw [hctx]
      simp [unitContext, deriveTimeout, ht, Timeout.Duration, hd]
    refine ⟨h1, fun derivedAt => ?_⟩
    rw [h1]
    exact Deadline_withTimeout derivedAt _ d
  · have h1 : p.2 = (s.stateBefore env ctx i).ctx := by
      rw [hctx]
      simp [unitContext, deriveTimeout, hnone]
    exact ⟨h1, fun derivedAt => by rw [h1]⟩

/-- C23 at a scenario whose first unit has a timeout of 20ms, run with
`context.TODO()`, which has no deadline: the context handed to the unit is
`context.TODO()` under a timeout of 20ms, and its deadline is 20ms after
the instant of the derivation. -/
theorem Run_derives_deadline_witness :
    (invocations (Scenario.Run sampleEnv cascadeScenario Context.todo).events)[0]? =
      some (sampleUnit 0 (some { After := "20ms", Expected := false }) .nil,
        Context.withTimeout Context.todo 20000000) ∧
    sampleEnv.ParseDuration "20ms" = some 20000000 ∧
    (Context.withTimeout Context.todo 20000000).Deadline sampleInstants =
      some (sampleInstants 0 + 20000000) :=
  ⟨rfl, by decide,
    ((((Run_derives_deadline sampleEnv cascadeScenario Context.todo 0
      (sampleUnit 0 (some { After := "20ms", Expected := false }) .nil,
        Context.withTimeout Context.todo 20000000) rfl).1
      { After := "20ms", Expected := false } 20000000 rfl (by decide)).2
        sampleInstants).1 rfl)⟩

/-! ## The cancel function of a unit's deadline -/

/-- C24, on the code: in a scenario whose first unit has a timeout of 20ms
and whose second unit has none, the cancel function of the context derived
for the first unit is called after the `Run` of the second unit, as the
last event of the sub-test function, and not between the two units. -/
theorem Run_cancel_after_later_unit :
    (Scenario.Run sampleEnv cascadeScenario Context.todo).events.map Event.kind =
      ["subtest", "unit run", "unit run", "cancel"] ∧
    (invocations (Scenario.Run sampleEnv cascadeScenario Context.todo).events).map
        (fun p => (p.1.Base.Index, p.1.Base.Timeout)) =
      [(0, some { After := "20ms", Expected := false }), (1, none)] ∧
    (Scenario.Run sampleEnv cascadeScenario Context.todo).events[3]? =
      some (Event.cancel (Context.withTimeout Context.todo 20000000)) :=
  ⟨by decide, by decide, rfl⟩

/-! ## The waits of a unit -/

theorem waitLine_before (b : String) :
    printlnMessage "wait: %s before" [b] = "(gdt) wait: " ++ b ++ " before\n" := by
  apply String.ext
  simp [printlnMessage, printfMessage, hasPrefix, sprintfChars, String.data_append]

theorem waitLine_after (b : String) :
    printlnMessage "wait: %s after" [b] = "(gdt) wait: " ++ b ++ " after\n" := by
  apply String.ext
  simp [printlnMessage, printfMessage, hasPrefix, sprintfChars, String.data_append]

theorem waitBefore_eq (env : Env) (ctx : Context) (wait : Option Wait) :
    waitBefore env ctx wait =
      match wait with
      | some w =>
          if w.Before ≠ "" then
            [Event.debugWrite (Debug ctx) ("(gdt) wait: " ++ w.Before ++ " before\n"),
             Event.sleep (w.BeforeDuration env.ParseDuration)]
          else []
      | none => [] := by
  cases wait with
  | none => rfl
  | some w => simp only [waitBefore, waitLine_before]

theorem waitAfter_eq (env : Env) (ctx : Context) (wait : Option Wait) :
    waitAfter env ctx wait =
      match wait with
      | some w =>
          if w.After ≠ "" then
            [Event.debugWrite (Debug ctx) ("(gdt) wait: " ++ w.After ++ " after\n"),
             Event.sleep (w.AfterDuration env.ParseDuration)]
          else []
      | none => [] := by
  cases wait with
  | none => rfl
  | some w => simp only [waitAfter, waitLine_after]

/-- The events of one iteration: the wait before, the call, and then the
wait after or, when the iteration ends the sub-test, the fatal report. -/
theorem runSpec_events (env : Env) (st : LoopState) (u : TestUnit) :
    ∃ tail : List Event,
      (runSpec env st u).events =
        waitBefore env st.ctx u.Base.Wait ++ [Event.unitRun u (unitContext env st u)] ++ tail ∧
      ((runSpec env st u).exited = false →
        tail = waitAfter env (runSpec env st u).state.ctx u.Base.Wait) ∧
      ((runSpec env st u).exited = true → ∃ err, tail = [Event.fatal err]) := by
  unfold runSpec unitContext
  simp only []
  cases hto : env.TimedOut (deriveTimeout env st u.Base.Timeout).ctx
      (u.Run (deriveTimeout env st u.Base.Timeout).ctx)
  · refine ⟨waitAfter env (recordReturn (deriveTimeout env st u.Base.Timeout)
      (u.Run (deriveTimeout env st u.Base.Timeout).ctx)).ctx u.Base.Wait, ?_, ?_, ?_⟩ <;> simp
  · cases ht : u.Base.Timeout with
    | none =>
        refine ⟨waitAfter env (recordReturn (deriveTimeout env st none) RunReturn.nil).ctx
          u.Base.Wait, ?_, ?_, ?_⟩ <;> simp
    | some t =>
        cases he : t.Expected
        · refine ⟨[Event.fatal (TimeoutExceeded t.After)], ?_, ?_, ?_⟩ <;> simp [he]
        · refine ⟨waitAfter env (recordReturn (deriveTimeout env st (some t)) RunReturn.nil).ctx
            u.Base.Wait, ?_, ?_, ?_⟩ <;> simp [he]

/-- The events of the loop hold the events of each iteration it reaches. -/
theorem runSpecs_events_split (env : Env) (us : List TestUnit) :
    ∀ (st : LoopState) (i : Nat) (u : TestUnit), us[i]? = some u →
      (runSpecs env st (us.take i)).exited = false →
        ∃ post : List Event, (runSpecs env st us).events =
          (runSpecs env st (us.take i)).events ++
            (runSpec env (runSpecs env st (us.take i)).state u).events ++ post := by
  induction us with
  | nil => intro st i u h; simp at h
  | cons u0 rest ih =>
      intro st i u h hex
      cases i with
      | zero =>
          simp only [List.getElem?_cons_zero, Option.some.injEq] at h
          subst h
          simp only [List.take_zero, runSpecs, List.nil_append]
          cases hx : (runSpec env st u0).exited
          · exact ⟨(runSpecs env (runSpec env st u0).state rest).events, by simp⟩
          · exact ⟨[], by simp⟩
      | succ j =>
          simp only [List.getElem?_cons_succ] at h
          simp only [List.take_succ_cons] at hex ⊢
          cases hx : (runSpec env st u0).exited
          · rw [runSpecs_cons_continue env st u0 _ hx] at hex ⊢
            rw [runSpecs_cons_continue env st u0 _ hx]
            simp only at hex ⊢
            obtain ⟨post, hpost⟩ := ih (runSpec env st u0).state j u h hex
            exact ⟨post, by rw [hpost]; simp only [List.append_assoc]⟩
          · rw [runSpecs_cons_exited env st u0 _ hx] at hex
            rw [hx] at hex
            cases hex

/-- C28, as stated, fails: the only unit of the scenario has a Wait whose
`After` is "20ms" and hits an unexpected timeout; its `Run` is followed by
the fatal report, and there is no line written to the debug sink and no
sleep after it. -/
theorem Run_wait_after_counterexample :
    fatalWaitScenario.Tests.map (fun u => u.Base.Wait) =
      [some { Before := "", After := "20ms" }] ∧
    (Scenario.Run sampleEnv fatalWaitScenario debugContext).events.map Event.kind =
      ["subtest", "unit run", "fatal", "cancel"] := by
  decide

/-- C28, amended: for every call of a unit, the events of the unit's
iteration are part of the run and are, in order: when `Wait.Before` is not
empty, and only then, the line "wait: <Before> before" written to the debug
sink and a sleep of that duration; the call of the unit's `Run`; and then,
unless the call hit an unexpected timeout, when `Wait.After` is not empty,
and only then, the line "wait: <After> after" and a sleep of that duration.
A call that hit an unexpected timeout is followed by the fatal report alone.
A unit with no Wait or with empty strings has neither line nor sleep. -/
theorem Run_wait_events (env : Env) (s : Scenario) (ctx : Context) (i : Nat)
    (p : TestUnit × Context)
    (hcall : (invocations (Scenario.Run env s ctx).events)[i]? = some p) :
    (∃ pre post : List Event, (Scenario.Run env s ctx).events =
      pre ++ (s.iteration env ctx i p.1).events ++ post) ∧
    (∃ tail : List Event,
      (s.iteration env ctx i p.1).events =
        (match p.1.Base.Wait with
         | some w =>
             if w.Before ≠ "" then
               [Event.debugWrite (Debug (s.stateBefore env ctx i).ctx)
                  ("(gdt) wait: " ++ w.Before ++ " before\n"),
                Event.sleep (w.BeforeDuration env.ParseDuration)]
             else []
         | none => []) ++ [Event.unitRun p.1 p.2] ++ tail ∧
      (unexpectedTimeout env p = false →
        tail =
          match p.1.Base.Wait with
          | some w =>
              if w.After ≠ "" then
                [Event.debugWrite (Debug (s.iteration env ctx i p.1).state.ctx)
                   ("(gdt) wait: " ++ w.After ++ " after\n"),
                 Event.sleep (w.AfterDuration env.ParseDuration)]
              else []
          | none => []) ∧
      (unexpectedTimeout env p = true → ∃ err, tail = [Event.fatal err])) := by
  rcases Run_fixture_cases env s ctx with ⟨fixes, hfixes⟩ | ⟨pre, n, post, fixes, h1, h2, h3⟩
  · rw [Run_invocations_of_found env s ctx fixes hfixes] at hcall
    obtain ⟨hunit, hex, hctx⟩ := runSpecs_reach env s.Tests _ i p hcall
    have hexit : (s.iteration env ctx i p.1).exited = unexpectedTimeout env p := by
      have h := runSpec_exited env (s.stateBefore env ctx i) p.1
      rw [Scenario.iteration, h]
      congr 1
      exact Prod.ext rfl hctx.symm
    refine ⟨?_, ?_⟩
    · obtain ⟨post, hpost⟩ := runSpecs_events_split env s.Tests _ i p.1 hunit hex
      rw [Run_of_found env s ctx fixes hfixes]
      simp only [hpost]
      exact ⟨fixes.map Event.fixtureStart ++ [Event.subtest s.Title] ++
          (runSpecs env (loopStart ctx) (s.Tests.take i)).events,
        post ++ (runSpecs env (loopStart ctx) s.Tests).state.defers.map Event.cancel ++
          fixes.reverse.map Event.fixtureStop,
        by simp only [Scenario.iteration, Scenario.stateBefore, List.append_assoc]⟩
    · obtain ⟨tail, hev, hcont, hfatal⟩ := runSpec_events env (s.stateBefore env ctx i) p.1
      refine ⟨tail, ?_, ?_, ?_⟩
      · rw [Scenario.iteration, hev, waitBefore_eq]
        have hc : unitContext env (s.stateBefore env ctx i) p.1 = p.2 := hctx.symm
        rw [hc]
      · intro hno
        rw [← hexit] at hno
        rw [← waitAfter_eq]
        exact hcont hno
      · intro hyes
        rw [← hexit] at hyes
        exact hfatal hyes
  · rw [Run_of_missing env s ctx pre n post fixes h1 h2 h3] at hcall
    simp only [invocations_append, invocations_fixtureStart, invocations_fixtureStop,
      List.append_nil] at hcall
    simp at hcall

/-- C28 at a scenario whose only unit waits 20ms before and after its
`Run`, run with a debug writer: the run writes the line of the wait before,
sleeps, calls the unit, writes the line of the wait after and sleeps. -/
theorem Run_wait_events_witness :
    (invocations (Scenario.Run sampleEnv waitScenario debugContext).events)[0]? =
      some (waitingUnit 0 (some { Before := "20ms", After := "20ms" }) none .nil,
        debugContext) ∧
    (Scenario.Run sampleEnv waitScenario debugContext).events.map Event.kind =
      ["subtest", "debug write", "sleep", "unit run", "debug write", "sleep"] ∧
    (∃ pre post : List Event, (Scenario.Run sampleEnv waitScenario debugContext).events =
      pre ++ (waitScenario.iteration sampleEnv debugContext 0
        (waitingUnit 0 (some { Before := "20ms", After := "20ms" }) none .nil)).events ++ post) :=
  ⟨rfl, by decide,
    (Run_wait_events sampleEnv waitScenario debugContext 0
      (waitingUnit 0 (some { Before := "20ms", After := "20ms" }) none .nil, debugContext)
      rfl).1⟩

/-! ## The lookup of required fixtures -/

theorem startedFixtures_append (a b : List Event) :
    startedFixtures (a ++ b) = startedFixtures a ++ startedFixtures b := by
  induction a with
  | nil => rfl
  | cons e rest ih => cases e <;> simp [startedFixtures, ih]

theorem startedFixtures_fixtureStart (fixes : List Fixture) :
    startedFixtures (fixes.map Event.fixtureStart) = fixes := by
  induction fixes with
  | nil => rfl
  | cons f rest ih => simp [startedFixtures, ih]

theorem startedFixtures_of_not_isFixture (l : List Event)
    (h : ∀ e ∈ l, e.isFixture = false) : startedFixtures l = [] := by
  induction l with
  | nil => rfl
  | cons e rest ih =>
      have he := h e (List.mem_cons_self _ _)
      have hrest := ih (fun x hx => h x (List.mem_cons_of_mem _ hx))
      cases e <;> simp [startedFixtures, Event.isFixture, hrest] at he ⊢

theorem startedFixtures_fixtureStop (fixes : List Fixture) :
    startedFixtures (fixes.map Event.fixtureStop) = [] := by
  induction fixes with
  | nil => rfl
  | cons f rest ih => simp [startedFixtures, ih]

theorem startedFixtures_cancel (cs : List Context) :
    startedFixtures (cs.map Event.cancel) = [] := by
  induction cs with
  | nil => rfl
  | cons c rest ih => simp [startedFixtures, ih]

/-- The fixtures started by a run that finds every required fixture. -/
theorem startedFixtures_of_found (env : Env) (s : Scenario) (ctx : Context)
    (fixes : List Fixture)
    (h : s.Require.map (fun n => Fixtures ctx (env.ToLower n)) = fixes.map some) :
    startedFixtures (Scenario.Run env s ctx).events = fixes := by
  rw [Run_of_found env s ctx fixes h]
  simp only [startedFixtures_append, startedFixtures_fixtureStart, startedFixtures_fixtureStop,
    startedFixtures_cancel, startedFixtures_of_not_isFixture _ (runSpecs_isFixture env _ _),
    startedFixtures, List.append_nil]

/-- The fixtures started by a run that misses a required fixture. -/
theorem startedFixtures_of_missing (env : Env) (s : Scenario) (ctx : Context)
    (pre : List String) (n : String) (post : List String) (fixes : List Fixture)
    (hreq : s.Require = pre ++ n :: post)
    (hn : Fixtures ctx (env.ToLower n) = none)
    (h : pre.map (fun m => Fixtures ctx (env.ToLower m)) = fixes.map some) :
    startedFixtures (Scenario.Run env s ctx).events = fixes := by
  rw [Run_of_missing env s ctx pre n post fixes hreq hn h]
  simp only [startedFixtures_append, startedFixtures_fixtureStart, startedFixtures_fixtureStop,
    List.append_nil]

theorem found_of_map_eq (lookup : String → Option Fixture) (names : List String) :
    ∀ (fixes : List Fixture), names.map lookup = fixes.map some →
      ∀ (i : Nat) (f : Fixture), fixes[i]? = some f →
        ∃ n, names[i]? = some n ∧ lookup n = some f := by
  induction names with
  | nil =>
      intro fixes h i f hf
      cases fixes with
      | nil => simp at hf
      | cons x xs => simp at h
  | cons m rest ih =>
      intro fixes h i f hf
      cases fixes with
      | nil => simp at h
      | cons x xs =>
          simp only [List.map_cons, List.cons.injEq] at h
          cases i with
          | zero =>
              simp only [List.getElem?_cons_zero, Option.some.injEq] at hf
              subst hf
              exact ⟨m, List.getElem?_cons_zero, h.1⟩
          | succ j =>
              simp only [List.getElem?_cons_succ] at hf ⊢
              exact ih xs h.2 j f hf

/-- C31: `Scenario.Run` looks each name of the Require list up under its
lower-cased form. It returns the error of a missing fixture exactly when
some name of the list has no entry in the fixture table of the context
under its lower-cased form; the error carries, in its original spelling,
the first such name of the list, before which every name has an entry. The
fixture started in place `i` is the entry of the table keyed by the
lower-cased form of name `i` of the list, and when every name has an entry
the fixtures started are these entries for all the names, in order. -/
theorem Run_lowercase_lookup (env : Env) (s : Scenario) (ctx : Context) :
    ((∃ n, (Scenario.Run env s ctx).ret = some (.single (RequiredFixtureMissing n))) ↔
      ∃ n ∈ s.Require, Fixtures ctx (env.ToLower n) = none) ∧
    (∀ e, (Scenario.Run env s ctx).ret = some (.single e) →
      ∃ pre n post, e = RequiredFixtureMissing n ∧ s.Require = pre ++ n :: post ∧
        Fixtures ctx (env.ToLower n) = none ∧
        ∀ m ∈ pre, (Fixtures ctx (env.ToLower m)).isSome = true) ∧
    (∀ (i : Nat) (f : Fixture),
      (startedFixtures (Scenario.Run env s ctx).events)[i]? = some f →
        ∃ n, s.Require[i]? = some n ∧ Fixtures ctx (env.ToLower n) = some f) ∧
    ((∀ n ∈ s.Require, (Fixtures ctx (env.ToLower n)).isSome = true) →
      (startedFixtures (Scenario.Run env s ctx).events).map some =
        s.Require.map (fun n => Fixtures ctx (env.ToLower n))) := by
  have hsingle : ∀ e, (Scenario.Run env s ctx).ret = some (.single e) →
      ∃ pre n post, e = RequiredFixtureMissing n ∧ s.Require = pre ++ n :: post ∧
        Fixtures ctx (env.ToLower n) = none ∧
        ∀ m ∈ pre, (Fixtures ctx (env.ToLower m)).isSome = true := by
    intro e he
    rcases Run_fixture_cases env s ctx with ⟨fixes, hfixes⟩ | ⟨pre, n, post, fixes, h1, h2, h3⟩
    · rw [Run_of_found env s ctx fixes hfixes] at he
      simp only at he
      split at he <;> simp at he
    · rw [Run_of_missing env s ctx pre n post fixes h1 h2 h3] at he
      simp only [Option.some.injEq, RunError.single.injEq] at he
      refine ⟨pre, n, post, he.symm, h1, h2, ?_⟩
      intro m hm
      obtain ⟨j, hj⟩ := List.getElem?_of_mem hm
      have hmap : (pre.map (fun m => Fixtures ctx (env.ToLower m)))[j]? =
          some (Fixtures ctx (env.ToLower m)) := by
        simp [List.getElem?_map, hj]
      rw [h3, List.getElem?_map] at hmap
      cases hx : fixes[j]? with
      | none => simp [hx] at hmap
      | some x =>
          simp only [hx, Option.map_some', Option.some.injEq] at hmap
          rw [← hmap]
          rfl
  refine ⟨⟨?_, ?_⟩, hsingle, ?_, ?_⟩
  · rintro ⟨n, hn⟩
    obtain ⟨pre, m, post, _, hreq, hnone, _⟩ := hsingle _ hn
    exact ⟨m, by rw [hreq]; simp, hnone⟩
  · intro h
    obtain ⟨pre, n, post, fixes, h1, h2, h3⟩ := exists_first_missing env _ _ h
    exact ⟨n, by rw [Run_of_missing env s ctx pre n post fixes h1 h2 h3]⟩
  · intro i f hf
    rcases Run_fixture_cases env s ctx with ⟨fixes, hfixes⟩ | ⟨pre, n, post, fixes, h1, h2, h3⟩
    · rw [startedFixtures_of_found env s ctx fixes hfixes] at hf
      exact found_of_map_eq _ _ fixes hfixes i f hf
    · rw [startedFixtures_of_missing env s ctx pre n post fixes h1 h2 h3] at hf
      obtain ⟨m, hm, hlook⟩ := found_of_map_eq _ _ fixes h3 i f hf
      refine ⟨m, ?_, hlook⟩
      rw [h1]
      have hlt : i < pre.length := by
        rcases Nat.lt_or_ge i pre.length with hlt | hge
        · exact hlt
        · rw [List.getElem?_eq_none hge] at hm
          cases hm
      rw [List.getElem?_append_left hlt]
      exact hm
  · intro hall
    obtain ⟨fixes, hfixes⟩ := exists_fixes_of_found env _ _ hall
    rw [startedFixtures_of_found env s ctx fixes hfixes, hfixes]

end GdtCore
